import Mathlib

/-!
# Reconciliation service: money normalisation, sign convention and matching

A shallow embedding of the Go packages `internal/parser` (function
`parseDecimalToMinor`), `internal/models` (method `SignedAmount`),
`internal/reconcile` (function `Reconcile`) and `internal/util` (functions
`FilterSystemByDate` and `FilterBanksByDate`), followed by theorems about them.

Conventions of the embedding

* A Go `string` is a sequence of bytes: `GoString := List UInt8`. The library
  functions of `strings` and `strconv` that the code calls are defined on
  bytes, as documented by the Go standard library.
* An `int64` is an `Int` kept in range by `wrap64`, applied wherever Go's
  arithmetic can wrap (negation, subtraction, addition).
* A Go `int` that counts the elements of slices is a `Nat`.
* A Go function returning `(v, err)` returns a pair `(v, Option error)`.
* A Go `map` is an association list with pairwise distinct keys, kept in
  insertion order (`GoMap`).
* A `for` loop is a left fold of its body over the elements it ranges over.
* A slice is a list; the nil slice and the empty slice are the empty list.
* A `time.Time` is the calendar date and wall clock it shows in its location,
  with the offset of that location; its instant is counted in seconds from
  0001-01-01T00:00:00Z and held in an `int64`, as package `time` does, and
  `Equal`, `After` and `Before` compare these seconds.
-/

namespace Recon

/-! ## Strings -/

/-- Go `string`: an immutable sequence of bytes. -/
abbrev GoString := List UInt8

/-- UTF-8 encoding of one code point. -/
def utf8Bytes (c : Char) : List UInt8 :=
  let n := c.toNat
  if n < 0x80 then [n.toUInt8]
  else if n < 0x800 then [(0xC0 + n / 64).toUInt8, (0x80 + n % 64).toUInt8]
  else if n < 0x10000 then
    [(0xE0 + n / 4096).toUInt8, (0x80 + n / 64 % 64).toUInt8, (0x80 + n % 64).toUInt8]
  else
    [(0xF0 + n / 262144).toUInt8, (0x80 + n / 4096 % 64).toUInt8,
      (0x80 + n / 64 % 64).toUInt8, (0x80 + n % 64).toUInt8]

/-- The bytes of a string literal (its UTF-8 encoding). -/
def str (s : String) : GoString := s.toList.flatMap utf8Bytes

/-- Bytewise lexicographic order, the order of Go's `<` on strings. -/
def strLess : GoString → GoString → Bool
  | [], [] => false
  | [], _ :: _ => true
  | _ :: _, [] => false
  | a :: as, b :: bs =>
    if a.toNat < b.toNat then true
    else if b.toNat < a.toNat then false
    else strLess as bs

/-- Go `strings.HasPrefix(s, p)`. -/
def hasPrefix (s p : GoString) : Bool := p.isPrefixOf s

/-- Go `strings.Contains(s, sep)` for a one-byte `sep`. -/
def containsByte (s : GoString) (c : UInt8) : Bool := s.contains c

/-- Go `strings.ReplaceAll(s, old, new)` for a one-byte `old`. -/
def replaceAllByte (s : GoString) (old : UInt8) (new : GoString) : GoString :=
  s.flatMap (fun c => if c = old then new else [c])

/-- Go `strings.Trim(s, cutset)` for a cutset of one ASCII byte: all leading and
trailing occurrences of that byte are removed. -/
def trimByte (s : GoString) (c : UInt8) : GoString :=
  ((s.dropWhile (fun x => x == c)).reverse.dropWhile (fun x => x == c)).reverse

/-- Go `strings.SplitN(s, sep, 2)` for a one-byte `sep`: the whole string when
`sep` does not occur, else the text before and after its first occurrence. -/
def splitN2 (s : GoString) (sep : UInt8) : List GoString :=
  if s.contains sep then
    [s.takeWhile (fun x => x != sep), (s.dropWhile (fun x => x != sep)).drop 1]
  else [s]

/-- The ASCII white space of `unicode.IsSpace`: tab, line feed, vertical tab,
form feed, carriage return and space. -/
def isAsciiSpace (c : UInt8) : Bool :=
  c == 0x09 || c == 0x0A || c == 0x0B || c == 0x0C || c == 0x0D || c == 0x20

/-- Second bytes of the two-byte white space: U+0085 and U+00A0 (after `C2`). -/
def isSpaceC2 (d : UInt8) : Bool := d == 0x85 || d == 0xA0

/-- Last two bytes of the white space encoded in three bytes starting with
`E2`: U+2000..U+200A, U+2028, U+2029, U+202F (after `E2 80`) and U+205F
(`E2 81 9F`). -/
def isSpaceE2 (d e : UInt8) : Bool :=
  (d == 0x80 && ((0x80 ≤ e.toNat && e.toNat ≤ 0x8A) || e == 0xA8 || e == 0xA9 || e == 0xAF))
  || (d == 0x81 && e == 0x9F)

/-- Removes the leading white space of `unicode.IsSpace`, rune by rune, on the
UTF-8 encoding: the six ASCII bytes, U+0085, U+00A0, U+1680 (`E1 9A 80`), the
`E2` group and U+3000 (`E3 80 80`). -/
def trimLeftSpace : GoString → GoString
  | [] => []
  | [c] => if isAsciiSpace c then [] else [c]
  | [c, d] =>
    if isAsciiSpace c then trimLeftSpace [d]
    else if c == 0xC2 && isSpaceC2 d then []
    else [c, d]
  | c :: d :: e :: rest =>
    if isAsciiSpace c then trimLeftSpace (d :: e :: rest)
    else if c == 0xC2 && isSpaceC2 d then trimLeftSpace (e :: rest)
    else if c == 0xE1 && d == 0x9A && e == 0x80 then trimLeftSpace rest
    else if c == 0xE2 && isSpaceE2 d e then trimLeftSpace rest
    else if c == 0xE3 && d == 0x80 && e == 0x80 then trimLeftSpace rest
    else c :: d :: e :: rest

/-- Removes the trailing white space, rune by rune; the argument is the string
reversed, so the encodings are read last byte first. -/
def trimLeftSpaceRev : GoString → GoString
  | [] => []
  | [c] => if isAsciiSpace c then [] else [c]
  | [d, c] =>
    if isAsciiSpace d then trimLeftSpaceRev [c]
    else if c == 0xC2 && isSpaceC2 d then []
    else [d, c]
  | e :: d :: c :: rest =>
    if isAsciiSpace e then trimLeftSpaceRev (d :: c :: rest)
    else if d == 0xC2 && isSpaceC2 e then trimLeftSpaceRev (c :: rest)
    else if c == 0xE1 && d == 0x9A && e == 0x80 then trimLeftSpaceRev rest
    else if c == 0xE2 && isSpaceE2 d e then trimLeftSpaceRev rest
    else if c == 0xE3 && d == 0x80 && e == 0x80 then trimLeftSpaceRev rest
    else e :: d :: c :: rest

/-- Go `strings.TrimSpace(s)`: leading white space is removed first, then the
trailing white space of what remains. -/
def trimSpace (s : GoString) : GoString :=
  (trimLeftSpaceRev (trimLeftSpace s).reverse).reverse

/-! ## Machine integers -/

/-- Two's-complement wrap-around of a mathematical integer into `int64`. -/
def wrap64 (x : Int) : Int := (x + 2 ^ 63) % 2 ^ 64 - 2 ^ 63

/-- The values of type `int64`. -/
def isInt64 (x : Int) : Prop := -(2 : Int) ^ 63 ≤ x ∧ x < (2 : Int) ^ 63

instance (x : Int) : Decidable (isInt64 x) := by unfold isInt64; infer_instance

/-- Smallest `int64`. -/
def minInt64 : Int := -(2 : Int) ^ 63

/-- Largest `int64`. -/
def maxInt64 : Int := (2 : Int) ^ 63 - 1

/-! ## strconv.ParseInt -/

/-- The two sentinel errors of `strconv`. -/
inductive ErrKind
  | ErrSyntax
  | ErrRange
  deriving DecidableEq, Repr

/-- The `*strconv.NumError` returned by `ParseInt`: the rejected text and the
reason. -/
structure NumError where
  Num : GoString
  Err : ErrKind
  deriving DecidableEq, Repr

/-- Loop of `strconv.ParseUint(s, 10, 64)` over the bytes still to read, with
the accumulator `n`: the result is the value, or the kind of the first error
met (a byte that is no decimal digit, or a value above `2^64 - 1`). -/
def parseUintLoop : List UInt8 → Nat → Except ErrKind Nat
  | [], n => .ok n
  | c :: cs, n =>
    if 0x30 ≤ c.toNat ∧ c.toNat ≤ 0x39 then
      if n ≥ (2 ^ 64 - 1) / 10 + 1 then .error .ErrRange
      else
        let n1 := (n * 10 + (c.toNat - 0x30)) % 2 ^ 64
        if n1 < n * 10 then .error .ErrRange
        else parseUintLoop cs n1
    else .error .ErrSyntax

/-- Go `strconv.ParseInt(s, 10, 64)`. -/
def parseInt (s0 : GoString) : Int × Option NumError :=
  match s0 with
  | [] => (0, some ⟨s0, .ErrSyntax⟩)
  | c :: rest =>
    let neg := c == 0x2D
    let s := if c == 0x2B || c == 0x2D then rest else s0
    if s = [] then (0, some ⟨s0, .ErrSyntax⟩)
    else
      match parseUintLoop s 0 with
      | .error .ErrSyntax => (0, some ⟨s0, .ErrSyntax⟩)
      | .error .ErrRange =>
        if neg then (-(2 : Int) ^ 63, some ⟨s0, .ErrRange⟩)
        else ((2 : Int) ^ 63 - 1, some ⟨s0, .ErrRange⟩)
      | .ok un =>
        if !neg && un ≥ 2 ^ 63 then ((2 : Int) ^ 63 - 1, some ⟨s0, .ErrRange⟩)
        else if neg && un > 2 ^ 63 then (-(2 : Int) ^ 63, some ⟨s0, .ErrRange⟩)
        else (if neg then wrap64 (-(un : Int)) else (un : Int), none)

/-! ## parser.parseDecimalToMinor -/

/-- The fractional digits kept: `fracPart[:2]` when longer than two bytes,
then `"0"` appended while shorter than two bytes. -/
def fracTwo (fracPart : GoString) : GoString :=
  let f := if fracPart.length > 2 then fracPart.take 2 else fracPart
  f ++ List.replicate (2 - f.length) 0x30

/-- The text after the sign has been taken off: separator rule, then spaces
removed, then surrounding quotes trimmed. -/
def normalizeSeparators (s : GoString) : GoString :=
  let s :=
    if containsByte s 0x2E && containsByte s 0x2C then replaceAllByte s 0x2C []
    else if containsByte s 0x2C && !containsByte s 0x2E then replaceAllByte s 0x2C [0x2E]
    else s
  let s := replaceAllByte s 0x20 []
  trimByte s 0x22

/-- The digit string handed to `strconv.ParseInt`: integer part followed by
exactly two fractional digits. -/
def fullDigits (s : GoString) : GoString :=
  let parts := splitN2 s 0x2E
  let intPart := parts.headD []
  let fracPart := if parts.length = 2 then parts.getD 1 [] else []
  let intPart := replaceAllByte intPart 0x2C []
  let intPart := if intPart = [] then [0x30] else intPart
  let full := intPart ++ fracTwo fracPart
  if full = [] then [0x30] else full

/-- Function `parseDecimalToMinor(s)`: the amount in minor units and the error. -/
def parseDecimalToMinor (s : GoString) : Int × Option NumError :=
  let s := trimSpace s
  if s = [] then (0, none)
  else
    let neg := hasPrefix s [0x2D]
    let s := if hasPrefix s [0x2D] then s.drop 1 else if hasPrefix s [0x2B] then s.drop 1 else s
    let full := fullDigits (normalizeSeparators s)
    match parseInt full with
    | (_, some err) => (0, some err)
    | (v, none) => (if neg then wrap64 (-v) else v, none)

/-! ## models -/

/-- Go `time.Time`, as the calendar date and wall clock it shows in its own
location (`Year()`, `Month()`, `Day()`, ...) and that location's offset east
of UTC in seconds. -/
structure Time where
  Year : Int
  Month : Nat
  Day : Nat
  Hour : Nat
  Minute : Nat
  Second : Nat
  Nanosecond : Nat
  Offset : Int
  deriving DecidableEq, Repr, Inhabited

/-- Go `type TransactionType string`. -/
abbrev TransactionType := GoString

/-- Constant `TypeDebit`. -/
def TypeDebit : TransactionType := str "DEBIT"

/-- Constant `TypeCredit`. -/
def TypeCredit : TransactionType := str "CREDIT"

/-- An internal system transaction; `Typ` is the field `Type`. -/
structure SystemTransaction where
  TrxID : GoString
  AmountMinor : Int
  Typ : TransactionType
  TransactionTime : Time
  deriving DecidableEq, Repr, Inhabited

/-- A single bank row. -/
structure BankStatement where
  UniqueIdentifier : GoString
  AmountMinor : Int
  Date : Time
  BankName : GoString
  deriving DecidableEq, Repr, Inhabited

/-- Method `(t TransactionType) SignedAmount(minor int64) (int64, error)`; the
error is its message. -/
def SignedAmount (t : TransactionType) (minor : Int) : Int × Option GoString :=
  if t = TypeDebit then
    if minor > 0 then (wrap64 (-minor), none) else (minor, none)
  else if t = TypeCredit then
    if minor < 0 then (wrap64 (-minor), none) else (minor, none)
  else (0, some (str "unknown transaction type: " ++ t))

/-- The type check of `ReadSystemTransactions` on the upper-cased type column:
`none` when the row is accepted, else the error that aborts the read. -/
def checkRowType (trxID typStr : GoString) : Option GoString :=
  if typStr = TypeDebit ∨ typStr = TypeCredit then none
  else some (str "row trxID=" ++ trxID ++ str " invalid type: " ++ typStr)

/-- Type `parser.BankFile`. -/
structure BankFile where
  BankName : GoString
  Rows : List BankStatement
  deriving DecidableEq, Repr, Inhabited

/-! ## Go maps with string keys -/

/-- A Go `map[string]V`: the entries in order of first insertion, no key
twice. Go leaves the order of `range` over a map unspecified; the model
ranges in insertion order, and `Reconcile` sorts every list it builds from
such a loop. -/
abbrev GoMap (V : Type) := List (GoString × V)

/-- Lookup `m[k]` with the `ok` flag: `none` when the key is absent. -/
def mapGet {V : Type} : GoMap V → GoString → Option V
  | [], _ => none
  | (k', v) :: rest, k => if k' = k then some v else mapGet rest k

/-- Assignment `m[k] = v`: overwrites the value of a present key, adds the
entry otherwise. -/
def mapSet {V : Type} : GoMap V → GoString → V → GoMap V
  | [], k, v => [(k, v)]
  | (k', v') :: rest, k, v =>
    if k' = k then (k', v) :: rest else (k', v') :: mapSet rest k v

/-- The keys of a map, in the order of the model. -/
def mapKeys {V : Type} (m : GoMap V) : List GoString := m.map (fun e => e.1)

/-! ## reconcile -/

/-- Entry of `SystemMissingInBank`; `Typ` is the field `Type`. -/
structure UnmatchedSystem where
  TrxID : GoString
  AmountMinor : Int
  Typ : GoString
  deriving DecidableEq, Repr

/-- Entry of `BankMissingInSystem`. -/
structure UnmatchedBank where
  UniqueIdentifier : GoString
  AmountMinor : Int
  BankName : GoString
  deriving DecidableEq, Repr

/-- Entry of `MatchedWithDiscrepancies`. -/
structure MatchedDiff where
  ID : GoString
  SystemAmountMinor : Int
  BankAmountMinor : Int
  AbsDiffMinor : Int
  BankName : GoString
  deriving DecidableEq, Repr

/-- The result of `Reconcile`. The three counters are Go `int`s that count
elements of slices held in memory, so they are natural numbers here. -/
structure Summary where
  TotalProcessed : Nat
  TotalMatched : Nat
  TotalUnmatched : Nat
  TotalAmountDiscrepancy : Int
  SystemMissingInBank : List UnmatchedSystem
  BankMissingInSystem : GoMap (List UnmatchedBank)
  MatchedWithDiscrepancies : List MatchedDiff
  Notes : List GoString
  deriving DecidableEq, Repr

/-- Function `abs64`, with the wrap-around of `-v`. -/
def abs64 (v : Int) : Int := if v < 0 then wrap64 (-v) else v

/-- Function `appendUnique(dst, vals...)`: each value not yet in `dst` is
appended. -/
def appendUnique (dst : List GoString) (vals : List GoString) : List GoString :=
  vals.foldl (fun d v => if v ∈ d then d else d ++ [v]) dst

/-- Go `sort.Slice(l, less)` with `less` comparing the string `key`: the keys of
every slice `Reconcile` sorts are pairwise distinct (they are keys of one
map), so the ascending arrangement is unique. -/
def sortSlice {α : Type} (key : α → GoString) (l : List α) : List α :=
  l.insertionSort (fun a b => strLess (key b) (key a) = false)

/-- Go `strings.Join(parts, sep)`. -/
def joinStrings (parts : List GoString) (sep : GoString) : GoString :=
  sep.intercalate parts

/-- Function `formatDuplicateNotes`: the identifiers in ascending order, each
with its bank names printed by `%v`. -/
def formatDuplicateNotes (dups : GoMap (List GoString)) : GoString :=
  let keys := sortSlice (fun k => k) (mapKeys dups)
  let parts := keys.map (fun id =>
    id ++ str " in banks=" ++
      (str "[" ++ joinStrings ((mapGet dups id).getD []) (str " ") ++ str "]"))
  str "duplicate bank IDs detected: " ++ joinStrings parts (str "; ")

/-- The system map `sysByID`: the last transaction of each identifier. -/
def buildSysByID (systemTxns : List SystemTransaction) : GoMap SystemTransaction :=
  systemTxns.foldl (fun m s => mapSet m s.TrxID s) []

/-- The maps `banked` and `duplicateBankIDs` while the bank rows are read. -/
structure BankIndex where
  banked : GoMap BankStatement
  duplicateBankIDs : GoMap (List GoString)
  deriving DecidableEq, Repr

/-- One row of the bank loop: a known identifier is recorded as a duplicate
and skipped, a new one is stored. -/
def indexRow (st : BankIndex) (r : BankStatement) : BankIndex :=
  match mapGet st.banked r.UniqueIdentifier with
  | some exist =>
    { st with
      duplicateBankIDs := mapSet st.duplicateBankIDs r.UniqueIdentifier
        (appendUnique ((mapGet st.duplicateBankIDs r.UniqueIdentifier).getD [])
          [exist.BankName, r.BankName]) }
  | none => { st with banked := mapSet st.banked r.UniqueIdentifier r }

/-- The bank loop over all files, in order. -/
def indexBanks (bankFiles : List BankFile) : BankIndex :=
  bankFiles.foldl (fun st bf => bf.Rows.foldl indexRow st) ⟨[], []⟩

/-- The variables written by the loop over `sysByID`. -/
structure MatchAcc where
  totalMatched : Nat
  totalAmountDiscrepancy : Int
  sysMissing : List UnmatchedSystem
  matchedDiffs : List MatchedDiff
  deriving DecidableEq, Repr

/-- One iteration of the loop over `sysByID`; the error of `SignedAmount` is
discarded (`sysSigned, _ :=`). -/
def matchStep (banked : GoMap BankStatement) (acc : MatchAcc)
    (e : GoString × SystemTransaction) : MatchAcc :=
  match mapGet banked e.1 with
  | some be =>
    let sysSigned := (SignedAmount e.2.Typ e.2.AmountMinor).1
    let bankSigned := be.AmountMinor
    let diff := abs64 (wrap64 (sysSigned - bankSigned))
    if diff ≠ 0 then
      { acc with
        totalMatched := acc.totalMatched + 1
        totalAmountDiscrepancy := wrap64 (acc.totalAmountDiscrepancy + abs64 diff)
        matchedDiffs := acc.matchedDiffs ++
          [⟨e.1, sysSigned, bankSigned, abs64 diff, be.BankName⟩] }
    else { acc with totalMatched := acc.totalMatched + 1 }
  | none =>
    { acc with
      sysMissing := acc.sysMissing ++ [⟨e.1, e.2.AmountMinor, e.2.Typ⟩] }

/-- One iteration of the loop over `banked` that fills `bankMissingGrouped`. -/
def bankMissingStep (sysByID : GoMap SystemTransaction)
    (g : GoMap (List UnmatchedBank)) (e : GoString × BankStatement) :
    GoMap (List UnmatchedBank) :=
  match mapGet sysByID e.1 with
  | some _ => g
  | none =>
    mapSet g e.2.BankName
      ((mapGet g e.2.BankName).getD [] ++ [⟨e.1, e.2.AmountMinor, e.2.BankName⟩])

/-- Function `Reconcile(systemTxns, bankFiles)`; `bankFiles` holds the files
the (non-nil) pointers of the Go slice point to. -/
def Reconcile (systemTxns : List SystemTransaction) (bankFiles : List BankFile) : Summary :=
  let sysByID := buildSysByID systemTxns
  let idx := indexBanks bankFiles
  let totalProcessed := bankFiles.foldl (fun n bf => n + bf.Rows.length) systemTxns.length
  let acc := sysByID.foldl (matchStep idx.banked) ⟨0, 0, [], []⟩
  let bankMissingGrouped := idx.banked.foldl (bankMissingStep sysByID) []
  let sysMissing := sortSlice (fun u => u.TrxID) acc.sysMissing
  let bankMissingGrouped :=
    bankMissingGrouped.map (fun g => (g.1, sortSlice (fun u => u.UniqueIdentifier) g.2))
  let matchedDiffs := sortSlice (fun d => d.ID) acc.matchedDiffs
  let notes :=
    if idx.duplicateBankIDs.length > 0 then [formatDuplicateNotes idx.duplicateBankIDs] else []
  let totalUnmatched := bankMissingGrouped.foldl (fun n g => n + g.2.length) sysMissing.length
  { TotalProcessed := totalProcessed
    TotalMatched := acc.totalMatched
    TotalUnmatched := totalUnmatched
    TotalAmountDiscrepancy := acc.totalAmountDiscrepancy
    SystemMissingInBank := sysMissing
    BankMissingInSystem := bankMissingGrouped
    MatchedWithDiscrepancies := matchedDiffs
    Notes := notes }

/-! ## package time -/

/-- Function `isLeap` of package `time`: the leap years of the proleptic
Gregorian calendar. -/
def isLeap (year : Int) : Bool :=
  year % 4 == 0 && (year % 100 != 0 || year % 400 == 0)

/-- The table `daysBefore` of package `time`, read at a month number from 1 to
12: the days of a non-leap year before the first of that month. -/
def daysBefore (month : Nat) : Nat :=
  ([0, 31, 59, 90, 120, 151, 181, 212, 243, 273, 304, 334, 365].getD (month - 1) 0)

/-- Function `daysIn` of package `time`: the length of a month. -/
def daysIn (month : Nat) (year : Int) : Nat :=
  if month = 2 ∧ isLeap year = true then 29 else daysBefore (month + 1) - daysBefore month

/-- The days from 1 January of year 1 to 1 January of `year`: 365 for every
year in between and one more for every leap year (what `daysSinceEpoch` of
package `time` counts, from another first year). -/
def daysSinceEpoch (year : Int) : Int :=
  365 * (year - 1) + (year - 1) / 4 - (year - 1) / 100 + (year - 1) / 400

/-- The days of the year `year` before the day `day` of the month `month`, as
`time.Date` adds them up: the days before the month, one more after February
of a leap year, the days before the day. -/
def daysBeforeDay (year : Int) (month day : Nat) : Nat :=
  daysBefore month + (if isLeap year = true ∧ 3 ≤ month then 1 else 0) + (day - 1)

/-- The days from 1 January of year 1 to the calendar day of `t`. -/
def Time.absDays (t : Time) : Int :=
  daysSinceEpoch t.Year + (daysBeforeDay t.Year t.Month t.Day : Int)

/-- Method `Time.sec`: the instant of `t` in seconds since 0001-01-01T00:00:00Z,
an `int64`: the days to the calendar day `t` shows and its clock, less the
offset of its location, with the wrap-around of `int64`. The days are counted
as package `time` counts them for the years a `time.Time` can show, which
begin with -292277022399. -/
def Time.sec (t : Time) : Int :=
  wrap64 (t.absDays * 86400 + (t.Hour : Int) * 3600 + (t.Minute : Int) * 60 +
    (t.Second : Int) - t.Offset)

/-- Method `Time.Equal`: the same seconds and nanoseconds. -/
def Time.Equal (t u : Time) : Bool :=
  t.sec == u.sec && t.Nanosecond == u.Nanosecond

/-- Method `Time.After`: the seconds of `t` are more than those of `u`, or the
same with more nanoseconds. -/
def Time.After (t u : Time) : Bool :=
  decide (t.sec > u.sec) || (t.sec == u.sec && decide (t.Nanosecond > u.Nanosecond))

/-- Method `Time.Before`: the seconds of `t` are less than those of `u`, or the
same with less nanoseconds. -/
def Time.Before (t u : Time) : Bool :=
  decide (t.sec < u.sec) || (t.sec == u.sec && decide (t.Nanosecond < u.Nanosecond))

/-- Go `time.Date(year, month, day, hour, min, sec, nsec, loc)` for a month, a
day and a clock in range and a year a time can show, `loc` given by its
offset: the time with these fields. The program passes the fields of a time,
which are in range. -/
def Date (year : Int) (month day hour min sec nsec : Nat) (loc : Int) : Time :=
  ⟨year, month, day, hour, min, sec, nsec, loc⟩

/-- The location `time.UTC`, as its offset. -/
def UTC : Int := 0

/-! ## util -/

/-- Function `dateOnly`: midnight UTC of the calendar day `t` shows. -/
def dateOnly (t : Time) : Time :=
  Date t.Year t.Month t.Day 0 0 0 0 UTC

/-- Function `betweenDays(t, start, end)`; `endTime` is the parameter `end`. -/
def betweenDays (t start endTime : Time) : Bool :=
  let td := dateOnly t
  let sd := dateOnly start
  let ed := dateOnly endTime
  (td.Equal sd || td.After sd) && (td.Equal ed || td.Before ed)

/-- Function `FilterSystemByDate(in, start, end)`; `txns` is the parameter
`in`, `endTime` the parameter `end`. -/
def FilterSystemByDate (txns : List SystemTransaction) (start endTime : Time) :
    List SystemTransaction :=
  txns.foldl (fun out x =>
    if betweenDays x.TransactionTime start endTime = true then out ++ [x] else out) []

/-- Function `FilterBanksByDate(files, start, end)`; `files` holds the files
the (non-nil) pointers of the Go slice point to, `endTime` is the parameter
`end`. -/
def FilterBanksByDate (files : List BankFile) (start endTime : Time) : List BankFile :=
  files.foldl (fun out bf =>
    let rows := bf.Rows.foldl (fun rows r =>
      if betweenDays r.Date start endTime = true then rows ++ [r] else rows) []
    out ++ [{ BankName := bf.BankName, Rows := rows }]) []

/-! ## Specification-side definitions -/

/-- White space as defined by Unicode (`unicode.IsSpace`). -/
def isSpaceRune (c : Char) : Bool :=
  let n := c.toNat
  (0x09 ≤ n && n ≤ 0x0D) || n == 0x20 || n == 0x85 || n == 0xA0 || n == 0x1680
  || (0x2000 ≤ n && n ≤ 0x200A) || n == 0x2028 || n == 0x2029 || n == 0x202F
  || n == 0x205F || n == 0x3000

/-- The UTF-8 encodings of the white space runes. -/
def spaceBytes : List GoString :=
  [[0x09], [0x0A], [0x0B], [0x0C], [0x0D], [0x20], [0xC2, 0x85], [0xC2, 0xA0],
   [0xE1, 0x9A, 0x80],
   [0xE2, 0x80, 0x80], [0xE2, 0x80, 0x81], [0xE2, 0x80, 0x82], [0xE2, 0x80, 0x83],
   [0xE2, 0x80, 0x84], [0xE2, 0x80, 0x85], [0xE2, 0x80, 0x86], [0xE2, 0x80, 0x87],
   [0xE2, 0x80, 0x88], [0xE2, 0x80, 0x89], [0xE2, 0x80, 0x8A],
   [0xE2, 0x80, 0xA8], [0xE2, 0x80, 0xA9], [0xE2, 0x80, 0xAF], [0xE2, 0x81, 0x9F],
   [0xE3, 0x80, 0x80]]

/-- ASCII decimal digit. -/
def isDigitByte (c : UInt8) : Bool := 0x30 ≤ c.toNat && c.toNat ≤ 0x39

/-- Byte of an unsigned amount text: decimal digit, `,` or `.`. -/
def isAmountByte (c : UInt8) : Bool := isDigitByte c || c == 0x2C || c == 0x2E

/-- The number written by a string of decimal digits. -/
def digitsVal (ds : GoString) : Nat := ds.foldl (fun a c => a * 10 + (c.toNat - 0x30)) 0

/-- The end of `parseDecimalToMinor`: the error of `ParseInt` is passed on
with value 0, else the sign is put back. -/
def resign (neg : Bool) (r : Int × Option NumError) : Int × Option NumError :=
  match r with
  | (_, some err) => (0, some err)
  | (v, none) => (if neg then wrap64 (-v) else v, none)

/-- The fractional part of a plain decimal as written: nothing, or a dot
followed by the digits. -/
def fracText : Option GoString → GoString
  | none => []
  | some fp => 0x2E :: fp

/-- The text of a plain decimal: a sign (empty, `+` or `-`), the integer
digits `ip` and, when `frac` is `some fp`, a dot followed by the digits `fp`. -/
def decimalText (sign ip : GoString) (frac : Option GoString) : GoString :=
  sign ++ (ip ++ fracText frac)

/-- The decimal value of `decimalText sign ip frac` multiplied by 100 and
truncated toward zero: the value is `± digitsVal (ip ++ fp) / 10 ^ fp.length`,
and `Int.tdiv` is the division that rounds toward zero. -/
def scaledTrunc (sign ip : GoString) (frac : Option GoString) : Int :=
  let fp := frac.getD []
  Int.tdiv ((if sign = [0x2D] then -1 else 1) * ((digitsVal (ip ++ fp) : Int) * 100))
    (10 ^ fp.length)

/-- The identifiers of the system transactions, in input order. -/
def systemIds (systemTxns : List SystemTransaction) : List GoString :=
  systemTxns.map (fun t => t.TrxID)

/-- All bank rows: the files in list order, the rows in order within a file. -/
def allRows (bankFiles : List BankFile) : List BankStatement :=
  bankFiles.flatMap (fun bf => bf.Rows)

/-- The identifiers of all bank rows, in input order. -/
def bankIds (bankFiles : List BankFile) : List GoString :=
  (allRows bankFiles).map (fun r => r.UniqueIdentifier)

/-- The number of entries of `bankMissingGrouped`, over all groups. -/
def groupCount (g : GoMap (List UnmatchedBank)) : Nat :=
  (g.map (fun e => e.2.length)).sum

/-- The entry of `MatchedWithDiscrepancies` one iteration of the loop over
`sysByID` appends, if any. -/
def diffEntry (banked : GoMap BankStatement) (e : GoString × SystemTransaction) :
    Option MatchedDiff :=
  match mapGet banked e.1 with
  | some be =>
    if abs64 (wrap64 ((SignedAmount e.2.Typ e.2.AmountMinor).1 - be.AmountMinor)) ≠ 0 then
      some ⟨e.1, (SignedAmount e.2.Typ e.2.AmountMinor).1, be.AmountMinor,
        abs64 (abs64 (wrap64 ((SignedAmount e.2.Typ e.2.AmountMinor).1 - be.AmountMinor))),
        be.BankName⟩
    else none
  | none => none

/-- The last system transaction with identifier `k`, in input order. -/
def lastWithId (systemTxns : List SystemTransaction) (k : GoString) : Option SystemTransaction :=
  systemTxns.reverse.find? (fun t => t.TrxID == k)

/-- The first bank row with identifier `k`, in input order. -/
def firstRowWithId (rows : List BankStatement) (k : GoString) : Option BankStatement :=
  rows.find? (fun r => r.UniqueIdentifier == k)

/-- The entries `bankMissingGrouped` gets under the key `bn` from the entries
`l` of `banked`: those of the identifiers absent from `sysByID` whose retained
row has bank name `bn`, in the order of `l`. -/
def missingOf (sysByID : GoMap SystemTransaction) (l : List (GoString × BankStatement))
    (bn : GoString) : List UnmatchedBank :=
  (l.filter (fun e => (mapGet sysByID e.1).isNone && e.2.BankName == bn)).map
    (fun e => ⟨e.1, e.2.AmountMinor, e.2.BankName⟩)

/-- The bank names of the rows with identifier `k`, in input order. -/
def occurrenceNames (rows : List BankStatement) (k : GoString) : List GoString :=
  (rows.filter (fun r => r.UniqueIdentifier == k)).map (fun r => r.BankName)

/-- The text of the duplicate note for the listed identifiers, each with its
bank names. -/
def noteText (entries : List (GoString × List GoString)) : GoString :=
  str "duplicate bank IDs detected: " ++
    joinStrings (entries.map (fun e =>
      e.1 ++ str " in banks=[" ++ joinStrings e.2 (str " ") ++ str "]")) (str "; ")

/-- The identifiers listed by the duplicate note with the bank names printed
for each: the keys of `duplicateBankIDs` in ascending order. -/
def duplicateEntries (dups : GoMap (List GoString)) : List (GoString × List GoString) :=
  (sortSlice (fun k => k) (mapKeys dups)).map (fun k => (k, (mapGet dups k).getD []))

/-- The bank files `banks'` are the files of `banks` in another order, each
with the same name and its rows in another order. -/
def BanksPermuted (banks banks' : List BankFile) : Prop :=
  ∃ mid : List BankFile,
    List.Forall₂ (fun bf bf' => bf'.BankName = bf.BankName ∧ bf'.Rows.Perm bf.Rows) banks mid ∧
      mid.Perm banks'

/-- Equality of two summaries as Go values: the scalar fields, the three lists
and the notes are equal, and the map `BankMissingInSystem` has the same value
under every key. -/
def SummaryEq (a b : Summary) : Prop :=
  a.TotalProcessed = b.TotalProcessed ∧ a.TotalMatched = b.TotalMatched ∧
    a.TotalUnmatched = b.TotalUnmatched ∧
    a.TotalAmountDiscrepancy = b.TotalAmountDiscrepancy ∧
    a.SystemMissingInBank = b.SystemMissingInBank ∧
    (∀ k, mapGet a.BankMissingInSystem k = mapGet b.BankMissingInSystem k) ∧
    a.MatchedWithDiscrepancies = b.MatchedWithDiscrepancies ∧ a.Notes = b.Notes

/-- A calendar date: the month is from 1 to 12 and the day from 1 to the
length of the month. -/
def validDate (t : Time) : Prop :=
  1 ≤ t.Month ∧ t.Month ≤ 12 ∧ 1 ≤ t.Day ∧ t.Day ≤ daysIn t.Month t.Year

instance (t : Time) : Decidable (validDate t) := by
  unfold validDate; infer_instance

/-- The first year of the range of `dateInRange`: package `time` counts the
days of a date from 1 January of this year on. -/
def minYear : Int := -292277022399

/-- The last year of the range of `dateInRange`: the last year all of whose
midnights are less than `2^63` seconds after 0001-01-01T00:00:00Z. -/
def maxYear : Int := 292277024626

/-- A calendar date of a year from `minYear` to `maxYear`. -/
def dateInRange (t : Time) : Prop :=
  validDate t ∧ minYear ≤ t.Year ∧ t.Year ≤ maxYear

instance (t : Time) : Decidable (dateInRange t) := by
  unfold dateInRange; infer_instance

/-- The calendar day of `a` is that of `b` or an earlier one: the comparison
of year, then month, then day. -/
def dayLe (a b : Time) : Bool :=
  decide (a.Year < b.Year) ||
    (a.Year == b.Year &&
      (decide (a.Month < b.Month) || (a.Month == b.Month && decide (a.Day ≤ b.Day))))

/-- The calendar day of `t` is on or after that of `start` and on or before
that of `endTime`. -/
def inDayRange (t start endTime : Time) : Bool :=
  dayLe start t && dayLe t endTime

/-- The transactions without those of identifier `k`. -/
def withoutId (systemTxns : List SystemTransaction) (k : GoString) : List SystemTransaction :=
  systemTxns.filter (fun t => t.TrxID != k)

/-- The transactions of identifier `k`. -/
def withId (systemTxns : List SystemTransaction) (k : GoString) : List SystemTransaction :=
  systemTxns.filter (fun t => t.TrxID == k)

/-! ## Theorems: white space -/

theorem utf8Bytes_mem_spaceBytes (c : Char) (h : isSpaceRune c = true) :
    utf8Bytes c ∈ spaceBytes := by
  unfold isSpaceRune at h
  unfold utf8Bytes
  generalize c.toNat = n at h
  simp only [Bool.or_eq_true, Bool.and_eq_true, decide_eq_true_eq, beq_iff_eq] at h
  have hn : n ≤ 0x3000 := by omega
  have key : ∀ k : Nat, k ≤ 0x3000 →
      ((0x09 ≤ k ∧ k ≤ 0x0D) ∨ k = 0x20 ∨ k = 0x85 ∨ k = 0xA0 ∨ k = 0x1680
        ∨ (0x2000 ≤ k ∧ k ≤ 0x200A) ∨ k = 0x2028 ∨ k = 0x2029 ∨ k = 0x202F
        ∨ k = 0x205F ∨ k = 0x3000) →
      k ∈ [0x09, 0x0A, 0x0B, 0x0C, 0x0D, 0x20, 0x85, 0xA0, 0x1680, 0x2000, 0x2001, 0x2002,
        0x2003, 0x2004, 0x2005, 0x2006, 0x2007, 0x2008, 0x2009, 0x200A, 0x2028, 0x2029,
        0x202F, 0x205F, 0x3000] := by
    intro k _ hk
    simp only [List.mem_cons, List.mem_singleton, List.not_mem_nil, or_false]
    omega
  have hmem := key n hn (by omega)
  simp only [List.mem_cons, List.mem_singleton, List.not_mem_nil, or_false] at hmem
  rcases hmem with h | h | h | h | h | h | h | h | h | h | h | h | h | h | h | h | h | h | h
    | h | h | h | h | h | h <;> subst h <;> decide

theorem trimLeftSpace_spaceBytes (w : GoString) (hw : w ∈ spaceBytes) (rest : GoString) :
    trimLeftSpace (w ++ rest) = trimLeftSpace rest := by
  simp only [spaceBytes, List.mem_cons, List.mem_singleton, List.not_mem_nil, or_false] at hw
  rcases hw with h | h | h | h | h | h | h | h | h | h | h | h | h | h | h | h | h | h | h
    | h | h | h | h | h | h <;> subst h <;>
    first
    | (rcases rest with _ | ⟨d, _ | ⟨e, r⟩⟩ <;> simp [trimLeftSpace, isAsciiSpace] <;> done)
    | (rcases rest with _ | ⟨e, r⟩ <;> simp [trimLeftSpace, isAsciiSpace, isSpaceC2] <;> done)
    | simp [trimLeftSpace, isAsciiSpace, isSpaceC2, isSpaceE2, UInt8.size]

theorem trimLeftSpace_space_str (cs : List Char) (h : ∀ c ∈ cs, isSpaceRune c = true) :
    trimLeftSpace (cs.flatMap utf8Bytes) = [] := by
  induction cs with
  | nil => rfl
  | cons c cs ih =>
    rw [List.flatMap_cons,
      trimLeftSpace_spaceBytes _ (utf8Bytes_mem_spaceBytes c (h c (List.mem_cons_self _ _)))]
    exact ih (fun x hx => h x (List.mem_cons_of_mem _ hx))

theorem trimSpace_space_str (cs : List Char) (h : ∀ c ∈ cs, isSpaceRune c = true) :
    trimSpace (cs.flatMap utf8Bytes) = [] := by
  unfold trimSpace
  rw [trimLeftSpace_space_str cs h]
  rfl

/-! ## Theorems: strings without white space -/

theorem isAmountByte_toNat (c : UInt8) (h : isAmountByte c = true) :
    (0x30 ≤ c.toNat ∧ c.toNat ≤ 0x39) ∨ c.toNat = 0x2C ∨ c.toNat = 0x2E := by
  simp only [isAmountByte, isDigitByte, Bool.or_eq_true, Bool.and_eq_true, decide_eq_true_eq,
    beq_iff_eq] at h
  rcases h with (h | h) | h
  · exact Or.inl h
  · subst h; exact Or.inr (Or.inl rfl)
  · subst h; exact Or.inr (Or.inr rfl)

theorem byte_ne_of_toNat_ne {c d : UInt8} (h : c.toNat ≠ d.toNat) : c ≠ d :=
  fun e => h (congrArg UInt8.toNat e)

theorem trimLeftSpace_cons_ascii (c : UInt8) (rest : GoString) (h1 : c.toNat < 0x80)
    (h2 : isAsciiSpace c = false) : trimLeftSpace (c :: rest) = c :: rest := by
  have hC2 : c ≠ 0xC2 := byte_ne_of_toNat_ne (by simp [UInt8.size]; omega)
  have hE1 : c ≠ 0xE1 := byte_ne_of_toNat_ne (by simp [UInt8.size]; omega)
  have hE2 : c ≠ 0xE2 := byte_ne_of_toNat_ne (by simp [UInt8.size]; omega)
  have hE3 : c ≠ 0xE3 := byte_ne_of_toNat_ne (by simp [UInt8.size]; omega)
  rcases rest with _ | ⟨d, _ | ⟨e, r⟩⟩ <;> simp [trimLeftSpace, h2, hC2, hE1, hE2, hE3]

theorem trimLeftSpaceRev_cons_ascii (e : UInt8) (rest : GoString) (h1 : e.toNat < 0x80)
    (h2 : isAsciiSpace e = false) : trimLeftSpaceRev (e :: rest) = e :: rest := by
  have h80 : e ≠ 0x80 := byte_ne_of_toNat_ne (by simp [UInt8.size]; omega)
  have h85 : e ≠ 0x85 := byte_ne_of_toNat_ne (by simp [UInt8.size]; omega)
  have hA0 : e ≠ 0xA0 := byte_ne_of_toNat_ne (by simp [UInt8.size]; omega)
  have hA8 : e ≠ 0xA8 := byte_ne_of_toNat_ne (by simp [UInt8.size]; omega)
  have hA9 : e ≠ 0xA9 := byte_ne_of_toNat_ne (by simp [UInt8.size]; omega)
  have hAF : e ≠ 0xAF := byte_ne_of_toNat_ne (by simp [UInt8.size]; omega)
  have h9F : e ≠ 0x9F := byte_ne_of_toNat_ne (by simp [UInt8.size]; omega)
  have hlt : ¬ (128 ≤ e.toNat) := by omega
  rcases rest with _ | ⟨d, _ | ⟨c, r⟩⟩ <;>
    simp [trimLeftSpaceRev, isSpaceC2, isSpaceE2, h2, h80, h85, hA0, hA8, hA9, hAF, h9F, hlt]

theorem trimSpace_of_ascii (s : GoString)
    (h : ∀ c ∈ s, c.toNat < 0x80 ∧ isAsciiSpace c = false) : trimSpace s = s := by
  unfold trimSpace
  rcases s with _ | ⟨c, rest⟩
  · rfl
  · rw [trimLeftSpace_cons_ascii c rest (h c (List.mem_cons_self _ _)).1
      (h c (List.mem_cons_self _ _)).2]
    rcases hr : (c :: rest).reverse with _ | ⟨e, r⟩
    · simp at hr
    · have he : e ∈ c :: rest := by
        have : e ∈ (c :: rest).reverse := by rw [hr]; exact List.mem_cons_self _ _
        exact List.mem_reverse.mp this
      rw [trimLeftSpaceRev_cons_ascii e r (h e he).1 (h e he).2, ← hr, List.reverse_reverse]

theorem amountByte_ascii (c : UInt8) (h : isAmountByte c = true) :
    c.toNat < 0x80 ∧ isAsciiSpace c = false := by
  have hn := isAmountByte_toNat c h
  refine ⟨by omega, ?_⟩
  have e1 : c ≠ 0x09 := byte_ne_of_toNat_ne (by simp [UInt8.size]; omega)
  have e2 : c ≠ 0x0A := byte_ne_of_toNat_ne (by simp [UInt8.size]; omega)
  have e3 : c ≠ 0x0B := byte_ne_of_toNat_ne (by simp [UInt8.size]; omega)
  have e4 : c ≠ 0x0C := byte_ne_of_toNat_ne (by simp [UInt8.size]; omega)
  have e5 : c ≠ 0x0D := byte_ne_of_toNat_ne (by simp [UInt8.size]; omega)
  have e6 : c ≠ 0x20 := byte_ne_of_toNat_ne (by simp [UInt8.size]; omega)
  simp [isAsciiSpace, e1, e2, e3, e4, e5, e6]

theorem containsByte_iff (s : GoString) (c : UInt8) : containsByte s c = true ↔ c ∈ s := by
  simp [containsByte]

theorem replaceAllByte_of_not_mem (s : GoString) (old : UInt8) (new : GoString)
    (h : old ∉ s) : replaceAllByte s old new = s := by
  unfold replaceAllByte
  induction s with
  | nil => rfl
  | cons c cs ih =>
    have hc : c ≠ old := fun e => h (e ▸ List.mem_cons_self _ _)
    rw [List.flatMap_cons, ih (fun hm => h (List.mem_cons_of_mem _ hm))]
    simp [hc]

theorem replaceAllByte_nil_eq_filter (s : GoString) (old : UInt8) :
    replaceAllByte s old [] = s.filter (fun c => c != old) := by
  unfold replaceAllByte
  induction s with
  | nil => rfl
  | cons c cs ih =>
    rw [List.flatMap_cons, ih]
    by_cases hc : c = old <;> simp [hc]

theorem replaceAllByte_single_eq_map (s : GoString) (old new : UInt8) :
    replaceAllByte s old [new] = s.map (fun c => if c = old then new else c) := by
  unfold replaceAllByte
  induction s with
  | nil => rfl
  | cons c cs ih =>
    rw [List.flatMap_cons, ih]
    by_cases hc : c = old <;> simp [hc]

theorem trimByte_of_not_mem (s : GoString) (c : UInt8) (h : c ∉ s) : trimByte s c = s := by
  unfold trimByte
  have h1 : s.dropWhile (fun x => x == c) = s := by
    rcases s with _ | ⟨a, r⟩
    · rfl
    · have : (a == c) = false := beq_false_of_ne (fun e => h (e ▸ List.mem_cons_self _ _))
      rw [List.dropWhile_cons, this]; rfl
  rw [h1]
  have h2 : s.reverse.dropWhile (fun x => x == c) = s.reverse := by
    rcases hr : s.reverse with _ | ⟨a, r⟩
    · rfl
    · have ha : a ∈ s := by
        have : a ∈ s.reverse := by rw [hr]; exact List.mem_cons_self _ _
        exact List.mem_reverse.mp this
      have : (a == c) = false := beq_false_of_ne (fun e => h (e ▸ ha))
      rw [List.dropWhile_cons, this]; rfl
  rw [h2, List.reverse_reverse]

/-! ## Theorems: sign and separators of `parseDecimalToMinor` -/

theorem parseDecimalToMinor_of_trimmed (s : GoString) (htrim : trimSpace s = s) (hne : s ≠ []) :
    parseDecimalToMinor s =
      resign (hasPrefix s [0x2D])
        (parseInt (fullDigits (normalizeSeparators
          (if hasPrefix s [0x2D] then s.drop 1 else if hasPrefix s [0x2B] then s.drop 1 else s)))) := by
  unfold parseDecimalToMinor resign
  dsimp only
  rw [htrim, if_neg hne]

theorem parseDecimalToMinor_sign_body (sign body : GoString)
    (hsign : sign = [] ∨ sign = [0x2B] ∨ sign = [0x2D])
    (hbody : ∀ c ∈ body, isAmountByte c = true) (hne : sign ++ body ≠ []) :
    parseDecimalToMinor (sign ++ body) =
      resign (sign == [0x2D]) (parseInt (fullDigits (normalizeSeparators body))) := by
  have hascii : ∀ c ∈ sign ++ body, c.toNat < 0x80 ∧ isAsciiSpace c = false := by
    intro c hc
    rcases List.mem_append.mp hc with h | h
    · rcases hsign with e | e | e <;> subst e
      · simp at h
      · simp only [List.mem_singleton] at h; subst h; decide
      · simp only [List.mem_singleton] at h; subst h; decide
    · exact amountByte_ascii c (hbody c h)
  rw [parseDecimalToMinor_of_trimmed _ (trimSpace_of_ascii _ hascii) hne]
  rcases hsign with e | e | e <;> subst e
  · rcases body with _ | ⟨b, bs⟩
    · exact absurd rfl hne
    · have hb := isAmountByte_toNat b (hbody b (List.mem_cons_self _ _))
      have h1 : (0x2D : UInt8) ≠ b := fun e => by
        have := congrArg UInt8.toNat e; simp [UInt8.size] at this; omega
      have h2 : (0x2B : UInt8) ≠ b := fun e => by
        have := congrArg UInt8.toNat e; simp [UInt8.size] at this; omega
      have p1 : hasPrefix ([] ++ b :: bs) [0x2D] = false := by
        simp [hasPrefix, List.isPrefixOf, h1]
      have p2 : hasPrefix ([] ++ b :: bs) [0x2B] = false := by
        simp [hasPrefix, List.isPrefixOf, h2]
      rw [p1, p2]
      rfl
  · have p1 : hasPrefix ([0x2B] ++ body) [0x2D] = false := by
      simp [hasPrefix, List.isPrefixOf]
    have p2 : hasPrefix ([0x2B] ++ body) [0x2B] = true := by
      simp [hasPrefix, List.isPrefixOf]
    rw [p1, p2]
    rfl
  · have p1 : hasPrefix ([0x2D] ++ body) [0x2D] = true := by
      simp [hasPrefix, List.isPrefixOf]
    rw [p1]
    rfl

theorem normalizeSeparators_amount (body : GoString)
    (hbody : ∀ c ∈ body, isAmountByte c = true) :
    normalizeSeparators body =
      if containsByte body 0x2E && containsByte body 0x2C then
        body.filter (fun c => c != 0x2C)
      else if containsByte body 0x2C && !containsByte body 0x2E then
        body.map (fun c => if c = 0x2C then 0x2E else c)
      else body := by
  have hno : ∀ (t : GoString), (∀ c ∈ t, isAmountByte c = true) →
      trimByte (replaceAllByte t 0x20 []) 0x22 = t := by
    intro t ht
    have h20 : (0x20 : UInt8) ∉ t := fun hm => by
      have := isAmountByte_toNat _ (ht _ hm); simp [UInt8.size] at this
    have h22 : (0x22 : UInt8) ∉ t := fun hm => by
      have := isAmountByte_toNat _ (ht _ hm); simp [UInt8.size] at this
    rw [replaceAllByte_of_not_mem t _ _ h20, trimByte_of_not_mem t _ h22]
  have hfilter : ∀ c ∈ body.filter (fun c => c != 0x2C), isAmountByte c = true :=
    fun c hc => hbody c (List.mem_filter.mp hc).1
  have hmap : ∀ c ∈ body.map (fun c => if c = 0x2C then 0x2E else c), isAmountByte c = true := by
    intro c hc
    rcases List.mem_map.mp hc with ⟨x, hx, rfl⟩
    by_cases h : x = 0x2C
    · simp only [h, if_true]; decide
    · simp only [h, if_false]; exact hbody x hx
  unfold normalizeSeparators
  dsimp only
  rw [replaceAllByte_nil_eq_filter body, replaceAllByte_single_eq_map body]
  by_cases h1 : (containsByte body 0x2E && containsByte body 0x2C) = true
  · rw [if_pos h1]
    exact hno _ hfilter
  · rw [if_neg h1]
    by_cases h2 : (containsByte body 0x2C && !containsByte body 0x2E) = true
    · rw [if_pos h2]
      exact hno _ hmap
    · rw [if_neg h2]
      exact hno _ hbody

/-! ## Theorems: digits and `ParseInt` -/

theorem foldl_digit_ge (ds : GoString) (n : Nat) :
    n ≤ ds.foldl (fun a c => a * 10 + (c.toNat - 0x30)) n := by
  induction ds generalizing n with
  | nil => exact Nat.le_refl _
  | cons c cs ih =>
    rw [List.foldl_cons]
    exact Nat.le_trans (by omega) (ih _)

theorem foldl_digit_eq (ds : GoString) (n : Nat) :
    ds.foldl (fun a c => a * 10 + (c.toNat - 0x30)) n = n * 10 ^ ds.length + digitsVal ds := by
  unfold digitsVal
  induction ds generalizing n with
  | nil => simp
  | cons c cs ih =>
    rw [List.foldl_cons, List.foldl_cons, ih, ih (0 * 10 + (c.toNat - 0x30)), List.length_cons,
      pow_succ]
    ring

theorem digitsVal_append (a b : GoString) :
    digitsVal (a ++ b) = digitsVal a * 10 ^ b.length + digitsVal b := by
  conv_lhs => unfold digitsVal
  rw [List.foldl_append, foldl_digit_eq]
  rfl

theorem digitsVal_lt (ds : GoString) (h : ∀ c ∈ ds, isDigitByte c = true) :
    digitsVal ds < 10 ^ ds.length := by
  induction ds using List.reverseRecOn with
  | nil => simp [digitsVal]
  | append_singleton cs c ih =>
    have hc := h c (by simp)
    simp only [isDigitByte, Bool.and_eq_true, decide_eq_true_eq] at hc
    have ih' := ih (fun x hx => h x (by simp [hx]))
    rw [digitsVal_append, List.length_append, List.length_singleton, pow_succ]
    have : digitsVal [c] = c.toNat - 0x30 := by simp [digitsVal]
    rw [this]
    omega

theorem parseUintLoop_digits (ds : GoString) (n : Nat)
    (hds : ∀ c ∈ ds, isDigitByte c = true)
    (h : ds.foldl (fun a c => a * 10 + (c.toNat - 0x30)) n < 2 ^ 64) :
    parseUintLoop ds n = .ok (ds.foldl (fun a c => a * 10 + (c.toNat - 0x30)) n) := by
  induction ds generalizing n with
  | nil => rfl
  | cons c cs ih =>
    have hc := hds c (List.mem_cons_self _ _)
    simp only [isDigitByte, Bool.and_eq_true, decide_eq_true_eq] at hc
    rw [List.foldl_cons] at h ⊢
    have hge := foldl_digit_ge cs (n * 10 + (c.toNat - 0x30))
    have hlt : n * 10 + (c.toNat - 0x30) < 2 ^ 64 := Nat.lt_of_le_of_lt hge h
    have hmod : (n * 10 + (c.toNat - 0x30)) % 2 ^ 64 = n * 10 + (c.toNat - 0x30) :=
      Nat.mod_eq_of_lt hlt
    have hcut : ¬ (n ≥ (2 ^ 64 - 1) / 10 + 1) := by
      norm_num at hlt ⊢
      omega
    unfold parseUintLoop
    rw [if_pos hc, if_neg hcut]
    simp only [hmod]
    rw [if_neg (by omega)]
    exact ih _ (fun x hx => hds x (List.mem_cons_of_mem _ hx)) h

theorem parseInt_digits (ds : GoString) (hds : ∀ c ∈ ds, isDigitByte c = true)
    (hne : ds ≠ []) (h : digitsVal ds < 2 ^ 63) :
    parseInt ds = ((digitsVal ds : Int), none) := by
  rcases ds with _ | ⟨c, rest⟩
  · exact absurd rfl hne
  · have hc := hds c (List.mem_cons_self _ _)
    simp only [isDigitByte, Bool.and_eq_true, decide_eq_true_eq] at hc
    have h1 : (c == 0x2D) = false :=
      beq_false_of_ne (byte_ne_of_toNat_ne (by simp [UInt8.size]; omega))
    have h2 : (c == 0x2B) = false :=
      beq_false_of_ne (byte_ne_of_toNat_ne (by simp [UInt8.size]; omega))
    have hloop := parseUintLoop_digits (c :: rest) 0 hds
      (Nat.lt_trans h (by norm_num))
    unfold parseInt
    simp only [h1, h2, Bool.or_self, Bool.false_eq_true, if_false, List.cons_ne_nil]
    rw [hloop]
    have hv : ¬ (List.foldl (fun a c => a * 10 + (c.toNat - 0x30)) 0 (c :: rest) ≥ 2 ^ 63) := by
      have : List.foldl (fun a c => a * 10 + (c.toNat - 0x30)) 0 (c :: rest)
          = digitsVal (c :: rest) := rfl
      omega
    dsimp only
    rw [if_neg (by simpa using hv), if_neg (by simp)]
    rfl

/-! ## Theorems: plain decimals -/

theorem digit_isAmountByte (c : UInt8) (h : isDigitByte c = true) : isAmountByte c = true := by
  simp [isAmountByte, h]

theorem digit_ne_dot (c : UInt8) (h : isDigitByte c = true) : c ≠ 0x2E := by
  simp only [isDigitByte, Bool.and_eq_true, decide_eq_true_eq] at h
  exact byte_ne_of_toNat_ne (by simp [UInt8.size]; omega)

theorem digit_ne_comma (c : UInt8) (h : isDigitByte c = true) : c ≠ 0x2C := by
  simp only [isDigitByte, Bool.and_eq_true, decide_eq_true_eq] at h
  exact byte_ne_of_toNat_ne (by simp [UInt8.size]; omega)

theorem splitN2_digits (ip : GoString) (hip : ∀ c ∈ ip, isDigitByte c = true) :
    splitN2 ip 0x2E = [ip] := by
  unfold splitN2
  have : ip.contains 0x2E = false := by
    have hiff := containsByte_iff ip 0x2E
    unfold containsByte at hiff
    rw [← Bool.not_eq_true, hiff]
    exact fun hm => digit_ne_dot _ (hip _ hm) rfl
  rw [this]
  rfl

theorem splitN2_digits_dot (ip fp : GoString) (hip : ∀ c ∈ ip, isDigitByte c = true) :
    splitN2 (ip ++ 0x2E :: fp) 0x2E = [ip, fp] := by
  unfold splitN2
  have hc : (ip ++ 0x2E :: fp).contains 0x2E = true := by simp
  have ht : ∀ (l : GoString), (∀ c ∈ l, isDigitByte c = true) →
      (l ++ 0x2E :: fp).takeWhile (fun x => x != 0x2E) = l ∧
      (l ++ 0x2E :: fp).dropWhile (fun x => x != 0x2E) = 0x2E :: fp := by
    intro l hl
    induction l with
    | nil => simp [List.takeWhile, List.dropWhile]
    | cons a l ih =>
      have ha : (a != 0x2E) = true := by
        simp only [bne_iff_ne, ne_eq]
        exact digit_ne_dot a (hl a (List.mem_cons_self _ _))
      have := ih (fun x hx => hl x (List.mem_cons_of_mem _ hx))
      simp only [List.cons_append, List.takeWhile_cons, List.dropWhile_cons, ha, if_true]
      exact ⟨by rw [this.1], this.2⟩
  rw [hc, if_pos rfl, (ht ip hip).1, (ht ip hip).2]
  rfl

theorem fullDigits_decimal (ip : GoString) (frac : Option GoString)
    (hip : ∀ c ∈ ip, isDigitByte c = true) :
    fullDigits (ip ++ fracText frac) =
      (if ip = [] then [0x30] else ip) ++ fracTwo (frac.getD []) := by
  have hrep : replaceAllByte ip 0x2C [] = ip :=
    replaceAllByte_of_not_mem ip _ _ (fun hm => digit_ne_comma _ (hip _ hm) rfl)
  have hne : ∀ f : GoString, (if ip = [] then [0x30] else ip) ++ fracTwo f ≠ [] := by
    intro f
    by_cases h : ip = [] <;> simp [h]
  unfold fullDigits
  rcases frac with _ | fp
  · simp only [fracText, List.append_nil, splitN2_digits ip hip, List.headD_cons, List.length_singleton,
      Nat.succ_ne_self, OfNat.one_ne_ofNat, if_false, hrep, Option.getD_none]
    rw [if_neg (hne [])]
  · simp only [fracText, splitN2_digits_dot ip fp hip, List.headD_cons, List.length_cons, List.length_nil,
      if_true, hrep, Option.getD_some]
    simp only [List.getD_cons_succ, List.getD_cons_zero, Nat.reduceAdd, if_true]
    rw [if_neg (hne fp)]

theorem fracTwo_digits (fp : GoString) (hfp : ∀ c ∈ fp, isDigitByte c = true) :
    (∀ c ∈ fracTwo fp, isDigitByte c = true) ∧ (fracTwo fp).length = 2 ∧
      digitsVal (fracTwo fp) = digitsVal fp * 100 / 10 ^ fp.length := by
  rcases fp with _ | ⟨a, _ | ⟨b, r⟩⟩
  · refine ⟨by decide, rfl, by decide⟩
  · have ha := hfp a (List.mem_cons_self _ _)
    have hf : fracTwo [a] = [a, 0x30] := rfl
    rw [hf]
    refine ⟨fun c hc => ?_, rfl, ?_⟩
    · rcases List.mem_cons.mp hc with e | e
      · rw [e]; exact ha
      · rw [List.mem_singleton.mp e]; decide
    · have e1 : digitsVal [a, 0x30] = (a.toNat - 0x30) * 10 := by
        simp [digitsVal, UInt8.size]
      have e2 : digitsVal [a] = a.toNat - 0x30 := by simp [digitsVal]
      rw [e1, e2]
      simp only [List.length_singleton, pow_one]
      omega
  · have hf : fracTwo (a :: b :: r) = [a, b] := by
      unfold fracTwo
      rcases r with _ | ⟨c, r'⟩
      · rfl
      · simp
    have hdec : a :: b :: r = [a, b] ++ r := rfl
    have hr := digitsVal_lt r (fun c hc =>
      hfp c (List.mem_cons_of_mem _ (List.mem_cons_of_mem _ hc)))
    rw [hf]
    refine ⟨fun c hc => hfp c ?_, rfl, ?_⟩
    · rcases List.mem_cons.mp hc with e | e
      · rw [e]; exact List.mem_cons_self _ _
      · rw [List.mem_singleton.mp e]; exact List.mem_cons_of_mem _ (List.mem_cons_self _ _)
    · rw [hdec, digitsVal_append, List.length_append]
      have hlen : ([a, b] : GoString).length = 2 := rfl
      rw [hlen]
      have hp : (10 : Nat) ^ (2 + r.length) = 10 ^ r.length * 100 := by
        rw [pow_add]; ring
      rw [hp]
      have hpos : 0 < 10 ^ r.length := by positivity
      have : (digitsVal [a, b] * 10 ^ r.length + digitsVal r) * 100
          = digitsVal r * 100 + digitsVal [a, b] * (10 ^ r.length * 100) := by ring
      rw [this, Nat.add_mul_div_right _ _ (by positivity)]
      have hz : digitsVal r * 100 / (10 ^ r.length * 100) = 0 :=
        Nat.div_eq_of_lt (by nlinarith)
      rw [hz, Nat.zero_add]

theorem digitsVal_full (ip fp : GoString) (hfp : ∀ c ∈ fp, isDigitByte c = true) :
    digitsVal ((if ip = [] then [0x30] else ip) ++ fracTwo fp) =
      digitsVal (ip ++ fp) * 100 / 10 ^ fp.length := by
  have h0 : digitsVal (if ip = [] then [0x30] else ip) = digitsVal ip := by
    by_cases h : ip = []
    · rw [if_pos h, h]; rfl
    · rw [if_neg h]
  obtain ⟨_, hlen, hval⟩ := fracTwo_digits fp hfp
  rw [digitsVal_append, digitsVal_append, h0, hlen, hval]
  have hpos : 0 < 10 ^ fp.length := by positivity
  have : (digitsVal ip * 10 ^ fp.length + digitsVal fp) * 100
      = digitsVal fp * 100 + digitsVal ip * 100 * 10 ^ fp.length := by ring
  rw [this, Nat.add_mul_div_right _ _ hpos]
  ring

theorem scaledTrunc_eq (sign ip : GoString) (frac : Option GoString) :
    scaledTrunc sign ip frac =
      (if sign = [0x2D] then -1 else 1) *
        ((digitsVal (ip ++ frac.getD []) * 100 / 10 ^ (frac.getD []).length : Nat) : Int) := by
  unfold scaledTrunc
  dsimp only
  have hcast : (((digitsVal (ip ++ frac.getD []) * 100 / 10 ^ (frac.getD []).length : Nat)) : Int)
      = Int.tdiv ((digitsVal (ip ++ frac.getD []) : Int) * 100) (10 ^ (frac.getD []).length) := by
    rw [Int.tdiv_eq_ediv (by positivity) (by positivity)]
    push_cast
    rfl
  by_cases h : sign = [0x2D]
  · rw [if_pos h, hcast, neg_one_mul, neg_one_mul, Int.neg_tdiv]
  · rw [if_neg h, hcast, one_mul, one_mul]

/-! ## Theorems: maps -/

theorem mapGet_mapSet {V : Type} (m : GoMap V) (k k' : GoString) (v : V) :
    mapGet (mapSet m k v) k' = if k = k' then some v else mapGet m k' := by
  induction m with
  | nil => simp [mapSet, mapGet]
  | cons e rest ih =>
    rcases e with ⟨a, b⟩
    by_cases hak : a = k
    · subst hak
      by_cases hk : a = k' <;> simp [mapSet, mapGet, hk]
    · by_cases hk : k = k'
      · subst hk
        simp [mapSet, mapGet, hak, ih]
      · by_cases hak' : a = k'
        · subst hak'
          simp [mapSet, mapGet, hak, hk]
        · simp [mapSet, mapGet, hak, hak', hk, ih]

theorem mapKeys_mapSet {V : Type} (m : GoMap V) (k : GoString) (v : V) :
    mapKeys (mapSet m k v) = if k ∈ mapKeys m then mapKeys m else mapKeys m ++ [k] := by
  induction m with
  | nil => simp [mapSet, mapKeys]
  | cons e rest ih =>
    rcases e with ⟨a, b⟩
    unfold mapKeys at ih ⊢
    by_cases hak : a = k
    · subst hak
      simp [mapSet]
    · have hka : ¬ k = a := fun h => hak h.symm
      simp only [mapSet, hak, if_false, List.map_cons, ih, List.mem_cons, hka, false_or]
      split <;> simp

theorem mapGet_isSome_iff {V : Type} (m : GoMap V) (k : GoString) :
    (mapGet m k).isSome = true ↔ k ∈ mapKeys m := by
  induction m with
  | nil => simp [mapGet, mapKeys]
  | cons e rest ih =>
    rcases e with ⟨a, b⟩
    unfold mapKeys at ih ⊢
    by_cases hak : a = k
    · simp [mapGet, hak]
    · have hka : ¬ k = a := fun h => hak h.symm
      simp [mapGet, hak, hka, ih]

theorem mapGet_eq_none_iff {V : Type} (m : GoMap V) (k : GoString) :
    mapGet m k = none ↔ k ∉ mapKeys m := by
  rw [← mapGet_isSome_iff]
  cases mapGet m k <;> simp

theorem mapGet_isNone_iff {V : Type} (m : GoMap V) (k : GoString) :
    (mapGet m k).isNone = true ↔ k ∉ mapKeys m := by
  rw [← mapGet_isSome_iff]
  cases mapGet m k <;> simp

theorem mapKeys_mapSet_nodup {V : Type} (m : GoMap V) (k : GoString) (v : V)
    (h : (mapKeys m).Nodup) : (mapKeys (mapSet m k v)).Nodup := by
  rw [mapKeys_mapSet]
  by_cases hk : k ∈ mapKeys m
  · rw [if_pos hk]; exact h
  · rw [if_neg hk]
    exact List.Nodup.append h (List.nodup_singleton k)
      (fun x hx hx' => hk (List.mem_singleton.mp hx' ▸ hx))

theorem mem_mapKeys_mapSet {V : Type} (m : GoMap V) (k : GoString) (v : V) (x : GoString) :
    x ∈ mapKeys (mapSet m k v) ↔ x ∈ mapKeys m ∨ x = k := by
  rw [mapKeys_mapSet]
  by_cases hk : k ∈ mapKeys m
  · rw [if_pos hk]
    exact ⟨Or.inl, fun h => h.elim id (fun e => e ▸ hk)⟩
  · rw [if_neg hk]
    simp

/-- The entries of a map with distinct keys are what `mapGet` finds. -/
theorem mapGet_of_mem {V : Type} (m : GoMap V) (h : (mapKeys m).Nodup) (e : GoString × V)
    (he : e ∈ m) : mapGet m e.1 = some e.2 := by
  induction m with
  | nil => simp at he
  | cons a rest ih =>
    unfold mapKeys at h ih
    rw [List.map_cons, List.nodup_cons] at h
    rcases List.mem_cons.mp he with heq | hmem
    · subst heq
      simp [mapGet]
    · have hne : a.1 ≠ e.1 := fun hae =>
        h.1 (hae ▸ List.mem_map_of_mem (fun e => e.1) hmem)
      simp only [mapGet, hne, if_false]
      exact ih h.2 hmem

theorem mem_of_mapGet {V : Type} (m : GoMap V) (k : GoString) (v : V)
    (h : mapGet m k = some v) : (k, v) ∈ m := by
  induction m with
  | nil => simp [mapGet] at h
  | cons a rest ih =>
    rcases a with ⟨a, b⟩
    by_cases hak : a = k
    · simp only [mapGet, hak, if_true, Option.some.injEq] at h
      subst hak; subst h
      exact List.mem_cons_self _ _
    · simp only [mapGet, hak, if_false] at h
      exact List.mem_cons_of_mem _ (ih h)

/-! ## Theorems: the two indexes of `Reconcile` -/

theorem sysFold_keys (l : List SystemTransaction) (m : GoMap SystemTransaction)
    (hm : (mapKeys m).Nodup) :
    (mapKeys (l.foldl (fun m s => mapSet m s.TrxID s) m)).Nodup ∧
      ∀ x, x ∈ mapKeys (l.foldl (fun m s => mapSet m s.TrxID s) m) ↔
        x ∈ mapKeys m ∨ x ∈ systemIds l := by
  induction l generalizing m with
  | nil => simp [systemIds, hm]
  | cons s l ih =>
    rw [List.foldl_cons]
    obtain ⟨h1, h2⟩ := ih (mapSet m s.TrxID s) (mapKeys_mapSet_nodup m _ _ hm)
    refine ⟨h1, fun x => ?_⟩
    rw [h2 x, mem_mapKeys_mapSet]
    simp only [systemIds, List.map_cons, List.mem_cons]
    tauto

theorem sysFold_get (l : List SystemTransaction) (m : GoMap SystemTransaction) (k : GoString) :
    mapGet (l.foldl (fun m s => mapSet m s.TrxID s) m) k =
      match lastWithId l k with
      | some t => some t
      | none => mapGet m k := by
  induction l generalizing m with
  | nil => rfl
  | cons s l ih =>
    rw [List.foldl_cons, ih]
    unfold lastWithId
    rw [List.reverse_cons, List.find?_append]
    cases hf : List.find? (fun t => t.TrxID == k) l.reverse with
    | some t => rfl
    | none =>
      rw [mapGet_mapSet]
      by_cases hk : s.TrxID = k
      · have hb : (s.TrxID == k) = true := beq_iff_eq.mpr hk
        simp [List.find?, hk, hb]
      · have hb : (s.TrxID == k) = false := beq_false_of_ne hk
        simp [List.find?, hk, hb]

theorem buildSysByID_nodup (sys : List SystemTransaction) :
    (mapKeys (buildSysByID sys)).Nodup :=
  (sysFold_keys sys [] List.nodup_nil).1

theorem mem_buildSysByID_keys (sys : List SystemTransaction) (x : GoString) :
    x ∈ mapKeys (buildSysByID sys) ↔ x ∈ systemIds sys := by
  have := (sysFold_keys sys [] List.nodup_nil).2 x
  simpa [mapKeys] using this

theorem buildSysByID_get (sys : List SystemTransaction) (k : GoString) :
    mapGet (buildSysByID sys) k = lastWithId sys k := by
  unfold buildSysByID
  rw [sysFold_get]
  cases lastWithId sys k <;> rfl

theorem indexBanks_eq_foldl (bankFiles : List BankFile) :
    indexBanks bankFiles = (allRows bankFiles).foldl indexRow ⟨[], []⟩ := by
  unfold indexBanks allRows
  generalize (⟨[], []⟩ : BankIndex) = st
  induction bankFiles generalizing st with
  | nil => rfl
  | cons bf rest ih =>
    rw [List.foldl_cons, List.flatMap_cons, List.foldl_append, ih]

theorem indexRow_banked_keys (st : BankIndex) (r : BankStatement) :
    mapKeys (indexRow st r).banked = mapKeys (mapSet st.banked r.UniqueIdentifier r) := by
  unfold indexRow
  cases hg : mapGet st.banked r.UniqueIdentifier with
  | some exist =>
    have hk : r.UniqueIdentifier ∈ mapKeys st.banked := by
      rw [← mapGet_isSome_iff, hg]; rfl
    simp only [mapKeys_mapSet, hk, if_true]
  | none => rfl

theorem indexRow_banked_get (st : BankIndex) (r : BankStatement) (k : GoString) :
    mapGet (indexRow st r).banked k =
      match mapGet st.banked k with
      | some x => some x
      | none => if r.UniqueIdentifier = k then some r else none := by
  unfold indexRow
  cases hg : mapGet st.banked r.UniqueIdentifier with
  | some exist =>
    dsimp only
    cases hk : mapGet st.banked k with
    | some x => rfl
    | none =>
      have hne : r.UniqueIdentifier ≠ k := fun e => by rw [e, hk] at hg; cases hg
      simp [hne]
  | none =>
    dsimp only
    rw [mapGet_mapSet]
    by_cases hk : r.UniqueIdentifier = k
    · rw [if_pos hk, ← hk, hg]
      simp
    · rw [if_neg hk]
      cases mapGet st.banked k <;> simp [hk]

theorem bankFold_keys (rows : List BankStatement) (st : BankIndex)
    (hst : (mapKeys st.banked).Nodup) :
    (mapKeys (rows.foldl indexRow st).banked).Nodup ∧
      ∀ x, x ∈ mapKeys (rows.foldl indexRow st).banked ↔
        x ∈ mapKeys st.banked ∨ x ∈ rows.map (fun r => r.UniqueIdentifier) := by
  induction rows generalizing st with
  | nil => simp [hst]
  | cons r rows ih =>
    rw [List.foldl_cons]
    have hn : (mapKeys (indexRow st r).banked).Nodup := by
      rw [indexRow_banked_keys]; exact mapKeys_mapSet_nodup _ _ _ hst
    obtain ⟨h1, h2⟩ := ih (indexRow st r) hn
    refine ⟨h1, fun x => ?_⟩
    rw [h2 x, indexRow_banked_keys, mem_mapKeys_mapSet]
    simp only [List.map_cons, List.mem_cons]
    tauto

theorem bankFold_get (rows : List BankStatement) (st : BankIndex) (k : GoString) :
    mapGet (rows.foldl indexRow st).banked k =
      match mapGet st.banked k with
      | some x => some x
      | none => firstRowWithId rows k := by
  induction rows generalizing st with
  | nil => cases h : mapGet st.banked k <;> simp [h, firstRowWithId]
  | cons r rows ih =>
    rw [List.foldl_cons, ih, indexRow_banked_get]
    unfold firstRowWithId
    cases mapGet st.banked k with
    | some x => rfl
    | none =>
      by_cases hk : r.UniqueIdentifier = k
      · have hb : (r.UniqueIdentifier == k) = true := beq_iff_eq.mpr hk
        simp [List.find?, hk, hb]
      · have hb : (r.UniqueIdentifier == k) = false := beq_false_of_ne hk
        simp [List.find?, hk, hb]

theorem banked_nodup (bankFiles : List BankFile) :
    (mapKeys (indexBanks bankFiles).banked).Nodup := by
  rw [indexBanks_eq_foldl]
  exact (bankFold_keys _ ⟨[], []⟩ List.nodup_nil).1

theorem mem_banked_keys (bankFiles : List BankFile) (x : GoString) :
    x ∈ mapKeys (indexBanks bankFiles).banked ↔ x ∈ bankIds bankFiles := by
  rw [indexBanks_eq_foldl]
  have := (bankFold_keys (allRows bankFiles) ⟨[], []⟩ List.nodup_nil).2 x
  simpa [mapKeys, bankIds] using this

theorem banked_get (bankFiles : List BankFile) (k : GoString) :
    mapGet (indexBanks bankFiles).banked k = firstRowWithId (allRows bankFiles) k := by
  rw [indexBanks_eq_foldl, bankFold_get]
  rfl

/-! ## Theorems: the loops of `Reconcile` -/

theorem matchFold_totalMatched (banked : GoMap BankStatement)
    (l : List (GoString × SystemTransaction)) (acc : MatchAcc) :
    (l.foldl (matchStep banked) acc).totalMatched =
      acc.totalMatched + (l.filter (fun e => (mapGet banked e.1).isSome)).length := by
  induction l generalizing acc with
  | nil => simp
  | cons e l ih =>
    rw [List.foldl_cons, ih]
    unfold matchStep
    cases hg : mapGet banked e.1 with
    | some be =>
      dsimp only
      split <;> simp [List.filter, hg] <;> omega
    | none => simp [List.filter, hg]

theorem matchFold_sysMissing (banked : GoMap BankStatement)
    (l : List (GoString × SystemTransaction)) (acc : MatchAcc) :
    (l.foldl (matchStep banked) acc).sysMissing =
      acc.sysMissing ++ (l.filter (fun e => (mapGet banked e.1).isNone)).map
        (fun e => (⟨e.1, e.2.AmountMinor, e.2.Typ⟩ : UnmatchedSystem)) := by
  induction l generalizing acc with
  | nil => simp
  | cons e l ih =>
    rw [List.foldl_cons, ih]
    unfold matchStep
    cases hg : mapGet banked e.1 with
    | some be =>
      dsimp only
      split <;> simp [List.filter, hg]
    | none => simp [List.filter, hg]

theorem matchFold_matchedDiffs (banked : GoMap BankStatement)
    (l : List (GoString × SystemTransaction)) (acc : MatchAcc) :
    (l.foldl (matchStep banked) acc).matchedDiffs =
      acc.matchedDiffs ++ l.filterMap (diffEntry banked) := by
  induction l generalizing acc with
  | nil => simp
  | cons e l ih =>
    rw [List.foldl_cons, ih]
    unfold matchStep diffEntry
    cases hg : mapGet banked e.1 with
    | some be =>
      dsimp only
      by_cases hd : abs64 (wrap64 ((SignedAmount e.2.Typ e.2.AmountMinor).1 - be.AmountMinor)) = 0
      · simp [List.filterMap_cons, hg, hd]
      · simp [List.filterMap_cons, hg, hd]
    | none => simp [List.filterMap_cons, hg]

theorem groupCount_foldl (g : GoMap (List UnmatchedBank)) (n : Nat) :
    g.foldl (fun n e => n + e.2.length) n = n + groupCount g := by
  unfold groupCount
  induction g generalizing n with
  | nil => simp
  | cons e g ih =>
    rw [List.foldl_cons, ih, List.map_cons, List.sum_cons]
    omega

theorem groupCount_append (g : GoMap (List UnmatchedBank)) (k : GoString) (x : UnmatchedBank) :
    groupCount (mapSet g k ((mapGet g k).getD [] ++ [x])) = groupCount g + 1 := by
  unfold groupCount
  induction g with
  | nil => simp [mapSet, mapGet]
  | cons e g ih =>
    rcases e with ⟨a, b⟩
    by_cases hak : a = k
    · simp [mapSet, mapGet, hak]
      omega
    · simp only [mapSet, mapGet, hak, if_false, List.map_cons, List.sum_cons, ih]
      omega

theorem groupCount_bankMissing (sysByID : GoMap SystemTransaction)
    (l : List (GoString × BankStatement)) (g : GoMap (List UnmatchedBank)) :
    groupCount (l.foldl (bankMissingStep sysByID) g) =
      groupCount g + (l.filter (fun e => (mapGet sysByID e.1).isNone)).length := by
  induction l generalizing g with
  | nil => simp
  | cons e l ih =>
    rw [List.foldl_cons, ih]
    unfold bankMissingStep
    cases hg : mapGet sysByID e.1 with
    | some t => simp [List.filter, hg]
    | none =>
      dsimp only
      rw [groupCount_append]
      simp [List.filter, hg]
      omega

theorem groupCount_sorted (g : GoMap (List UnmatchedBank)) :
    groupCount (g.map (fun e => (e.1, sortSlice (fun u => u.UniqueIdentifier) e.2))) =
      groupCount g := by
  unfold groupCount sortSlice
  induction g with
  | nil => rfl
  | cons e g ih =>
    simp only [List.map_cons, List.sum_cons, List.length_insertionSort]
    rw [ih]

theorem filter_keys_length {V : Type} (m : GoMap V) (p : GoString → Bool) :
    (m.filter (fun e => p e.1)).length = ((mapKeys m).filter p).length := by
  unfold mapKeys
  rw [List.filter_map, List.length_map]
  rfl

/-! ## Theorems: the fields of the summary -/

theorem Reconcile_TotalMatched (sys : List SystemTransaction) (banks : List BankFile) :
    (Reconcile sys banks).TotalMatched =
      ((mapKeys (buildSysByID sys)).filter
        (fun k => decide (k ∈ mapKeys (indexBanks banks).banked))).length := by
  unfold Reconcile
  dsimp only
  rw [matchFold_totalMatched,
    filter_keys_length (buildSysByID sys) (fun k => (mapGet (indexBanks banks).banked k).isSome)]
  simp only [Nat.zero_add]
  congr 1
  apply List.filter_congr
  intro k _
  rw [Bool.eq_iff_iff, mapGet_isSome_iff]
  simp

theorem Reconcile_TotalUnmatched (sys : List SystemTransaction) (banks : List BankFile) :
    (Reconcile sys banks).TotalUnmatched =
      ((mapKeys (buildSysByID sys)).filter
        (fun k => !decide (k ∈ mapKeys (indexBanks banks).banked))).length +
      ((mapKeys (indexBanks banks).banked).filter
        (fun k => !decide (k ∈ mapKeys (buildSysByID sys)))).length := by
  unfold Reconcile
  dsimp only
  rw [groupCount_foldl, groupCount_sorted, groupCount_bankMissing, sortSlice,
    List.length_insertionSort, matchFold_sysMissing, List.nil_append, List.length_map,
    filter_keys_length (buildSysByID sys) (fun k => (mapGet (indexBanks banks).banked k).isNone),
    filter_keys_length (indexBanks banks).banked (fun k => (mapGet (buildSysByID sys) k).isNone)]
  have h0 : groupCount [] = 0 := rfl
  rw [h0, Nat.zero_add]
  congr 2
  · apply List.filter_congr
    intro k _
    rw [Bool.eq_iff_iff, mapGet_isNone_iff]
    simp
  · apply List.filter_congr
    intro k _
    rw [Bool.eq_iff_iff, mapGet_isNone_iff]
    simp

theorem filter_length_split (l : List GoString) (p : GoString → Bool) :
    (l.filter p).length + (l.filter (fun k => !p k)).length = l.length := by
  induction l with
  | nil => rfl
  | cons a t ih =>
    cases ha : p a <;> simp [List.filter, ha] <;> omega

/-- The number of distinct elements of `s ++ b`, counted on duplicate-free
lists `ks`, `kb` with the same elements as `s` and `b`. -/
theorem distinct_count (s b ks kb : List GoString) (hks : ks.Nodup) (hkb : kb.Nodup)
    (hs : ∀ x, x ∈ ks ↔ x ∈ s) (hb : ∀ x, x ∈ kb ↔ x ∈ b) :
    (ks.filter (fun k => decide (k ∈ kb))).length +
      ((ks.filter (fun k => !decide (k ∈ kb))).length +
        (kb.filter (fun k => !decide (k ∈ ks))).length) = (s ++ b).dedup.length := by
  have h1 : (ks.filter (fun k => decide (k ∈ kb))).length +
      (ks.filter (fun k => !decide (k ∈ kb))).length = ks.length :=
    filter_length_split ks (fun k => decide (k ∈ kb))
  have hnd : (ks ++ kb.filter (fun k => !decide (k ∈ ks))).Nodup := by
    refine List.Nodup.append hks (hkb.filter _) ?_
    intro x hx hx'
    have := (List.mem_filter.mp hx').2
    simp [hx] at this
  have hperm : (ks ++ kb.filter (fun k => !decide (k ∈ ks))).Perm (s ++ b).dedup := by
    rw [List.perm_ext_iff_of_nodup hnd (List.nodup_dedup _)]
    intro x
    rw [List.mem_dedup, List.mem_append, List.mem_append, List.mem_filter, ← hs x, ← hb x]
    by_cases hx : x ∈ ks <;> simp [hx]
  rw [← hperm.length_eq, List.length_append]
  omega

theorem isInt64_wrap64 (x : Int) : isInt64 (wrap64 x) := by
  unfold isInt64 wrap64
  omega

theorem abs64_eq_zero_iff (v : Int) (hv : isInt64 v) : abs64 v = 0 ↔ v = 0 := by
  unfold isInt64 at hv
  unfold abs64 wrap64
  split <;> omega

theorem isInt64_abs64 (v : Int) (hv : isInt64 v) : isInt64 (abs64 v) := by
  unfold abs64
  split
  · exact isInt64_wrap64 _
  · exact hv

theorem diff_zero_sub_eq_zero_iff (a : Int) (ha : isInt64 a) :
    abs64 (wrap64 (0 - a)) = 0 ↔ a = 0 := by
  rw [abs64_eq_zero_iff _ (isInt64_wrap64 _)]
  unfold isInt64 at ha
  unfold wrap64
  omega

theorem SignedAmount_error_iff_unknown (u : TransactionType) (m : Int) :
    (SignedAmount u m).2 ≠ none ↔ (u ≠ TypeDebit ∧ u ≠ TypeCredit) := by
  unfold SignedAmount
  by_cases h1 : u = TypeDebit
  · simp only [h1, if_true]
    split <;> simp
  · by_cases h2 : u = TypeCredit
    · subst h2
      simp only [h1, if_false, if_true]
      split <;> simp
    · simp [h1, h2]

theorem SignedAmount_unknown (t : TransactionType) (m : Int)
    (h : t ≠ TypeDebit ∧ t ≠ TypeCredit) :
    SignedAmount t m = (0, some (str "unknown transaction type: " ++ t)) := by
  unfold SignedAmount
  rw [if_neg h.1, if_neg h.2]

theorem mem_MatchedWithDiscrepancies (sys : List SystemTransaction) (banks : List BankFile)
    (d : MatchedDiff) :
    d ∈ (Reconcile sys banks).MatchedWithDiscrepancies ↔
      ∃ e ∈ buildSysByID sys, diffEntry (indexBanks banks).banked e = some d := by
  unfold Reconcile
  dsimp only
  unfold sortSlice
  rw [(List.perm_insertionSort _ _).mem_iff, matchFold_matchedDiffs, List.nil_append,
    List.mem_filterMap]

theorem Reconcile_TotalMatched_eq (sys : List SystemTransaction) (banks : List BankFile) :
    (Reconcile sys banks).TotalMatched =
      ((systemIds sys).dedup.filter (fun k => decide (k ∈ bankIds banks))).length := by
  rw [Reconcile_TotalMatched]
  have hp : (mapKeys (buildSysByID sys)).Perm (systemIds sys).dedup := by
    rw [List.perm_ext_iff_of_nodup (buildSysByID_nodup sys) (List.nodup_dedup _)]
    intro x
    rw [List.mem_dedup, mem_buildSysByID_keys]
  have hf : (mapKeys (buildSysByID sys)).filter
      (fun k => decide (k ∈ mapKeys (indexBanks banks).banked)) =
      (mapKeys (buildSysByID sys)).filter (fun k => decide (k ∈ bankIds banks)) := by
    apply List.filter_congr
    intro k _
    rw [Bool.eq_iff_iff]
    simp [mem_banked_keys]
  rw [hf]
  exact (hp.filter _).length_eq

theorem mem_bankIds_of_firstRow (banks : List BankFile) (k : GoString) (r : BankStatement)
    (h : firstRowWithId (allRows banks) k = some r) :
    k ∈ bankIds banks ∧ r.UniqueIdentifier = k := by
  unfold firstRowWithId at h
  have h1 := List.find?_some h
  have h2 := List.mem_of_find?_eq_some h
  have hk : r.UniqueIdentifier = k := by simpa using h1
  refine ⟨?_, hk⟩
  unfold bankIds
  exact hk ▸ List.mem_map_of_mem (fun r => r.UniqueIdentifier) h2

theorem mem_systemIds_of_last (sys : List SystemTransaction) (k : GoString)
    (t : SystemTransaction) (h : lastWithId sys k = some t) :
    k ∈ systemIds sys ∧ t.TrxID = k ∧ t ∈ sys := by
  unfold lastWithId at h
  have h1 := List.find?_some h
  have h2 := List.mem_reverse.mp (List.mem_of_find?_eq_some h)
  have hk : t.TrxID = k := by simpa using h1
  refine ⟨?_, hk, h2⟩
  unfold systemIds
  exact hk ▸ List.mem_map_of_mem (fun t => t.TrxID) h2

/-! ## Theorems: helpers for the claims -/

theorem wrap64_of_isInt64 (x : Int) (h : isInt64 x) : wrap64 x = x := by
  unfold isInt64 at h
  unfold wrap64
  omega

theorem TypeDebit_ne_TypeCredit : TypeDebit ≠ TypeCredit := by decide

theorem normalizeSeparators_no_comma (body : GoString)
    (hbody : ∀ c ∈ body, isAmountByte c = true) (h : (0x2C : UInt8) ∉ body) :
    normalizeSeparators body = body := by
  have hc : containsByte body 0x2C = false := by
    rw [← Bool.not_eq_true, containsByte_iff]; exact h
  rw [normalizeSeparators_amount body hbody, hc]
  simp

/-! ## Theorems: the order of strings -/

theorem strLess_irrefl (a : GoString) : strLess a a = false := by
  induction a with
  | nil => rfl
  | cons x xs ih => simp [strLess, ih]

theorem strLess_total (a b : GoString) : strLess b a = false ∨ strLess a b = false := by
  induction a generalizing b with
  | nil => cases b <;> simp [strLess]
  | cons x xs ih =>
    cases b with
    | nil => simp [strLess]
    | cons y ys =>
      unfold strLess
      by_cases h1 : x.toNat < y.toNat
      · have h2 : ¬ y.toNat < x.toNat := by omega
        simp [h1, h2]
      · by_cases h2 : y.toNat < x.toNat
        · simp [h1, h2]
        · simp only [h1, h2, if_false]
          exact ih ys

theorem strLess_antisymm (a b : GoString) (h1 : strLess a b = false)
    (h2 : strLess b a = false) : a = b := by
  induction a generalizing b with
  | nil =>
    cases b with
    | nil => rfl
    | cons y ys => simp [strLess] at h1
  | cons x xs ih =>
    cases b with
    | nil => simp [strLess] at h2
    | cons y ys =>
      unfold strLess at h1 h2
      by_cases c1 : x.toNat < y.toNat
      · simp [c1] at h1
      · by_cases c2 : y.toNat < x.toNat
        · simp [c2] at h2
        · simp only [c1, c2, if_false] at h1 h2
          have hxy : x = y := UInt8.toNat.inj (by omega)
          rw [hxy, ih ys h1 h2]

theorem strLess_le_trans (a b c : GoString) (h1 : strLess b a = false)
    (h2 : strLess c b = false) : strLess c a = false := by
  induction a generalizing b c with
  | nil => cases c <;> simp [strLess]
  | cons x xs ih =>
    cases b with
    | nil => simp [strLess] at h1
    | cons y ys =>
      cases c with
      | nil => simp [strLess] at h2
      | cons z zs =>
        unfold strLess at h1 h2 ⊢
        by_cases c1 : y.toNat < x.toNat
        · simp [c1] at h1
        · by_cases c2 : z.toNat < y.toNat
          · simp [c2] at h2
          · have c4 : ¬ z.toNat < x.toNat := by omega
            by_cases c5 : x.toNat < z.toNat
            · simp [c4, c5]
            · have c3 : ¬ x.toNat < y.toNat := by omega
              have c6 : ¬ y.toNat < z.toNat := by omega
              simp only [c1, c2, c3, c6, if_false] at h1 h2
              simp only [c4, c5, if_false]
              exact ih ys zs h1 h2

theorem strLess_of_le_of_ne (a b : GoString) (h1 : strLess b a = false) (h2 : a ≠ b) :
    strLess a b = true := by
  cases h : strLess a b with
  | true => rfl
  | false => exact absurd (strLess_antisymm a b h h1) h2

theorem strLess_asymm (a b : GoString) (h : strLess a b = true) : strLess b a = false := by
  rcases strLess_total a b with h1 | h1
  · exact h1
  · rw [h] at h1; cases h1

/-! ## Theorems: sorting -/

theorem sortSlice_perm {α : Type} (key : α → GoString) (l : List α) :
    (sortSlice key l).Perm l :=
  List.perm_insertionSort _ l

theorem sortSlice_sorted {α : Type} (key : α → GoString) (l : List α) :
    (sortSlice key l).Pairwise (fun a b => strLess (key b) (key a) = false) := by
  unfold sortSlice
  exact @List.sorted_insertionSort α (fun a b => strLess (key b) (key a) = false) _
    ⟨fun a b => strLess_total (key a) (key b)⟩
    ⟨fun a b c h1 h2 => strLess_le_trans (key a) (key b) (key c) h1 h2⟩ l

/-- A sorted slice whose keys are pairwise distinct is strictly ascending. -/
theorem sortSlice_strict {α : Type} (key : α → GoString) (l : List α)
    (hnd : (l.map key).Nodup) :
    (sortSlice key l).Pairwise (fun a b => strLess (key a) (key b) = true) := by
  have hs := sortSlice_sorted key l
  have hnd' : ((sortSlice key l).map key).Nodup :=
    ((sortSlice_perm key l).map key).nodup_iff.mpr hnd
  rw [List.Nodup, List.pairwise_map] at hnd'
  exact (hs.and hnd').imp (fun h => strLess_of_le_of_ne _ _ h.1 h.2)

/-- Two strictly ascending lists with the same elements are equal. -/
theorem eq_of_perm_of_strict {α : Type} (key : α → GoString) (l₁ l₂ : List α)
    (hp : l₁.Perm l₂)
    (h1 : l₁.Pairwise (fun a b => strLess (key a) (key b) = true))
    (h2 : l₂.Pairwise (fun a b => strLess (key a) (key b) = true)) : l₁ = l₂ :=
  @List.eq_of_perm_of_sorted α (fun a b => strLess (key a) (key b) = true)
    ⟨fun a b hab hba => by rw [strLess_asymm _ _ hab] at hba; cases hba⟩ l₁ l₂ hp h1 h2

theorem sortSlice_eq_of_perm {α : Type} (key : α → GoString) (l₁ l₂ : List α)
    (hp : l₁.Perm l₂) (hnd : (l₁.map key).Nodup) : sortSlice key l₁ = sortSlice key l₂ :=
  eq_of_perm_of_strict key _ _
    (((sortSlice_perm key l₁).trans hp).trans (sortSlice_perm key l₂).symm)
    (sortSlice_strict key l₁ hnd)
    (sortSlice_strict key l₂ ((hp.map key).nodup_iff.mp hnd))

/-! ## Theorems: the result of the loop over `sysByID` -/

theorem wrap64_add_wrap64 (a b : Int) : wrap64 (wrap64 a + b) = wrap64 (a + b) := by
  unfold wrap64
  omega

theorem wrap64_zero : wrap64 0 = 0 := by decide

theorem foldl_wrap_add (xs : List Int) (t : Int) :
    wrap64 (xs.foldl (fun t x => wrap64 (t + x)) t) = wrap64 (t + xs.sum) := by
  induction xs generalizing t with
  | nil => simp
  | cons x xs ih =>
    rw [List.foldl_cons, ih, wrap64_add_wrap64, List.sum_cons, add_assoc]

theorem foldl_wrap_add_zero (xs : List Int) :
    xs.foldl (fun t x => wrap64 (t + x)) 0 = wrap64 xs.sum := by
  have h := foldl_wrap_add xs 0
  rw [zero_add] at h
  rw [← h]
  induction xs using List.reverseRecOn with
  | nil => decide
  | append_singleton xs x _ =>
    rw [List.foldl_append, List.foldl_cons, List.foldl_nil]
    exact (wrap64_of_isInt64 _ (isInt64_wrap64 _)).symm

theorem matchFold_totalAmountDiscrepancy (banked : GoMap BankStatement)
    (l : List (GoString × SystemTransaction)) (acc : MatchAcc) :
    (l.foldl (matchStep banked) acc).totalAmountDiscrepancy =
      ((l.filterMap (diffEntry banked)).map (fun d => d.AbsDiffMinor)).foldl
        (fun t x => wrap64 (t + x)) acc.totalAmountDiscrepancy := by
  induction l generalizing acc with
  | nil => rfl
  | cons e l ih =>
    rw [List.foldl_cons, ih]
    unfold matchStep diffEntry
    cases hg : mapGet banked e.1 with
    | some be =>
      dsimp only
      by_cases hd : abs64 (wrap64 ((SignedAmount e.2.Typ e.2.AmountMinor).1 - be.AmountMinor)) = 0
      · simp [List.filterMap_cons, hg, hd]
      · simp [List.filterMap_cons, hg, hd]
    | none => simp [List.filterMap_cons, hg]

/-! ## Theorems: more fields of the summary -/

theorem Reconcile_TotalProcessed (sys : List SystemTransaction) (banks : List BankFile) :
    (Reconcile sys banks).TotalProcessed =
      sys.length + (banks.map (fun bf => bf.Rows.length)).sum := by
  unfold Reconcile
  dsimp only
  generalize sys.length = n
  induction banks generalizing n with
  | nil => simp
  | cons bf rest ih =>
    rw [List.foldl_cons, ih, List.map_cons, List.sum_cons]
    omega

theorem allRows_length (banks : List BankFile) :
    (allRows banks).length = (banks.map (fun bf => bf.Rows.length)).sum := by
  unfold allRows
  induction banks with
  | nil => rfl
  | cons bf rest ih =>
    rw [List.flatMap_cons, List.length_append, ih, List.map_cons, List.sum_cons]

theorem Reconcile_SystemMissingInBank (sys : List SystemTransaction) (banks : List BankFile) :
    (Reconcile sys banks).SystemMissingInBank =
      sortSlice (fun u => u.TrxID)
        (((buildSysByID sys).filter
            (fun e => (mapGet (indexBanks banks).banked e.1).isNone)).map
          (fun e => (⟨e.1, e.2.AmountMinor, e.2.Typ⟩ : UnmatchedSystem))) := by
  unfold Reconcile
  dsimp only
  rw [matchFold_sysMissing, List.nil_append]

theorem Reconcile_MatchedWithDiscrepancies (sys : List SystemTransaction)
    (banks : List BankFile) :
    (Reconcile sys banks).MatchedWithDiscrepancies =
      sortSlice (fun d => d.ID)
        ((buildSysByID sys).filterMap (diffEntry (indexBanks banks).banked)) := by
  unfold Reconcile
  dsimp only
  rw [matchFold_matchedDiffs, List.nil_append]

theorem Reconcile_TotalAmountDiscrepancy (sys : List SystemTransaction)
    (banks : List BankFile) :
    (Reconcile sys banks).TotalAmountDiscrepancy =
      wrap64 (((Reconcile sys banks).MatchedWithDiscrepancies.map
        (fun d => d.AbsDiffMinor)).sum) := by
  have hp := ((sortSlice_perm (fun d : MatchedDiff => d.ID)
    ((buildSysByID sys).filterMap (diffEntry (indexBanks banks).banked))).map
      (fun d => d.AbsDiffMinor)).sum_eq
  rw [Reconcile_MatchedWithDiscrepancies, hp]
  unfold Reconcile
  dsimp only
  rw [matchFold_totalAmountDiscrepancy, foldl_wrap_add_zero]

theorem diffEntry_ID (banked : GoMap BankStatement) (e : GoString × SystemTransaction)
    (d : MatchedDiff) (h : diffEntry banked e = some d) : d.ID = e.1 := by
  unfold diffEntry at h
  cases hb : mapGet banked e.1 with
  | none => rw [hb] at h; cases h
  | some be =>
    rw [hb] at h
    dsimp only at h
    split at h
    · cases h; rfl
    · cases h

theorem filterMap_diffEntry_ids (banked : GoMap BankStatement)
    (l : List (GoString × SystemTransaction)) :
    ((l.filterMap (diffEntry banked)).map (fun d => d.ID)).Sublist (mapKeys l) := by
  unfold mapKeys
  induction l with
  | nil => exact List.Sublist.slnil
  | cons e l ih =>
    rw [List.filterMap_cons]
    cases h : diffEntry banked e with
    | none => exact ih.cons _
    | some d =>
      dsimp only
      rw [List.map_cons, List.map_cons, diffEntry_ID banked e d h]
      exact ih.cons₂ _

theorem sysMissing_ids (banked : GoMap BankStatement)
    (l : List (GoString × SystemTransaction)) :
    (((l.filter (fun e => (mapGet banked e.1).isNone)).map
        (fun e => (⟨e.1, e.2.AmountMinor, e.2.Typ⟩ : UnmatchedSystem))).map
      (fun u => u.TrxID)) = (mapKeys l).filter (fun k => (mapGet banked k).isNone) := by
  unfold mapKeys
  rw [List.map_map, List.filter_map]
  rfl

/-! ## Theorems: what one identifier contributes -/

theorem SignedAmount_isInt64 (t : TransactionType) (m : Int) (hm : isInt64 m) :
    isInt64 (SignedAmount t m).1 := by
  unfold SignedAmount
  split
  · split
    · exact isInt64_wrap64 _
    · exact hm
  · split
    · split
      · exact isInt64_wrap64 _
      · exact hm
    · exact (by decide : isInt64 0)

theorem diff_eq_zero_iff (s b : Int) (hs : isInt64 s) (hb : isInt64 b) :
    abs64 (wrap64 (s - b)) = 0 ↔ s = b := by
  rw [abs64_eq_zero_iff _ (isInt64_wrap64 _)]
  unfold isInt64 at hs hb
  unfold wrap64
  omega

theorem diff_eq_abs (s b : Int) (h : |s - b| ≤ maxInt64) :
    abs64 (abs64 (wrap64 (s - b))) = |s - b| := by
  unfold maxInt64 at h
  have h1 := abs_le.mp h
  have hw : wrap64 (s - b) = s - b := wrap64_of_isInt64 _ (by unfold isInt64; omega)
  rw [hw]
  by_cases hneg : s - b < 0
  · have ha : |s - b| = -(s - b) := abs_of_neg hneg
    have h2 : abs64 (s - b) = -(s - b) := by
      unfold abs64
      rw [if_pos hneg, wrap64_of_isInt64 _ (by unfold isInt64; omega)]
    rw [h2, ha]
    unfold abs64
    rw [if_neg (by omega)]
  · have ha : |s - b| = s - b := abs_of_nonneg (by omega)
    have h2 : abs64 (s - b) = s - b := by
      unfold abs64
      rw [if_neg hneg]
    rw [h2, h2, ha]

/-- The discrepancy entries of the identifier of a kept transaction `t` with
retained bank row `r`: none when the compared amounts agree, else the one
entry built from them. -/
theorem mem_MWD_kept (sys : List SystemTransaction) (banks : List BankFile)
    (t : SystemTransaction) (r : BankStatement)
    (hs : lastWithId sys t.TrxID = some t)
    (hr : firstRowWithId (allRows banks) t.TrxID = some r) (d : MatchedDiff) :
    (d ∈ (Reconcile sys banks).MatchedWithDiscrepancies ∧ d.ID = t.TrxID) ↔
      (abs64 (wrap64 ((SignedAmount t.Typ t.AmountMinor).1 - r.AmountMinor)) ≠ 0 ∧
        d = ⟨t.TrxID, (SignedAmount t.Typ t.AmountMinor).1, r.AmountMinor,
          abs64 (abs64 (wrap64 ((SignedAmount t.Typ t.AmountMinor).1 - r.AmountMinor))),
          r.BankName⟩) := by
  have hentry : (t.TrxID, t) ∈ buildSysByID sys :=
    mem_of_mapGet _ _ _ (by rw [buildSysByID_get]; exact hs)
  have hbank : mapGet (indexBanks banks).banked t.TrxID = some r := by
    rw [banked_get]; exact hr
  have hde : ∀ x : MatchedDiff, diffEntry (indexBanks banks).banked (t.TrxID, t) = some x ↔
      (abs64 (wrap64 ((SignedAmount t.Typ t.AmountMinor).1 - r.AmountMinor)) ≠ 0 ∧
        x = ⟨t.TrxID, (SignedAmount t.Typ t.AmountMinor).1, r.AmountMinor,
          abs64 (abs64 (wrap64 ((SignedAmount t.Typ t.AmountMinor).1 - r.AmountMinor))),
          r.BankName⟩) := by
    intro x
    unfold diffEntry
    simp only [hbank]
    by_cases hz : abs64 (wrap64 ((SignedAmount t.Typ t.AmountMinor).1 - r.AmountMinor)) = 0
    · simp [hz]
    · simp only [ne_eq, hz, not_false_eq_true, if_true, Option.some.injEq, true_and]
      exact eq_comm
  rw [mem_MatchedWithDiscrepancies, ← hde d]
  constructor
  · rintro ⟨⟨e, he, hd⟩, hid⟩
    have he1 : e.1 = t.TrxID := by rw [← diffEntry_ID _ e d hd]; exact hid
    have hget := mapGet_of_mem _ (buildSysByID_nodup sys) e he
    rw [he1, buildSysByID_get, hs] at hget
    have he2 : e = (t.TrxID, t) := Prod.ext he1 (Option.some.inj hget).symm
    rw [← he2]; exact hd
  · intro hd
    exact ⟨⟨(t.TrxID, t), hentry, hd⟩, diffEntry_ID _ _ d hd⟩

/-! ## Theorems: the loop that groups the bank rows missing in the system -/

theorem mapGet_map_values {V W : Type} (f : V → W) (m : GoMap V) (k : GoString) :
    mapGet (m.map (fun e => (e.1, f e.2))) k = (mapGet m k).map f := by
  induction m with
  | nil => rfl
  | cons e rest ih =>
    rcases e with ⟨a, b⟩
    by_cases h : a = k <;> simp [mapGet, h, ih]

theorem mapKeys_map_values {V W : Type} (f : V → W) (m : GoMap V) :
    mapKeys (m.map (fun e => (e.1, f e.2))) = mapKeys m := by
  unfold mapKeys
  rw [List.map_map]
  rfl

theorem bankMissingFold_nodup (sysByID : GoMap SystemTransaction)
    (l : List (GoString × BankStatement)) (g : GoMap (List UnmatchedBank))
    (hg : (mapKeys g).Nodup) : (mapKeys (l.foldl (bankMissingStep sysByID) g)).Nodup := by
  induction l generalizing g with
  | nil => exact hg
  | cons e l ih =>
    rw [List.foldl_cons]
    apply ih
    unfold bankMissingStep
    cases mapGet sysByID e.1 with
    | some t => exact hg
    | none => exact mapKeys_mapSet_nodup _ _ _ hg

theorem bankMissingFold_get (sysByID : GoMap SystemTransaction)
    (l : List (GoString × BankStatement)) (g : GoMap (List UnmatchedBank)) (bn : GoString) :
    mapGet (l.foldl (bankMissingStep sysByID) g) bn =
      if missingOf sysByID l bn = [] then mapGet g bn
      else some ((mapGet g bn).getD [] ++ missingOf sysByID l bn) := by
  induction l generalizing g with
  | nil => simp [missingOf]
  | cons e l ih =>
    rw [List.foldl_cons, ih]
    unfold bankMissingStep
    cases hs : mapGet sysByID e.1 with
    | some t =>
      have hm : missingOf sysByID (e :: l) bn = missingOf sysByID l bn := by
        simp [missingOf, List.filter_cons, hs]
      rw [hm]
    | none =>
      dsimp only
      by_cases hb : e.2.BankName = bn
      · have hm : missingOf sysByID (e :: l) bn =
            ⟨e.1, e.2.AmountMinor, e.2.BankName⟩ :: missingOf sysByID l bn := by
          simp [missingOf, List.filter_cons, hs, hb]
        rw [hm, mapGet_mapSet, if_pos hb, if_neg (List.cons_ne_nil _ _), hb]
        by_cases hl : missingOf sysByID l bn = []
        · rw [if_pos hl, hl]
        · rw [if_neg hl]
          simp
      · have hm : missingOf sysByID (e :: l) bn = missingOf sysByID l bn := by
          simp [missingOf, List.filter_cons, hs, hb]
        rw [hm, mapGet_mapSet, if_neg hb]

theorem flatten_mapSet_append (g : GoMap (List UnmatchedBank)) (k : GoString)
    (x : UnmatchedBank) :
    ((mapSet g k ((mapGet g k).getD [] ++ [x])).flatMap (fun e => e.2)).Perm
      (g.flatMap (fun e => e.2) ++ [x]) := by
  induction g with
  | nil => simp [mapSet, mapGet]
  | cons e g ih =>
    rcases e with ⟨a, b⟩
    by_cases hak : a = k
    · simp only [mapSet, mapGet, hak, if_true, Option.getD_some, List.flatMap_cons,
        List.append_assoc]
      exact List.Perm.append_left b List.perm_append_comm
    · simp only [mapSet, mapGet, hak, if_false, List.flatMap_cons, List.append_assoc]
      exact List.Perm.append_left b ih

theorem bankMissingFold_flatten (sysByID : GoMap SystemTransaction)
    (l : List (GoString × BankStatement)) (g : GoMap (List UnmatchedBank)) :
    ((l.foldl (bankMissingStep sysByID) g).flatMap (fun e => e.2)).Perm
      (g.flatMap (fun e => e.2) ++
        (l.filter (fun e => (mapGet sysByID e.1).isNone)).map
          (fun e => (⟨e.1, e.2.AmountMinor, e.2.BankName⟩ : UnmatchedBank))) := by
  induction l generalizing g with
  | nil => simp
  | cons e l ih =>
    rw [List.foldl_cons]
    refine (ih _).trans ?_
    unfold bankMissingStep
    cases hs : mapGet sysByID e.1 with
    | some t => simp [List.filter_cons, hs]
    | none =>
      dsimp only
      simp only [List.filter_cons, hs, Option.isNone_none, if_true, List.map_cons]
      refine ((flatten_mapSet_append g _ _).append_right _).trans ?_
      simp

theorem flatten_sorted_groups (g : GoMap (List UnmatchedBank)) :
    ((g.map (fun e => (e.1, sortSlice (fun u => u.UniqueIdentifier) e.2))).flatMap
      (fun e => e.2)).Perm (g.flatMap (fun e => e.2)) := by
  induction g with
  | nil => exact List.Perm.refl _
  | cons e g ih =>
    simp only [List.map_cons, List.flatMap_cons]
    exact (sortSlice_perm _ _).append ih

theorem missingOf_ids_nodup (sysByID : GoMap SystemTransaction)
    (l : List (GoString × BankStatement)) (hl : (mapKeys l).Nodup) (bn : GoString) :
    ((missingOf sysByID l bn).map (fun u => u.UniqueIdentifier)).Nodup := by
  unfold missingOf
  rw [List.map_map]
  have : ((fun u : UnmatchedBank => u.UniqueIdentifier) ∘
      fun e : GoString × BankStatement =>
        (⟨e.1, e.2.AmountMinor, e.2.BankName⟩ : UnmatchedBank)) = fun e => e.1 := rfl
  rw [this]
  exact ((List.filter_sublist _).map _).nodup hl

/-! ## Theorems: the field `BankMissingInSystem` -/

theorem Reconcile_BankMissing_get (sys : List SystemTransaction) (banks : List BankFile)
    (bn : GoString) :
    mapGet (Reconcile sys banks).BankMissingInSystem bn =
      if missingOf (buildSysByID sys) (indexBanks banks).banked bn = [] then none
      else some (sortSlice (fun u => u.UniqueIdentifier)
        (missingOf (buildSysByID sys) (indexBanks banks).banked bn)) := by
  unfold Reconcile
  dsimp only
  rw [mapGet_map_values, bankMissingFold_get]
  by_cases h : missingOf (buildSysByID sys) (indexBanks banks).banked bn = []
  · rw [if_pos h, if_pos h]; rfl
  · rw [if_neg h, if_neg h]; rfl

theorem Reconcile_BankMissing_nodup (sys : List SystemTransaction) (banks : List BankFile) :
    (mapKeys (Reconcile sys banks).BankMissingInSystem).Nodup := by
  unfold Reconcile
  dsimp only
  rw [mapKeys_map_values]
  exact bankMissingFold_nodup _ _ _ List.nodup_nil

theorem Reconcile_BankMissing_group (sys : List SystemTransaction) (banks : List BankFile)
    (g : GoString × List UnmatchedBank)
    (hg : g ∈ (Reconcile sys banks).BankMissingInSystem) :
    missingOf (buildSysByID sys) (indexBanks banks).banked g.1 ≠ [] ∧
      g.2 = sortSlice (fun u => u.UniqueIdentifier)
        (missingOf (buildSysByID sys) (indexBanks banks).banked g.1) := by
  have h := mapGet_of_mem _ (Reconcile_BankMissing_nodup sys banks) g hg
  rw [Reconcile_BankMissing_get] at h
  by_cases hm : missingOf (buildSysByID sys) (indexBanks banks).banked g.1 = []
  · rw [if_pos hm] at h; cases h
  · rw [if_neg hm] at h
    exact ⟨hm, (Option.some.inj h).symm⟩

theorem Reconcile_BankMissing_flatten (sys : List SystemTransaction) (banks : List BankFile) :
    ((Reconcile sys banks).BankMissingInSystem.flatMap (fun e => e.2)).Perm
      (((indexBanks banks).banked.filter (fun e => (mapGet (buildSysByID sys) e.1).isNone)).map
        (fun e => (⟨e.1, e.2.AmountMinor, e.2.BankName⟩ : UnmatchedBank))) := by
  unfold Reconcile
  dsimp only
  refine (flatten_sorted_groups _).trans ?_
  exact (bankMissingFold_flatten _ _ []).trans (by simp)

theorem missingOf_mem (sysByID : GoMap SystemTransaction)
    (l : List (GoString × BankStatement)) (bn : GoString) (u : UnmatchedBank)
    (hu : u ∈ missingOf sysByID l bn) :
    u.BankName = bn ∧ ∃ e ∈ l, mapGet sysByID e.1 = none ∧
      u = ⟨e.1, e.2.AmountMinor, e.2.BankName⟩ := by
  unfold missingOf at hu
  obtain ⟨e, he, rfl⟩ := List.mem_map.mp hu
  have h := List.mem_filter.mp he
  have h2 := h.2
  simp only [Bool.and_eq_true, Option.isNone_iff_eq_none, beq_iff_eq] at h2
  exact ⟨h2.2, e, h.1, h2.1, rfl⟩

/-! ## Theorems: `appendUnique` -/

theorem appendUnique_snoc (d l : List GoString) (v : GoString) :
    appendUnique d (l ++ [v]) =
      if v ∈ appendUnique d l then appendUnique d l else appendUnique d l ++ [v] := by
  unfold appendUnique
  rw [List.foldl_append]
  rfl

theorem mem_appendUnique (d l : List GoString) (x : GoString) :
    x ∈ appendUnique d l ↔ x ∈ d ∨ x ∈ l := by
  induction l using List.reverseRecOn generalizing x with
  | nil => simp [appendUnique]
  | append_singleton l v ih =>
    rw [appendUnique_snoc]
    by_cases hv : v ∈ appendUnique d l
    · rw [if_pos hv, ih, List.mem_append, List.mem_singleton]
      constructor
      · rintro (h | h)
        · exact Or.inl h
        · exact Or.inr (Or.inl h)
      · rintro (h | h | h)
        · exact Or.inl h
        · exact Or.inr h
        · rw [h]; exact (ih v).mp hv
    · rw [if_neg hv, List.mem_append, ih, List.mem_append, List.mem_singleton]
      tauto

theorem appendUnique_nodup (d l : List GoString) (hd : d.Nodup) :
    (appendUnique d l).Nodup := by
  induction l using List.reverseRecOn with
  | nil => simpa [appendUnique] using hd
  | append_singleton l v ih =>
    rw [appendUnique_snoc]
    by_cases hv : v ∈ appendUnique d l
    · rw [if_pos hv]; exact ih
    · rw [if_neg hv]
      exact List.Nodup.append ih (List.nodup_singleton v)
        (fun x hx hx' => hv (List.mem_singleton.mp hx' ▸ hx))

theorem appendUnique_prefix (d l : List GoString) : d <+: appendUnique d l := by
  induction l using List.reverseRecOn with
  | nil => simp [appendUnique]
  | append_singleton l v ih =>
    rw [appendUnique_snoc]
    by_cases hv : v ∈ appendUnique d l
    · rw [if_pos hv]; exact ih
    · rw [if_neg hv]
      exact ih.trans (List.prefix_append _ _)

theorem appendUnique_head (x : GoString) (xs : List GoString) :
    (appendUnique [] (x :: xs)).head? = some x := by
  have h : appendUnique [] (x :: xs) = appendUnique [x] xs := by
    simp [appendUnique]
  rw [h]
  obtain ⟨t, ht⟩ := appendUnique_prefix [x] xs
  rw [← ht]
  rfl

theorem appendUnique_pair (d : List GoString) (a b : GoString) (ha : a ∈ d) :
    appendUnique d [a, b] = if b ∈ d then d else d ++ [b] := by
  simp [appendUnique, ha]

/-! ## Theorems: the map `duplicateBankIDs` -/

theorem occurrenceNames_snoc (rows : List BankStatement) (r : BankStatement) (k : GoString) :
    occurrenceNames (rows ++ [r]) k =
      if r.UniqueIdentifier = k then occurrenceNames rows k ++ [r.BankName]
      else occurrenceNames rows k := by
  unfold occurrenceNames
  rw [List.filter_append]
  by_cases h : r.UniqueIdentifier = k
  · simp [List.filter_cons, h]
  · simp [List.filter_cons, h]

theorem occurrenceNames_of_first (rows : List BankStatement) (k : GoString) :
    (∀ e, firstRowWithId rows k = some e → ∃ tl, occurrenceNames rows k = e.BankName :: tl) ∧
      (firstRowWithId rows k = none → occurrenceNames rows k = []) := by
  unfold firstRowWithId occurrenceNames
  induction rows with
  | nil => simp
  | cons r rows ih =>
    by_cases h : r.UniqueIdentifier = k
    · have hb : (r.UniqueIdentifier == k) = true := beq_iff_eq.mpr h
      simp [List.find?_cons, List.filter_cons, hb]
    · have hb : (r.UniqueIdentifier == k) = false := beq_false_of_ne h
      simp only [List.find?_cons, List.filter_cons, hb]
      exact ih

theorem occurrenceNames_cons (r : BankStatement) (rows : List BankStatement) (k : GoString) :
    occurrenceNames (r :: rows) k =
      if r.UniqueIdentifier = k then r.BankName :: occurrenceNames rows k
      else occurrenceNames rows k := by
  unfold occurrenceNames
  by_cases h : r.UniqueIdentifier = k
  · simp [List.filter_cons, h]
  · simp [List.filter_cons, h]

theorem occurrenceNames_eq_nil_iff (rows : List BankStatement) (k : GoString) :
    occurrenceNames rows k = [] ↔ k ∉ rows.map (fun r => r.UniqueIdentifier) := by
  induction rows with
  | nil => simp [occurrenceNames]
  | cons r rows ih =>
    rw [occurrenceNames_cons, List.map_cons, List.mem_cons]
    by_cases h : r.UniqueIdentifier = k
    · rw [if_pos h]
      simp [h]
    · rw [if_neg h, ih]
      have : ¬ k = r.UniqueIdentifier := fun e => h e.symm
      simp [this]

theorem occurrenceNames_length_le_one (rows : List BankStatement) :
    (rows.map (fun r => r.UniqueIdentifier)).Nodup ↔
      ∀ k, (occurrenceNames rows k).length ≤ 1 := by
  induction rows with
  | nil => simp [occurrenceNames]
  | cons r rows ih =>
    rw [List.map_cons, List.nodup_cons, ih]
    constructor
    · rintro ⟨hnot, hall⟩ k
      rw [occurrenceNames_cons]
      by_cases h : r.UniqueIdentifier = k
      · rw [if_pos h, ← h, (occurrenceNames_eq_nil_iff rows _).mpr hnot]
        exact Nat.le_refl _
      · rw [if_neg h]; exact hall k
    · intro hall
      constructor
      · intro hmem
        have h1 := hall r.UniqueIdentifier
        rw [occurrenceNames_cons, if_pos rfl, List.length_cons] at h1
        have h2 : occurrenceNames rows r.UniqueIdentifier ≠ [] :=
          fun e => (occurrenceNames_eq_nil_iff rows _).mp e hmem
        have h3 := List.length_pos.mpr h2
        omega
      · intro k
        have h1 := hall k
        rw [occurrenceNames_cons] at h1
        by_cases h : r.UniqueIdentifier = k
        · rw [if_pos h, List.length_cons] at h1; omega
        · rw [if_neg h] at h1; exact h1

theorem mem_occurrenceNames (rows : List BankStatement) (k n : GoString) :
    n ∈ occurrenceNames rows k ↔ ∃ r ∈ rows, r.UniqueIdentifier = k ∧ r.BankName = n := by
  unfold occurrenceNames
  simp only [List.mem_map, List.mem_filter, beq_iff_eq]
  constructor
  · rintro ⟨r, ⟨hr, hk⟩, hn⟩
    exact ⟨r, hr, hk, hn⟩
  · rintro ⟨r, hr, hk, hn⟩
    exact ⟨r, ⟨hr, hk⟩, hn⟩

theorem rowsFold_banked_get (rows : List BankStatement) (k : GoString) :
    mapGet (rows.foldl indexRow ⟨[], []⟩).banked k = firstRowWithId rows k := by
  rw [bankFold_get]
  rfl

theorem rowsFold_dup_nodup (rows : List BankStatement) (st : BankIndex)
    (hst : (mapKeys st.duplicateBankIDs).Nodup) :
    (mapKeys (rows.foldl indexRow st).duplicateBankIDs).Nodup := by
  induction rows generalizing st with
  | nil => exact hst
  | cons r rows ih =>
    rw [List.foldl_cons]
    apply ih
    unfold indexRow
    cases mapGet st.banked r.UniqueIdentifier with
    | some exist => exact mapKeys_mapSet_nodup _ _ _ hst
    | none => exact hst

theorem indexRow_dup_of_some (st : BankIndex) (r exist : BankStatement)
    (h : mapGet st.banked r.UniqueIdentifier = some exist) :
    (indexRow st r).duplicateBankIDs =
      mapSet st.duplicateBankIDs r.UniqueIdentifier
        (appendUnique ((mapGet st.duplicateBankIDs r.UniqueIdentifier).getD [])
          [exist.BankName, r.BankName]) := by
  unfold indexRow
  rw [h]

theorem indexRow_dup_of_none (st : BankIndex) (r : BankStatement)
    (h : mapGet st.banked r.UniqueIdentifier = none) :
    (indexRow st r).duplicateBankIDs = st.duplicateBankIDs := by
  unfold indexRow
  rw [h]

/-- The value of `duplicateBankIDs` after the rows `rows`: an identifier seen at
least twice has the distinct bank names of its rows, in order of first
appearance. -/
theorem rowsFold_dup_get (rows : List BankStatement) (k : GoString) :
    mapGet (rows.foldl indexRow ⟨[], []⟩).duplicateBankIDs k =
      if 2 ≤ (occurrenceNames rows k).length then
        some (appendUnique [] (occurrenceNames rows k))
      else none := by
  induction rows using List.reverseRecOn with
  | nil => rfl
  | append_singleton rows r ih =>
    rw [List.foldl_append, List.foldl_cons, List.foldl_nil, occurrenceNames_snoc]
    have hbank := rowsFold_banked_get rows r.UniqueIdentifier
    have hocc := occurrenceNames_of_first rows r.UniqueIdentifier
    cases hf : mapGet (rows.foldl indexRow ⟨[], []⟩).banked r.UniqueIdentifier with
    | none =>
      rw [indexRow_dup_of_none _ _ hf]
      rw [hf] at hbank
      have hnil := hocc.2 hbank.symm
      by_cases hk : r.UniqueIdentifier = k
      · rw [if_pos hk, ih, ← hk, hnil]
        rfl
      · rw [if_neg hk, ih]
    | some exist =>
      rw [indexRow_dup_of_some _ _ exist hf]
      rw [hf] at hbank
      obtain ⟨tl, htl⟩ := hocc.1 exist hbank.symm
      rw [mapGet_mapSet]
      by_cases hk : r.UniqueIdentifier = k
      · rw [if_pos hk, if_pos hk]
        subst hk
        have hlen : 2 ≤ (occurrenceNames rows r.UniqueIdentifier ++ [r.BankName]).length := by
          rw [htl]; simp
        rw [if_pos hlen, appendUnique_snoc]
        by_cases h2 : 2 ≤ (occurrenceNames rows r.UniqueIdentifier).length
        · rw [ih, if_pos h2]
          have hmem : exist.BankName ∈
              appendUnique [] (occurrenceNames rows r.UniqueIdentifier) := by
            rw [mem_appendUnique, htl]
            exact Or.inr (List.mem_cons_self _ _)
          simp only [Option.getD_some]
          rw [appendUnique_pair _ _ _ hmem]
        · rw [ih, if_neg h2]
          have htl' : tl = [] := by
            rw [htl] at h2
            simp only [List.length_cons] at h2
            exact List.length_eq_zero.mp (by omega)
          rw [htl, htl']
          rfl
      · rw [if_neg hk, if_neg hk, ih]

theorem dup_get (banks : List BankFile) (k : GoString) :
    mapGet (indexBanks banks).duplicateBankIDs k =
      if 2 ≤ (occurrenceNames (allRows banks) k).length then
        some (appendUnique [] (occurrenceNames (allRows banks) k))
      else none := by
  rw [indexBanks_eq_foldl, rowsFold_dup_get]

theorem dup_nodup (banks : List BankFile) :
    (mapKeys (indexBanks banks).duplicateBankIDs).Nodup := by
  rw [indexBanks_eq_foldl]
  exact rowsFold_dup_nodup _ _ List.nodup_nil

theorem mem_dup_keys (banks : List BankFile) (k : GoString) :
    k ∈ mapKeys (indexBanks banks).duplicateBankIDs ↔
      2 ≤ (occurrenceNames (allRows banks) k).length := by
  rw [← mapGet_isSome_iff, dup_get]
  by_cases h : 2 ≤ (occurrenceNames (allRows banks) k).length
  · simp [h]
  · simp [h]

theorem dup_eq_nil_iff (banks : List BankFile) :
    (indexBanks banks).duplicateBankIDs = [] ↔ (bankIds banks).Nodup := by
  unfold bankIds
  rw [occurrenceNames_length_le_one]
  constructor
  · intro h k
    have := (mem_dup_keys banks k).not.mp (by rw [h]; simp [mapKeys])
    omega
  · intro h
    cases hd : (indexBanks banks).duplicateBankIDs with
    | nil => rfl
    | cons e rest =>
      have hmem : e.1 ∈ mapKeys (indexBanks banks).duplicateBankIDs := by
        rw [hd]; simp [mapKeys]
      have := (mem_dup_keys banks e.1).mp hmem
      have := h e.1
      omega

theorem Reconcile_Notes (sys : List SystemTransaction) (banks : List BankFile) :
    (Reconcile sys banks).Notes =
      if (indexBanks banks).duplicateBankIDs = [] then []
      else [formatDuplicateNotes (indexBanks banks).duplicateBankIDs] := by
  unfold Reconcile
  dsimp only
  cases h : (indexBanks banks).duplicateBankIDs with
  | nil => rfl
  | cons e rest => simp

theorem mem_BankMissing_ids (sys : List SystemTransaction) (banks : List BankFile)
    (k : GoString) :
    k ∈ ((Reconcile sys banks).BankMissingInSystem.flatMap (fun g => g.2)).map
        (fun u => u.UniqueIdentifier) ↔ (k ∈ bankIds banks ∧ k ∉ systemIds sys) := by
  have hids : (((indexBanks banks).banked.filter
        (fun e => (mapGet (buildSysByID sys) e.1).isNone)).map
      (fun e => (⟨e.1, e.2.AmountMinor, e.2.BankName⟩ : UnmatchedBank))).map
        (fun u => u.UniqueIdentifier) =
      (mapKeys (indexBanks banks).banked).filter
        (fun k => (mapGet (buildSysByID sys) k).isNone) := by
    unfold mapKeys
    rw [List.map_map, List.filter_map]
    rfl
  rw [((Reconcile_BankMissing_flatten sys banks).map _).mem_iff, hids, List.mem_filter,
    mem_banked_keys, mapGet_isNone_iff, mem_buildSysByID_keys]

theorem two_le_length_of_mem {α : Type} (l : List α) (a b : α) (ha : a ∈ l) (hb : b ∈ l)
    (hne : a ≠ b) : 2 ≤ l.length := by
  rcases l with _ | ⟨x, _ | ⟨y, t⟩⟩
  · simp at ha
  · simp only [List.mem_singleton] at ha hb
    exact absurd (ha.trans hb.symm) hne
  · simp

theorem formatDuplicateNotes_eq (dups : GoMap (List GoString)) :
    formatDuplicateNotes dups = noteText (duplicateEntries dups) := by
  unfold formatDuplicateNotes noteText duplicateEntries
  dsimp only
  rw [List.map_map]
  have h : str " in banks=[" = str " in banks=" ++ str "[" := by decide
  congr 2
  apply List.map_congr_left
  intro id _
  simp only [Function.comp, h, List.append_assoc]

theorem duplicateEntries_eq_nil_iff (dups : GoMap (List GoString)) :
    duplicateEntries dups = [] ↔ dups = [] := by
  unfold duplicateEntries
  rw [List.map_eq_nil_iff]
  constructor
  · intro h
    have := (sortSlice_perm (fun k : GoString => k) (mapKeys dups)).length_eq
    rw [h] at this
    have h2 : mapKeys dups = [] := List.length_eq_zero.mp this.symm
    unfold mapKeys at h2
    exact List.map_eq_nil_iff.mp h2
  · intro h
    rw [h]
    rfl

theorem duplicateEntries_keys (dups : GoMap (List GoString)) :
    (duplicateEntries dups).map (fun e => e.1) = sortSlice (fun k => k) (mapKeys dups) := by
  unfold duplicateEntries
  rw [List.map_map]
  exact List.map_id _

theorem mem_duplicateEntries (banks : List BankFile) (e : GoString × List GoString)
    (he : e ∈ duplicateEntries (indexBanks banks).duplicateBankIDs) :
    2 ≤ (occurrenceNames (allRows banks) e.1).length ∧
      e.2 = appendUnique [] (occurrenceNames (allRows banks) e.1) := by
  unfold duplicateEntries at he
  obtain ⟨k, hk, rfl⟩ := List.mem_map.mp he
  have hk' := (sortSlice_perm _ _).mem_iff.mp hk
  have h2 := (mem_dup_keys banks k).mp hk'
  refine ⟨h2, ?_⟩
  dsimp only
  rw [dup_get, if_pos h2]
  rfl

/-! ## Theorems: later occurrences of a bank identifier -/

theorem allRows_append (f1 f2 : List BankFile) :
    allRows (f1 ++ f2) = allRows f1 ++ allRows f2 := by
  unfold allRows
  exact List.flatMap_append _ _ _

theorem allRows_cons (bf : BankFile) (rest : List BankFile) :
    allRows (bf :: rest) = bf.Rows ++ allRows rest := by
  unfold allRows
  exact List.flatMap_cons _ _ _

theorem totalProcessed_foldl (banks : List BankFile) (n : Nat) :
    banks.foldl (fun n bf => n + bf.Rows.length) n = n + (allRows banks).length := by
  induction banks generalizing n with
  | nil => rfl
  | cons bf rest ih =>
    rw [List.foldl_cons, ih, allRows_cons, List.length_append]
    omega

theorem Reconcile_congr_banks (sys : List SystemTransaction) (banks banks' : List BankFile)
    (h1 : indexBanks banks = indexBanks banks')
    (h2 : (allRows banks).length = (allRows banks').length) :
    Reconcile sys banks = Reconcile sys banks' := by
  unfold Reconcile
  dsimp only
  rw [h1, totalProcessed_foldl, totalProcessed_foldl, h2]

theorem indexRow_congr_of_present (st : BankIndex) (r r' exist : BankStatement)
    (h : mapGet st.banked r.UniqueIdentifier = some exist)
    (hid : r'.UniqueIdentifier = r.UniqueIdentifier) (hbn : r'.BankName = r.BankName) :
    indexRow st r' = indexRow st r := by
  unfold indexRow
  rw [hid, hbn, h]

theorem indexBanks_replace_later (f1 f2 : List BankFile) (name : GoString)
    (rows1 rows2 : List BankStatement) (r r' : BankStatement)
    (hlater : r.UniqueIdentifier ∈
      (allRows f1 ++ rows1).map (fun x => x.UniqueIdentifier))
    (hid : r'.UniqueIdentifier = r.UniqueIdentifier) (hbn : r'.BankName = r.BankName) :
    indexBanks (f1 ++ ⟨name, rows1 ++ r' :: rows2⟩ :: f2) =
      indexBanks (f1 ++ ⟨name, rows1 ++ r :: rows2⟩ :: f2) := by
  rw [indexBanks_eq_foldl, indexBanks_eq_foldl, allRows_append, allRows_append, allRows_cons,
    allRows_cons]
  dsimp only
  have e1 : allRows f1 ++ ((rows1 ++ r' :: rows2) ++ allRows f2) =
      (allRows f1 ++ rows1) ++ r' :: (rows2 ++ allRows f2) := by simp
  have e2 : allRows f1 ++ ((rows1 ++ r :: rows2) ++ allRows f2) =
      (allRows f1 ++ rows1) ++ r :: (rows2 ++ allRows f2) := by simp
  rw [e1, e2]
  have hkey : r.UniqueIdentifier ∈
      mapKeys ((allRows f1 ++ rows1).foldl indexRow ⟨[], []⟩).banked := by
    rw [(bankFold_keys _ ⟨[], []⟩ List.nodup_nil).2]
    exact Or.inr hlater
  have hstep : indexRow ((allRows f1 ++ rows1).foldl indexRow ⟨[], []⟩) r' =
      indexRow ((allRows f1 ++ rows1).foldl indexRow ⟨[], []⟩) r := by
    cases hg : mapGet ((allRows f1 ++ rows1).foldl indexRow ⟨[], []⟩).banked
        r.UniqueIdentifier with
    | none => exact absurd hkey ((mapGet_eq_none_iff _ _).mp hg)
    | some exist => exact indexRow_congr_of_present _ r r' exist hg hid hbn
  rw [List.foldl_append _ _ (allRows f1 ++ rows1), List.foldl_append _ _ (allRows f1 ++ rows1),
    List.foldl_cons, List.foldl_cons, hstep]

theorem diffEntry_bank (banked : GoMap BankStatement) (e : GoString × SystemTransaction)
    (d : MatchedDiff) (h : diffEntry banked e = some d) :
    ∃ be, mapGet banked e.1 = some be ∧ d.BankAmountMinor = be.AmountMinor ∧
      d.BankName = be.BankName := by
  unfold diffEntry at h
  cases hb : mapGet banked e.1 with
  | none => rw [hb] at h; cases h
  | some be =>
    rw [hb] at h
    dsimp only at h
    split at h
    · cases h; exact ⟨be, rfl, rfl, rfl⟩
    · cases h

/-! ## Theorems: inputs without repeated identifiers -/

theorem mapSet_of_not_mem {V : Type} (m : GoMap V) (k : GoString) (v : V)
    (h : k ∉ mapKeys m) : mapSet m k v = m ++ [(k, v)] := by
  induction m with
  | nil => rfl
  | cons e rest ih =>
    rcases e with ⟨a, b⟩
    unfold mapKeys at h ih
    rw [List.map_cons, List.mem_cons, not_or] at h
    have hak : ¬ a = k := fun e => h.1 e.symm
    simp only [mapSet, hak, if_false, List.cons_append]
    rw [ih h.2]

theorem sysFold_of_nodup (l : List SystemTransaction) (m : GoMap SystemTransaction)
    (hl : (systemIds l).Nodup) (hd : ∀ k ∈ systemIds l, k ∉ mapKeys m) :
    l.foldl (fun m s => mapSet m s.TrxID s) m = m ++ l.map (fun t => (t.TrxID, t)) := by
  induction l generalizing m with
  | nil => simp
  | cons s l ih =>
    unfold systemIds at hl hd ih
    rw [List.map_cons, List.nodup_cons] at hl
    rw [List.foldl_cons, mapSet_of_not_mem m _ _ (hd _ (by simp)), ih _ hl.2]
    · simp
    · intro k hk
      unfold mapKeys
      rw [List.map_append, List.mem_append, not_or]
      refine ⟨hd k (by simp [hk]), ?_⟩
      simp only [List.map_cons, List.map_nil, List.mem_singleton]
      intro e
      exact hl.1 (e ▸ hk)

theorem buildSysByID_of_nodup (sys : List SystemTransaction) (h : (systemIds sys).Nodup) :
    buildSysByID sys = sys.map (fun t => (t.TrxID, t)) := by
  unfold buildSysByID
  rw [sysFold_of_nodup sys [] h (fun k _ => by simp [mapKeys])]
  rfl

theorem bankFold_of_nodup (rows : List BankStatement) (st : BankIndex)
    (hl : (rows.map (fun r => r.UniqueIdentifier)).Nodup)
    (hd : ∀ k ∈ rows.map (fun r => r.UniqueIdentifier), k ∉ mapKeys st.banked) :
    rows.foldl indexRow st =
      ⟨st.banked ++ rows.map (fun r => (r.UniqueIdentifier, r)), st.duplicateBankIDs⟩ := by
  induction rows generalizing st with
  | nil => simp
  | cons r rows ih =>
    rw [List.map_cons, List.nodup_cons] at hl
    have hnone : mapGet st.banked r.UniqueIdentifier = none :=
      (mapGet_eq_none_iff _ _).mpr (hd _ (by simp))
    have hstep : indexRow st r =
        ⟨st.banked ++ [(r.UniqueIdentifier, r)], st.duplicateBankIDs⟩ := by
      unfold indexRow
      rw [hnone, mapSet_of_not_mem _ _ _ (hd _ (by simp))]
    rw [List.foldl_cons, hstep, ih _ hl.2]
    · simp
    · intro k hk
      unfold mapKeys
      rw [List.map_append, List.mem_append, not_or]
      refine ⟨hd k (by simp [hk]), ?_⟩
      simp only [List.map_cons, List.map_nil, List.mem_singleton]
      intro e
      exact hl.1 (e ▸ hk)

theorem indexBanks_of_nodup (banks : List BankFile) (h : (bankIds banks).Nodup) :
    indexBanks banks = ⟨(allRows banks).map (fun r => (r.UniqueIdentifier, r)), []⟩ := by
  rw [indexBanks_eq_foldl, bankFold_of_nodup _ _ h (fun k _ => by simp [mapKeys])]
  rfl

theorem mapGet_eq_of_perm {V : Type} (m m' : GoMap V) (hp : m.Perm m')
    (hnd : (mapKeys m).Nodup) (k : GoString) : mapGet m k = mapGet m' k := by
  have hnd' : (mapKeys m').Nodup := (hp.map _).nodup_iff.mp hnd
  cases h : mapGet m k with
  | some v =>
    have hmem := hp.mem_iff.mp (mem_of_mapGet m k v h)
    exact (mapGet_of_mem m' hnd' (k, v) hmem).symm
  | none =>
    have hk := (mapGet_eq_none_iff m k).mp h
    have hk' : k ∉ mapKeys m' := fun hm => hk ((hp.map _).mem_iff.mpr hm)
    exact ((mapGet_eq_none_iff m' k).mpr hk').symm

theorem diffEntry_congr (b b' : GoMap BankStatement) (h : ∀ k, mapGet b k = mapGet b' k) :
    diffEntry b = diffEntry b' := by
  funext e
  unfold diffEntry
  rw [h]

theorem missingOf_congr (s s' : GoMap SystemTransaction) (h : ∀ k, mapGet s k = mapGet s' k)
    (l : List (GoString × BankStatement)) (bn : GoString) :
    missingOf s l bn = missingOf s' l bn := by
  unfold missingOf
  congr 1
  apply List.filter_congr
  intro e _
  rw [h]

theorem missingOf_perm (s : GoMap SystemTransaction) (l l' : List (GoString × BankStatement))
    (hp : l.Perm l') (bn : GoString) : (missingOf s l bn).Perm (missingOf s l' bn) := by
  unfold missingOf
  exact (hp.filter _).map _

theorem allRows_perm_of_rows_perm (banks mid : List BankFile)
    (hf : List.Forall₂ (fun bf bf' => bf'.BankName = bf.BankName ∧ bf'.Rows.Perm bf.Rows)
      banks mid) : (allRows mid).Perm (allRows banks) := by
  induction hf with
  | nil => exact List.Perm.refl _
  | cons hab _ ih =>
    rw [allRows_cons, allRows_cons]
    exact hab.2.append ih

theorem allRows_perm_of_permuted (banks banks' : List BankFile)
    (h : BanksPermuted banks banks') : (allRows banks').Perm (allRows banks) := by
  obtain ⟨mid, hf, hp⟩ := h
  have h2 : (allRows mid).Perm (allRows banks') := by
    unfold allRows
    exact hp.flatMap_right _
  exact h2.symm.trans (allRows_perm_of_rows_perm banks mid hf)

/-- The summary depends on the two inputs only through the entries of the two
indexes up to order, when no identifier is repeated. -/
theorem Reconcile_perm_invariant (sys sys' : List SystemTransaction)
    (banks banks' : List BankFile)
    (hs : (systemIds sys).Nodup) (hb : (bankIds banks).Nodup)
    (hps : sys'.Perm sys) (hpr : (allRows banks').Perm (allRows banks)) :
    SummaryEq (Reconcile sys' banks') (Reconcile sys banks) := by
  have hs' : (systemIds sys').Nodup := (hps.map _).nodup_iff.mpr hs
  have hb' : (bankIds banks').Nodup := (hpr.map _).nodup_iff.mpr hb
  have hS : (buildSysByID sys').Perm (buildSysByID sys) := by
    rw [buildSysByID_of_nodup sys hs, buildSysByID_of_nodup sys' hs']
    exact hps.map _
  have hB : (indexBanks banks').banked.Perm (indexBanks banks).banked := by
    rw [indexBanks_of_nodup banks hb, indexBanks_of_nodup banks' hb']
    exact hpr.map _
  have hSget : ∀ k, mapGet (buildSysByID sys') k = mapGet (buildSysByID sys) k :=
    fun k => mapGet_eq_of_perm _ _ hS (buildSysByID_nodup sys') k
  have hBget : ∀ k, mapGet (indexBanks banks').banked k = mapGet (indexBanks banks).banked k :=
    fun k => mapGet_eq_of_perm _ _ hB (banked_nodup banks') k
  have hMWD : (Reconcile sys' banks').MatchedWithDiscrepancies =
      (Reconcile sys banks).MatchedWithDiscrepancies := by
    rw [Reconcile_MatchedWithDiscrepancies, Reconcile_MatchedWithDiscrepancies,
      diffEntry_congr _ _ hBget]
    exact sortSlice_eq_of_perm _ _ _ (hS.filterMap _)
      ((filterMap_diffEntry_ids _ _).nodup (buildSysByID_nodup sys'))
  refine ⟨?_, ?_, ?_, ?_, ?_, fun k => ?_, hMWD, ?_⟩
  · rw [Reconcile_TotalProcessed, Reconcile_TotalProcessed, ← allRows_length, ← allRows_length,
      hps.length_eq, hpr.length_eq]
  · rw [Reconcile_TotalMatched_eq, Reconcile_TotalMatched_eq]
    have hf : (systemIds sys').dedup.filter (fun k => decide (k ∈ bankIds banks')) =
        (systemIds sys').dedup.filter (fun k => decide (k ∈ bankIds banks)) := by
      apply List.filter_congr
      intro k _
      rw [Bool.eq_iff_iff]
      simp [(hpr.map (fun r => r.UniqueIdentifier)).mem_iff, bankIds]
    rw [hf]
    exact (((hps.map _).dedup).filter _).length_eq
  · rw [Reconcile_TotalUnmatched, Reconcile_TotalUnmatched]
    have hKS : (mapKeys (buildSysByID sys')).Perm (mapKeys (buildSysByID sys)) := hS.map _
    have hKB : (mapKeys (indexBanks banks').banked).Perm (mapKeys (indexBanks banks).banked) :=
      hB.map _
    have h1 : (mapKeys (buildSysByID sys')).filter
          (fun k => !decide (k ∈ mapKeys (indexBanks banks').banked)) =
        (mapKeys (buildSysByID sys')).filter
          (fun k => !decide (k ∈ mapKeys (indexBanks banks).banked)) := by
      apply List.filter_congr
      intro k _
      simp [hKB.mem_iff]
    have h2 : (mapKeys (indexBanks banks').banked).filter
          (fun k => !decide (k ∈ mapKeys (buildSysByID sys'))) =
        (mapKeys (indexBanks banks').banked).filter
          (fun k => !decide (k ∈ mapKeys (buildSysByID sys))) := by
      apply List.filter_congr
      intro k _
      simp [hKS.mem_iff]
    rw [h1, h2, (hKS.filter _).length_eq, (hKB.filter _).length_eq]
  · rw [Reconcile_TotalAmountDiscrepancy, Reconcile_TotalAmountDiscrepancy sys banks, hMWD]
  · rw [Reconcile_SystemMissingInBank, Reconcile_SystemMissingInBank]
    have hf : (buildSysByID sys').filter
          (fun e => (mapGet (indexBanks banks').banked e.1).isNone) =
        (buildSysByID sys').filter
          (fun e => (mapGet (indexBanks banks).banked e.1).isNone) := by
      apply List.filter_congr
      intro e _
      rw [hBget]
    rw [hf]
    refine sortSlice_eq_of_perm _ _ _ ((hS.filter _).map _) ?_
    rw [sysMissing_ids]
    exact (buildSysByID_nodup sys').filter _
  · rw [Reconcile_BankMissing_get, Reconcile_BankMissing_get,
      missingOf_congr _ _ hSget]
    have hp := missingOf_perm (buildSysByID sys) _ _ hB k
    by_cases hnil : missingOf (buildSysByID sys) (indexBanks banks).banked k = []
    · have hnil' : missingOf (buildSysByID sys) (indexBanks banks').banked k = [] := by
        rw [hnil] at hp
        exact List.Perm.eq_nil hp
      rw [if_pos hnil, if_pos hnil']
    · have hnil' : missingOf (buildSysByID sys) (indexBanks banks').banked k ≠ [] := by
        intro e
        rw [e] at hp
        exact hnil (List.Perm.eq_nil hp.symm)
      rw [if_neg hnil, if_neg hnil']
      congr 1
      exact sortSlice_eq_of_perm _ _ _ hp (missingOf_ids_nodup _ _ (banked_nodup banks') k)
  · rw [Reconcile_Notes, Reconcile_Notes, if_pos ((dup_eq_nil_iff banks).mpr hb),
      if_pos ((dup_eq_nil_iff banks').mpr hb')]

/-! ## Theorems: calendar days -/

theorem isLeap_iff (y : Int) :
    isLeap y = true ↔ y % 4 = 0 ∧ (y % 100 ≠ 0 ∨ y % 400 = 0) := by
  unfold isLeap
  simp

/-- The months of a year follow one another: the days before a month and its
length are at most the days before any later month, and at most the length of
the year. -/
theorem month_table : ∀ l : Bool, ∀ m < 13, 1 ≤ m →
    (daysBefore m + (if l = true ∧ 3 ≤ m then 1 else 0) +
        (if m = 2 ∧ l = true then 29 else daysBefore (m + 1) - daysBefore m)
      ≤ 365 + (if l = true then 1 else 0)) ∧
    ∀ n < 13, m < n →
      daysBefore m + (if l = true ∧ 3 ≤ m then 1 else 0) +
        (if m = 2 ∧ l = true then 29 else daysBefore (m + 1) - daysBefore m)
      ≤ daysBefore n + (if l = true ∧ 3 ≤ n then 1 else 0) := by
  decide

theorem daysBeforeDay_lt (y : Int) (m d : Nat) (h1 : 1 ≤ m) (h2 : m ≤ 12) (h3 : 1 ≤ d)
    (h4 : d ≤ daysIn m y) :
    daysBeforeDay y m d < 365 + (if isLeap y = true then 1 else 0) := by
  have h := (month_table (isLeap y) m (by omega) h1).1
  unfold daysIn at h4
  unfold daysBeforeDay
  omega

theorem daysBeforeDay_month_lt (y : Int) (m d n e : Nat) (h1 : 1 ≤ m) (h3 : 1 ≤ d)
    (h4 : d ≤ daysIn m y) (hn : n ≤ 12) (hmn : m < n) :
    daysBeforeDay y m d < daysBeforeDay y n e := by
  have h := (month_table (isLeap y) m (by omega) h1).2 n (by omega) hmn
  unfold daysIn at h4
  unfold daysBeforeDay
  omega

theorem daysBeforeDay_le_iff (y : Int) (m d n e : Nat) (h1 : 1 ≤ m) (h2 : m ≤ 12)
    (h3 : 1 ≤ d) (h4 : d ≤ daysIn m y) (n1 : 1 ≤ n) (n2 : n ≤ 12) (n3 : 1 ≤ e)
    (n4 : e ≤ daysIn n y) :
    daysBeforeDay y m d ≤ daysBeforeDay y n e ↔ (m < n ∨ (m = n ∧ d ≤ e)) := by
  rcases lt_trichotomy m n with hlt | heq | hgt
  · have := daysBeforeDay_month_lt y m d n e h1 h3 h4 n2 hlt
    omega
  · subst heq
    unfold daysBeforeDay
    omega
  · have := daysBeforeDay_month_lt y n e m d n1 n3 n4 h2 hgt
    omega

theorem absDays_bounds (t : Time) (h : validDate t) :
    daysSinceEpoch t.Year ≤ t.absDays ∧
      t.absDays < daysSinceEpoch t.Year + 365 + (if isLeap t.Year = true then 1 else 0) := by
  obtain ⟨h1, h2, h3, h4⟩ := h
  have := daysBeforeDay_lt t.Year t.Month t.Day h1 h2 h3 h4
  unfold Time.absDays
  by_cases hl : isLeap t.Year = true
  · rw [if_pos hl] at this ⊢
    omega
  · rw [if_neg hl] at this ⊢
    omega

theorem daysSinceEpoch_step (y1 y2 : Int) (h : y1 < y2) :
    daysSinceEpoch y1 + 365 + (if isLeap y1 = true then 1 else 0) ≤ daysSinceEpoch y2 := by
  unfold daysSinceEpoch
  by_cases hl : isLeap y1 = true
  · rw [if_pos hl]
    rw [isLeap_iff] at hl
    omega
  · rw [if_neg hl]
    omega

theorem absDays_le_iff (a b : Time) (ha : validDate a) (hb : validDate b) :
    a.absDays ≤ b.absDays ↔ dayLe a b = true := by
  unfold dayLe
  rcases lt_trichotomy a.Year b.Year with hlt | heq | hgt
  · have h1 := (absDays_bounds a ha).2
    have h2 := (absDays_bounds b hb).1
    have h3 := daysSinceEpoch_step _ _ hlt
    simp [hlt]
    omega
  · obtain ⟨a1, a2, a3, a4⟩ := ha
    obtain ⟨b1, b2, b3, b4⟩ := hb
    have h := daysBeforeDay_le_iff b.Year a.Month a.Day b.Month b.Day a1 a2 a3 (heq ▸ a4)
      b1 b2 b3 b4
    unfold Time.absDays
    rw [heq]
    simp [← h]
  · have h1 := (absDays_bounds b hb).2
    have h2 := (absDays_bounds a ha).1
    have h3 := daysSinceEpoch_step _ _ hgt
    have hne : ¬ a.Year = b.Year := by omega
    have hnl : ¬ a.Year < b.Year := by omega
    simp [hne, hnl]
    omega

/-- Midnight UTC of a calendar day of the years `minYear` to `maxYear` is an
`int64` number of seconds. -/
theorem absDays_isInt64 (t : Time) (h : dateInRange t) : isInt64 (t.absDays * 86400) := by
  obtain ⟨hv, h1, h2⟩ := h
  have hb := absDays_bounds t hv
  have hstep := daysSinceEpoch_step t.Year (t.Year + 1) (by omega)
  have hlo : daysSinceEpoch minYear ≤ daysSinceEpoch t.Year := by
    unfold daysSinceEpoch
    omega
  have hhi : daysSinceEpoch (t.Year + 1) ≤ daysSinceEpoch (maxYear + 1) := by
    unfold daysSinceEpoch
    omega
  have e1 : daysSinceEpoch minYear = -106751990353932 := by decide
  have e2 : daysSinceEpoch (maxYear + 1) = 106751991166961 := by decide
  rw [e1] at hlo
  rw [e2] at hhi
  unfold isInt64
  omega

theorem dateOnly_sec (t : Time) (h : dateInRange t) :
    (dateOnly t).sec = t.absDays * 86400 := by
  have h64 := absDays_isInt64 t h
  unfold dateOnly Date UTC Time.sec
  have he : (⟨t.Year, t.Month, t.Day, 0, 0, 0, 0, 0⟩ : Time).absDays = t.absDays := rfl
  simp only [he]
  simp only [Nat.cast_zero, zero_mul, add_zero, sub_zero]
  exact wrap64_of_isInt64 _ h64

theorem dateOnly_Nanosecond (t : Time) : (dateOnly t).Nanosecond = 0 := rfl

theorem betweenDays_iff (t start endTime : Time) (ht : dateInRange t)
    (hs : dateInRange start) (he : dateInRange endTime) :
    betweenDays t start endTime = true ↔
      (start.absDays ≤ t.absDays ∧ t.absDays ≤ endTime.absDays) := by
  unfold betweenDays Time.Equal Time.After Time.Before
  simp only [dateOnly_sec t ht, dateOnly_sec start hs, dateOnly_sec endTime he,
    dateOnly_Nanosecond]
  simp
  omega

theorem betweenDays_eq_inDayRange (t start endTime : Time) (ht : dateInRange t)
    (hs : dateInRange start) (he : dateInRange endTime) :
    betweenDays t start endTime = inDayRange t start endTime := by
  rw [Bool.eq_iff_iff, betweenDays_iff _ _ _ ht hs he, absDays_le_iff _ _ hs.1 ht.1,
    absDays_le_iff _ _ ht.1 he.1]
  unfold inDayRange
  simp

theorem foldl_append_if {α : Type} (p : α → Bool) (l acc : List α) :
    l.foldl (fun out x => if p x = true then out ++ [x] else out) acc = acc ++ l.filter p := by
  induction l generalizing acc with
  | nil => simp
  | cons a t ih =>
    rw [List.foldl_cons, ih]
    cases h : p a <;> simp [List.filter, h]

theorem FilterSystemByDate_eq_filter (txns : List SystemTransaction) (start endTime : Time) :
    FilterSystemByDate txns start endTime =
      txns.filter (fun x => betweenDays x.TransactionTime start endTime) := by
  unfold FilterSystemByDate
  rw [foldl_append_if (fun x : SystemTransaction => betweenDays x.TransactionTime start endTime)]
  rfl

theorem foldl_append_map {α β : Type} (f : α → β) (l : List α) (acc : List β) :
    l.foldl (fun out x => out ++ [f x]) acc = acc ++ l.map f := by
  induction l generalizing acc with
  | nil => simp
  | cons a t ih => rw [List.foldl_cons, ih]; simp

theorem FilterBanksByDate_eq_map (files : List BankFile) (start endTime : Time) :
    FilterBanksByDate files start endTime =
      files.map (fun bf => (⟨bf.BankName,
        bf.Rows.filter (fun r => betweenDays r.Date start endTime)⟩ : BankFile)) := by
  unfold FilterBanksByDate
  dsimp only
  rw [foldl_append_map (fun bf : BankFile => (⟨bf.BankName, bf.Rows.foldl (fun rows r =>
      if betweenDays r.Date start endTime = true then rows ++ [r] else rows) []⟩ : BankFile))]
  rw [List.nil_append]
  apply List.map_congr_left
  intro bf _
  rw [foldl_append_if (fun r : BankStatement => betweenDays r.Date start endTime)]
  rfl

/-! ## Theorems: the sign of a discrepancy -/

/-- The two applications of `abs64` to a wrapped difference `w` that the first
one does not send to 0: the result is never 0, it is `-2^63` when `w` is, and
positive otherwise. -/
theorem abs64_abs64_sign (w : Int) (hw : isInt64 w) (hnz : abs64 w ≠ 0) :
    abs64 (abs64 w) ≠ 0 ∧ (w = minInt64 → abs64 (abs64 w) = minInt64) ∧
      (w ≠ minInt64 → 0 < abs64 (abs64 w) ∧ abs64 (abs64 w) ≤ maxInt64) := by
  have hw0 : w ≠ 0 := fun h => hnz ((abs64_eq_zero_iff w hw).mpr h)
  unfold isInt64 at hw
  unfold minInt64 maxInt64
  by_cases hmin : w = -(2 : Int) ^ 63
  · have h1 : abs64 w = -(2 : Int) ^ 63 := by
      subst hmin
      decide
    rw [h1]
    have h2 : abs64 (-(2 : Int) ^ 63) = -(2 : Int) ^ 63 := by decide
    rw [h2]
    refine ⟨by decide, fun _ => rfl, fun h => absurd hmin h⟩
  · by_cases hneg : w < 0
    · have h1 : abs64 w = -w := by
        unfold abs64
        rw [if_pos hneg]
        exact wrap64_of_isInt64 _ (by unfold isInt64; omega)
      have h2 : abs64 (-w) = -w := by
        unfold abs64
        rw [if_neg (by omega)]
      rw [h1, h2]
      refine ⟨by omega, fun h => absurd h hmin, fun _ => by omega⟩
    · have h1 : abs64 w = w := by
        unfold abs64
        rw [if_neg hneg]
      rw [h1, h1]
      refine ⟨hw0, fun h => absurd h hmin, fun _ => by omega⟩

theorem wrap64_sub_eq_min_iff (s b : Int) (hs : isInt64 s) (hb : isInt64 b) :
    wrap64 (s - b) = minInt64 ↔ |s - b| = 2 ^ 63 := by
  unfold isInt64 at hs hb
  unfold wrap64 minInt64
  rcases abs_cases (s - b) with ⟨h1, h2⟩ | ⟨h1, h2⟩ <;> rw [h1] <;> omega

/-- The fields of the entry one iteration of the loop over `sysByID` appends. -/
theorem diffEntry_fields (banked : GoMap BankStatement) (e : GoString × SystemTransaction)
    (d : MatchedDiff) (h : diffEntry banked e = some d) :
    ∃ be, mapGet banked e.1 = some be ∧
      d.SystemAmountMinor = (SignedAmount e.2.Typ e.2.AmountMinor).1 ∧
      d.BankAmountMinor = be.AmountMinor ∧
      abs64 (wrap64 (d.SystemAmountMinor - d.BankAmountMinor)) ≠ 0 ∧
      d.AbsDiffMinor = abs64 (abs64 (wrap64 (d.SystemAmountMinor - d.BankAmountMinor))) := by
  unfold diffEntry at h
  cases hb : mapGet banked e.1 with
  | none => rw [hb] at h; cases h
  | some be =>
    rw [hb] at h
    dsimp only at h
    split at h
    · rename_i hnz
      cases h
      exact ⟨be, rfl, rfl, rfl, hnz, rfl⟩
    · cases h

/-- Every entry of `MatchedWithDiscrepancies` is built from an `int64` signed
system amount and an `int64` bank amount that differ in `int64`. -/
theorem MWD_entry (sys : List SystemTransaction) (banks : List BankFile)
    (hsys : ∀ t ∈ sys, isInt64 t.AmountMinor)
    (hbank : ∀ r ∈ allRows banks, isInt64 r.AmountMinor)
    (d : MatchedDiff) (hd : d ∈ (Reconcile sys banks).MatchedWithDiscrepancies) :
    isInt64 d.SystemAmountMinor ∧ isInt64 d.BankAmountMinor ∧
      abs64 (wrap64 (d.SystemAmountMinor - d.BankAmountMinor)) ≠ 0 ∧
      d.AbsDiffMinor = abs64 (abs64 (wrap64 (d.SystemAmountMinor - d.BankAmountMinor))) := by
  obtain ⟨e, he, hde⟩ := (mem_MatchedWithDiscrepancies sys banks d).mp hd
  obtain ⟨be, hbe, hS, hB, hnz, habs⟩ := diffEntry_fields _ e d hde
  have hget := mapGet_of_mem _ (buildSysByID_nodup sys) e he
  rw [buildSysByID_get] at hget
  have hmem := (mem_systemIds_of_last sys e.1 e.2 hget).2.2
  rw [banked_get] at hbe
  have hrow : be ∈ allRows banks := List.mem_of_find?_eq_some hbe
  refine ⟨?_, ?_, hnz, habs⟩
  · rw [hS]; exact SignedAmount_isInt64 _ _ (hsys _ hmem)
  · rw [hB]; exact hbank _ hrow

/-! ## Theorems: one identifier among the system transactions -/

theorem length_filter_split {α : Type} (l : List α) (p : α → Bool) :
    l.length = (l.filter (fun a => !p a)).length + (l.filter p).length := by
  induction l with
  | nil => rfl
  | cons a t ih =>
    cases ha : p a <;> simp [List.filter, ha] <;> omega

theorem filter_key_eq_nil {α : Type} (f : α → GoString) (l : List α) (k : GoString)
    (h : k ∉ l.map f) : l.filter (fun a => f a == k) = [] := by
  rw [List.filter_eq_nil_iff]
  intro a ha hk
  exact h (List.mem_map.mpr ⟨a, ha, by simpa using hk⟩)

theorem filter_key_eq_singleton {α : Type} (f : α → GoString) (l : List α)
    (h : (l.map f).Nodup) (u : α) (hu : u ∈ l) :
    l.filter (fun a => f a == f u) = [u] := by
  induction l with
  | nil => simp at hu
  | cons a t ih =>
    rw [List.map_cons, List.nodup_cons] at h
    rcases List.mem_cons.mp hu with heq | hmem
    · subst heq
      have hnil := filter_key_eq_nil f t (f u) h.1
      simp [List.filter, hnil]
    · have hne : f a ≠ f u := fun hae => h.1 (hae ▸ List.mem_map_of_mem f hmem)
      have hb : (f a == f u) = false := beq_false_of_ne hne
      rw [List.filter_cons, hb]
      exact ih h.2 hmem

theorem filter_key_length_le_one {α : Type} (f : α → GoString) (l : List α)
    (h : (l.map f).Nodup) (k : GoString) : (l.filter (fun a => f a == k)).length ≤ 1 := by
  by_cases hk : k ∈ l.map f
  · obtain ⟨u, hu, rfl⟩ := List.mem_map.mp hk
    rw [filter_key_eq_singleton f l h u hu]
    rfl
  · rw [filter_key_eq_nil f l k hk]
    exact Nat.zero_le 1

theorem systemIds_withoutId (sys : List SystemTransaction) (k : GoString) :
    systemIds (withoutId sys k) = (systemIds sys).filter (fun x => x != k) := by
  unfold systemIds withoutId
  rw [List.filter_map]
  rfl

/-- The distinct elements of `l` that lie in `b`, counted with and without
`k`. -/
theorem dedup_filter_length_without (l b : List GoString) (k : GoString) (hk : k ∈ l) :
    (l.dedup.filter (fun x => decide (x ∈ b))).length =
      ((l.filter (fun x => x != k)).dedup.filter (fun x => decide (x ∈ b))).length +
        (if k ∈ b then 1 else 0) := by
  have hA : (l.dedup.filter (fun x => decide (x ∈ b))).Nodup := (List.nodup_dedup l).filter _
  have hA' : ((l.filter (fun x => x != k)).dedup.filter (fun x => decide (x ∈ b))).Nodup :=
    (List.nodup_dedup _).filter _
  have hmem : ∀ x, x ∈ (l.filter (fun x => x != k)).dedup.filter (fun x => decide (x ∈ b)) ↔
      (x ∈ l ∧ x ≠ k) ∧ x ∈ b := by
    intro x
    simp [List.mem_filter, List.mem_dedup]
  have hmemA : ∀ x, x ∈ l.dedup.filter (fun x => decide (x ∈ b)) ↔ x ∈ l ∧ x ∈ b := by
    intro x
    simp [List.mem_filter, List.mem_dedup]
  by_cases hb : k ∈ b
  · rw [if_pos hb]
    have hnd : (k :: (l.filter (fun x => x != k)).dedup.filter
        (fun x => decide (x ∈ b))).Nodup := by
      rw [List.nodup_cons]
      refine ⟨fun h => ((hmem k).mp h).1.2 rfl, hA'⟩
    have hp : (l.dedup.filter (fun x => decide (x ∈ b))).Perm
        (k :: (l.filter (fun x => x != k)).dedup.filter (fun x => decide (x ∈ b))) := by
      rw [List.perm_ext_iff_of_nodup hA hnd]
      intro x
      rw [List.mem_cons, hmem, hmemA]
      by_cases hx : x = k
      · subst hx; simp [hk, hb]
      · simp [hx]
    rw [hp.length_eq, List.length_cons]
  · rw [if_neg hb]
    have hp : (l.dedup.filter (fun x => decide (x ∈ b))).Perm
        ((l.filter (fun x => x != k)).dedup.filter (fun x => decide (x ∈ b))) := by
      rw [List.perm_ext_iff_of_nodup hA hA']
      intro x
      rw [hmem, hmemA]
      constructor
      · rintro ⟨h1, h2⟩
        exact ⟨⟨h1, fun hx => hb (hx ▸ h2)⟩, h2⟩
      · rintro ⟨⟨h1, _⟩, h2⟩
        exact ⟨h1, h2⟩
    rw [hp.length_eq, Nat.add_zero]

theorem MWD_ids_nodup (sys : List SystemTransaction) (banks : List BankFile) :
    ((Reconcile sys banks).MatchedWithDiscrepancies.map (fun d => d.ID)).Nodup := by
  rw [Reconcile_MatchedWithDiscrepancies,
    ((sortSlice_perm (fun d : MatchedDiff => d.ID) _).map _).nodup_iff]
  exact (filterMap_diffEntry_ids _ _).nodup (buildSysByID_nodup sys)

theorem SMB_ids_nodup (sys : List SystemTransaction) (banks : List BankFile) :
    ((Reconcile sys banks).SystemMissingInBank.map (fun u => u.TrxID)).Nodup := by
  rw [Reconcile_SystemMissingInBank,
    ((sortSlice_perm (fun u : UnmatchedSystem => u.TrxID) _).map _).nodup_iff, sysMissing_ids]
  exact (buildSysByID_nodup sys).filter _

theorem SMB_id_mem_iff (sys : List SystemTransaction) (banks : List BankFile) (k : GoString) :
    k ∈ (Reconcile sys banks).SystemMissingInBank.map (fun u => u.TrxID) ↔
      (k ∈ systemIds sys ∧ k ∉ bankIds banks) := by
  rw [Reconcile_SystemMissingInBank,
    ((sortSlice_perm (fun u : UnmatchedSystem => u.TrxID) _).map _).mem_iff, sysMissing_ids,
    List.mem_filter, mem_buildSysByID_keys, mapGet_isNone_iff, mem_banked_keys]

/-- The entry of `SystemMissingInBank` for an identifier without bank row is
built from the last transaction of that identifier. -/
theorem SMB_entry_of_last (sys : List SystemTransaction) (banks : List BankFile)
    (k : GoString) (t : SystemTransaction) (hs : lastWithId sys k = some t)
    (hk : k ∉ bankIds banks) :
    (⟨k, t.AmountMinor, t.Typ⟩ : UnmatchedSystem) ∈ (Reconcile sys banks).SystemMissingInBank := by
  rw [Reconcile_SystemMissingInBank, (sortSlice_perm _ _).mem_iff, List.mem_map]
  refine ⟨(k, t), ?_, rfl⟩
  rw [List.mem_filter]
  refine ⟨mem_of_mapGet _ _ _ (by rw [buildSysByID_get]; exact hs), ?_⟩
  show (mapGet (indexBanks banks).banked k).isNone = true
  rw [mapGet_isNone_iff, mem_banked_keys]
  exact hk

/-- An entry of `MatchedWithDiscrepancies` carries the signed amount of the
last transaction of its identifier. -/
theorem MWD_entry_of_last (sys : List SystemTransaction) (banks : List BankFile)
    (k : GoString) (t : SystemTransaction) (hs : lastWithId sys k = some t)
    (d : MatchedDiff) (hd : d ∈ (Reconcile sys banks).MatchedWithDiscrepancies)
    (hid : d.ID = k) :
    d.SystemAmountMinor = (SignedAmount t.Typ t.AmountMinor).1 := by
  obtain ⟨e, he, hde⟩ := (mem_MatchedWithDiscrepancies sys banks d).mp hd
  obtain ⟨be, _, hS, _⟩ := diffEntry_fields _ e d hde
  have he1 : e.1 = k := by rw [← diffEntry_ID _ e d hde]; exact hid
  have hget := mapGet_of_mem _ (buildSysByID_nodup sys) e he
  rw [he1, buildSysByID_get, hs] at hget
  rw [hS, ← Option.some.inj hget]

/-! ## Theorems: claims -/

/-- C1: `TotalMatched + TotalUnmatched` is the number of distinct identifiers
among the system `TrxID`s and the bank `UniqueIdentifier`s of all files. -/
theorem Reconcile_matched_add_unmatched (systemTxns : List SystemTransaction)
    (bankFiles : List BankFile) :
    (Reconcile systemTxns bankFiles).TotalMatched + (Reconcile systemTxns bankFiles).TotalUnmatched =
      (systemIds systemTxns ++ bankIds bankFiles).dedup.length := by
  rw [Reconcile_TotalMatched, Reconcile_TotalUnmatched]
  exact distinct_count _ _ _ _ (buildSysByID_nodup systemTxns) (banked_nodup bankFiles)
    (mem_buildSysByID_keys systemTxns) (mem_banked_keys bankFiles)

/-- C2, as stated, fails: `"1.234,56"` does not give 123456. -/
theorem parseDecimalToMinor_dot_thousands_counterexample :
    ¬ (parseDecimalToMinor (str "1.234,56") = (123456, none) ∧
        parseDecimalToMinor (str "1234.56") = (123456, none)) := by
  decide

/-- C2, amended: `"1234.56"` and `"1,234.56"` give 123456 with no error, and
`"1.234,56"` gives 123 with no error: with both separators present the commas
are removed, the first dot is the decimal point and the fraction `23456` is
cut to `23`. -/
theorem parseDecimalToMinor_dot_thousands :
    parseDecimalToMinor (str "1234.56") = (123456, none) ∧
      parseDecimalToMinor (str "1,234.56") = (123456, none) ∧
      normalizeSeparators (str "1.234,56") = str "1.23456" ∧
      parseDecimalToMinor (str "1.234,56") = (123, none) := by
  decide

/-- C3, as stated, fails: the text `-92233720368547758.08` is a plain decimal
whose value times 100 is the smallest `int64`, and it is rejected with a range
error. -/
theorem parseDecimalToMinor_plain_decimal_counterexample :
    decimalText (str "-") (str "92233720368547758") (some (str "08"))
        = str "-92233720368547758.08" ∧
      scaledTrunc (str "-") (str "92233720368547758") (some (str "08")) = minInt64 ∧
      isInt64 (scaledTrunc (str "-") (str "92233720368547758") (some (str "08"))) ∧
      parseDecimalToMinor (str "-92233720368547758.08")
        = (0, some ⟨str "9223372036854775808", ErrKind.ErrRange⟩) := by
  decide

/-- C3, amended: for a text made of an optional `+` or `-`, decimal digits and
optionally a dot followed by decimal digits, with at least one digit, whose
value times 100 truncated toward zero lies between `-(2^63 - 1)` and
`2^63 - 1`, `parseDecimalToMinor` returns that truncated number and no
error. -/
theorem parseDecimalToMinor_plain_decimal (sign ip : GoString) (frac : Option GoString)
    (hsign : sign = [] ∨ sign = str "+" ∨ sign = str "-")
    (hip : ∀ c ∈ ip, isDigitByte c = true)
    (hfp : ∀ c ∈ frac.getD [], isDigitByte c = true)
    (hne : ip ++ frac.getD [] ≠ [])
    (hfit : -maxInt64 ≤ scaledTrunc sign ip frac ∧ scaledTrunc sign ip frac ≤ maxInt64) :
    parseDecimalToMinor (decimalText sign ip frac) = (scaledTrunc sign ip frac, none) := by
  have hsign' : sign = [] ∨ sign = [0x2B] ∨ sign = [0x2D] := hsign
  have hbody : ∀ c ∈ (ip ++ fracText frac), isAmountByte c = true := by
    intro c hc
    rcases List.mem_append.mp hc with h | h
    · exact digit_isAmountByte c (hip c h)
    · rcases frac with _ | fp
      · simp [fracText] at h
      · rcases List.mem_cons.mp h with e | e
        · rw [e]; decide
        · exact digit_isAmountByte c (hfp c e)
  have hnocomma : (0x2C : UInt8) ∉ (ip ++ fracText frac) := by
    intro hm
    rcases List.mem_append.mp hm with h | h
    · exact digit_ne_comma _ (hip _ h) rfl
    · rcases frac with _ | fp
      · simp [fracText] at h
      · rcases List.mem_cons.mp h with e | e
        · exact absurd e (by decide)
        · exact digit_ne_comma _ (hfp _ e) rfl
  have hne' : sign ++ (ip ++ fracText frac) ≠ [] := by
    intro e
    rcases List.append_eq_nil.mp e with ⟨_, e2⟩
    rcases List.append_eq_nil.mp e2 with ⟨e3, e4⟩
    rcases frac with _ | fp
    · exact hne (by simp [e3])
    · simp [fracText] at e4
  obtain ⟨hfd, hflen, _⟩ := fracTwo_digits (frac.getD []) hfp
  have hfulld : ∀ c ∈ (if ip = [] then [0x30] else ip) ++ fracTwo (frac.getD []),
      isDigitByte c = true := by
    intro c hc
    rcases List.mem_append.mp hc with h | h
    · by_cases hi : ip = []
      · rw [if_pos hi] at h; rw [List.mem_singleton.mp h]; decide
      · rw [if_neg hi] at h; exact hip c h
    · exact hfd c h
  have hfullne : (if ip = [] then [0x30] else ip) ++ fracTwo (frac.getD []) ≠ [] := by
    intro e
    have := congrArg List.length e
    rw [List.length_append, hflen] at this
    simp at this
  have hval := digitsVal_full ip (frac.getD []) hfp
  have hst := scaledTrunc_eq sign ip frac
  have hM : digitsVal (ip ++ frac.getD []) * 100 / 10 ^ (frac.getD []).length < 2 ^ 63 := by
    unfold maxInt64 at hfit
    rw [hst] at hfit
    by_cases h : sign = [0x2D]
    · rw [if_pos h] at hfit; omega
    · rw [if_neg h] at hfit; omega
  unfold decimalText
  rw [parseDecimalToMinor_sign_body sign _ hsign' hbody hne',
    normalizeSeparators_no_comma _ hbody hnocomma, fullDigits_decimal ip frac hip,
    parseInt_digits _ hfulld hfullne (by rw [hval]; exact hM), hval, hst]
  unfold resign
  by_cases h : sign = [0x2D]
  · have hb : (sign == [0x2D]) = true := by rw [h]; rfl
    rw [hb, if_pos h]
    simp only [if_true]
    rw [wrap64_of_isInt64 _ (by unfold isInt64; omega)]
    simp
  · have hb : (sign == [0x2D]) = false := by
      rcases hsign' with e | e | e
      · rw [e]; rfl
      · rw [e]; rfl
      · exact absurd e h
    rw [hb, if_neg h]
    simp

theorem parseDecimalToMinor_plain_decimal_witness :
    (decimalText [] (str "1") (some (str "239")) = str "1.239" ∧
      parseDecimalToMinor (str "1.239") = (123, none)) ∧
    (decimalText (str "-") (str "1") (some (str "239")) = str "-1.239" ∧
      parseDecimalToMinor (str "-1.239") = (-123, none)) ∧
    (decimalText [] (str "1") (some (str "2")) = str "1.2" ∧
      parseDecimalToMinor (str "1.2") = (120, none)) ∧
    (decimalText [] (str "7") none = str "7" ∧
      parseDecimalToMinor (str "7") = (700, none)) :=
  ⟨⟨by decide,
    parseDecimalToMinor_plain_decimal [] (str "1") (some (str "239")) (Or.inl rfl)
      (by decide) (by decide) (by decide) (by decide)⟩,
   ⟨by decide,
    parseDecimalToMinor_plain_decimal (str "-") (str "1") (some (str "239"))
      (Or.inr (Or.inr rfl)) (by decide) (by decide) (by decide) (by decide)⟩,
   ⟨by decide,
    parseDecimalToMinor_plain_decimal [] (str "1") (some (str "2")) (Or.inl rfl)
      (by decide) (by decide) (by decide) (by decide)⟩,
   ⟨by decide,
    parseDecimalToMinor_plain_decimal [] (str "7") none (Or.inl rfl)
      (by decide) (by decide) (by decide) (by decide)⟩⟩

/-- C4, at the failing inputs: `"1.23x"`, `"1.234.5"` and `"--5"` keep a byte
that is neither a digit nor the single decimal point after normalisation, and
are accepted with the values 123, 123 and 500. -/
theorem parseDecimalToMinor_accepts_residue :
    normalizeSeparators (str "1.23x") = str "1.23x" ∧
      parseDecimalToMinor (str "1.23x") = (123, none) ∧
      normalizeSeparators (str "1.234.5") = str "1.234.5" ∧
      parseDecimalToMinor (str "1.234.5") = (123, none) ∧
      normalizeSeparators (str "-5") = str "-5" ∧
      parseDecimalToMinor (str "--5") = (500, none) := by
  decide

/-- C5: on every string made only of white space characters (the empty
string included) `parseDecimalToMinor` returns 0 and no error. -/
theorem parseDecimalToMinor_whitespace (s : String)
    (h : ∀ c ∈ s.toList, isSpaceRune c = true) :
    parseDecimalToMinor (str s) = (0, none) := by
  unfold parseDecimalToMinor str
  rw [trimSpace_space_str s.toList h]
  rfl

theorem parseDecimalToMinor_whitespace_witness :
    (∀ c ∈ " \t\n ".toList, isSpaceRune c = true) ∧
      parseDecimalToMinor (str " \t\n ") = (0, none) :=
  ⟨by decide, parseDecimalToMinor_whitespace " \t\n " (by decide)⟩

/-- C6: on a text made of an optional sign followed by digits, `,` and `.`:
with both separators present the result (value and error) is that of the text
with every `,` deleted; with `,` but no `.` it is that of the text with
every `,` replaced by `.`. -/
theorem parseDecimalToMinor_separator_rule (sign body : GoString)
    (hsign : sign = [] ∨ sign = str "+" ∨ sign = str "-")
    (hbody : ∀ c ∈ body, isAmountByte c = true) :
    ((0x2E ∈ sign ++ body ∧ 0x2C ∈ sign ++ body) →
      parseDecimalToMinor (sign ++ body) =
        parseDecimalToMinor ((sign ++ body).filter (fun c => c != 0x2C))) ∧
    ((0x2C ∈ sign ++ body ∧ 0x2E ∉ sign ++ body) →
      parseDecimalToMinor (sign ++ body) =
        parseDecimalToMinor ((sign ++ body).map (fun c => if c = 0x2C then 0x2E else c))) := by
  have hsign' : sign = [] ∨ sign = [0x2B] ∨ sign = [0x2D] := hsign
  have hs2C : (0x2C : UInt8) ∉ sign := by rcases hsign' with e | e | e <;> subst e <;> decide
  have hs2E : (0x2E : UInt8) ∉ sign := by rcases hsign' with e | e | e <;> subst e <;> decide
  have hfs : sign.filter (fun c => c != 0x2C) = sign := by
    rcases hsign' with e | e | e <;> subst e <;> decide
  have hms : sign.map (fun c => if c = 0x2C then (0x2E : UInt8) else c) = sign := by
    rcases hsign' with e | e | e <;> subst e <;> decide
  have hfilter : ∀ c ∈ body.filter (fun c => c != 0x2C), isAmountByte c = true :=
    fun c hc => hbody c (List.mem_filter.mp hc).1
  have hmap : ∀ c ∈ body.map (fun c => if c = 0x2C then 0x2E else c), isAmountByte c = true := by
    intro c hc
    rcases List.mem_map.mp hc with ⟨x, hx, rfl⟩
    by_cases h : x = 0x2C
    · simp only [h, if_true]; decide
    · simp only [h, if_false]; exact hbody x hx
  constructor
  · rintro ⟨hdot, hcomma⟩
    have hdot' : (0x2E : UInt8) ∈ body := (List.mem_append.mp hdot).resolve_left hs2E
    have hcomma' : (0x2C : UInt8) ∈ body := (List.mem_append.mp hcomma).resolve_left hs2C
    have hdotf : (0x2E : UInt8) ∈ body.filter (fun c => c != 0x2C) :=
      List.mem_filter.mpr ⟨hdot', by decide⟩
    have hnc : (0x2C : UInt8) ∉ body.filter (fun c => c != 0x2C) := fun hm => by
      have := (List.mem_filter.mp hm).2; simp at this
    rw [List.filter_append, hfs,
      parseDecimalToMinor_sign_body sign body hsign' hbody
        (fun e => by rw [e] at hcomma; simp at hcomma),
      parseDecimalToMinor_sign_body sign _ hsign' hfilter
        (fun e => by
          have : (0x2E : UInt8) ∈ sign ++ body.filter (fun c => c != 0x2C) :=
            List.mem_append.mpr (Or.inr hdotf)
          rw [e] at this; simp at this),
      normalizeSeparators_no_comma _ hfilter hnc,
      normalizeSeparators_amount body hbody,
      (containsByte_iff body 0x2E).mpr hdot', (containsByte_iff body 0x2C).mpr hcomma']
    rfl
  · rintro ⟨hcomma, hdot⟩
    have hcomma' : (0x2C : UInt8) ∈ body := (List.mem_append.mp hcomma).resolve_left hs2C
    have hdot' : (0x2E : UInt8) ∉ body := fun hm => hdot (List.mem_append.mpr (Or.inr hm))
    have hnc : (0x2C : UInt8) ∉ body.map (fun c => if c = 0x2C then (0x2E : UInt8) else c) := by
      intro hm
      rcases List.mem_map.mp hm with ⟨x, _, hx⟩
      by_cases h : x = 0x2C
      · simp [h] at hx
      · rw [if_neg h] at hx; exact h hx
    have hd : containsByte body 0x2E = false := by
      rw [← Bool.not_eq_true, containsByte_iff]; exact hdot'
    rw [List.map_append, hms,
      parseDecimalToMinor_sign_body sign body hsign' hbody
        (fun e => by rw [e] at hcomma; simp at hcomma),
      parseDecimalToMinor_sign_body sign _ hsign' hmap
        (fun e => by
          rcases List.mem_iff_append.mp hcomma' with ⟨l1, l2, hb⟩
          rw [hb] at e; simp at e),
      normalizeSeparators_no_comma _ hmap hnc,
      normalizeSeparators_amount body hbody,
      (containsByte_iff body 0x2C).mpr hcomma', hd]
    rfl

theorem parseDecimalToMinor_separator_rule_witness :
    ((0x2E ∈ str "1,234.56" ∧ 0x2C ∈ str "1,234.56") ∧
      parseDecimalToMinor (str "1,234.56") = parseDecimalToMinor (str "1234.56") ∧
      parseDecimalToMinor (str "1,234.56") = (123456, none)) ∧
    ((0x2C ∈ str "-1234,56" ∧ 0x2E ∉ str "-1234,56") ∧
      parseDecimalToMinor (str "-1234,56") = parseDecimalToMinor (str "-1234.56") ∧
      parseDecimalToMinor (str "-1234,56") = (-123456, none)) :=
  ⟨⟨by decide,
    (parseDecimalToMinor_separator_rule [] (str "1,234.56") (Or.inl rfl) (by decide)).1
      (by decide),
    by decide⟩,
   ⟨by decide,
    (parseDecimalToMinor_separator_rule (str "-") (str "1234,56") (Or.inr (Or.inr rfl))
      (by decide)).2 (by decide),
    by decide⟩⟩

/-- C7: for a positive magnitude `CREDIT` returns it unchanged and `DEBIT`
returns its negation, both without error; a magnitude that already has the
sign of its type is returned unchanged. -/
theorem SignedAmount_positive_and_passthrough (m : Int) (hm : isInt64 m) :
    (0 < m → SignedAmount TypeCredit m = (m, none) ∧ SignedAmount TypeDebit m = (-m, none)) ∧
      (m ≤ 0 → SignedAmount TypeDebit m = (m, none)) ∧
      (0 ≤ m → SignedAmount TypeCredit m = (m, none)) := by
  have hne : TypeCredit ≠ TypeDebit := fun h => TypeDebit_ne_TypeCredit h.symm
  refine ⟨fun hpos => ⟨?_, ?_⟩, fun hle => ?_, fun hge => ?_⟩
  · simp [SignedAmount, hne, not_lt.mpr hpos.le]
  · have hw : wrap64 (-m) = -m := wrap64_of_isInt64 _ (by unfold isInt64 at *; omega)
    simp [SignedAmount, hpos, hw]
  · simp [SignedAmount, not_lt.mpr hle]
  · simp [SignedAmount, hne, not_lt.mpr hge]

theorem SignedAmount_positive_and_passthrough_witness :
    isInt64 250 ∧ isInt64 (-250) ∧ isInt64 0 ∧
      SignedAmount TypeCredit 250 = (250, none) ∧
      SignedAmount TypeDebit 250 = (-250, none) ∧
      SignedAmount TypeDebit (-250) = (-250, none) ∧
      SignedAmount TypeDebit 0 = (0, none) ∧
      SignedAmount TypeCredit 0 = (0, none) :=
  ⟨by decide, by decide, by decide,
    ((SignedAmount_positive_and_passthrough 250 (by decide)).1 (by decide)).1,
    ((SignedAmount_positive_and_passthrough 250 (by decide)).1 (by decide)).2,
    (SignedAmount_positive_and_passthrough (-250) (by decide)).2.1 (by decide),
    (SignedAmount_positive_and_passthrough 0 (by decide)).2.1 (by decide),
    (SignedAmount_positive_and_passthrough 0 (by decide)).2.2 (by decide)⟩

/-- C8, as stated, fails at the smallest `int64`: `CREDIT` returns it
unchanged, a negative number different from its absolute value. -/
theorem SignedAmount_credit_minInt64_counterexample :
    isInt64 minInt64 ∧
      SignedAmount TypeCredit minInt64 = (minInt64, none) ∧
      (SignedAmount TypeCredit minInt64).1 < 0 ∧
      (SignedAmount TypeCredit minInt64).1 ≠ |minInt64| := by
  decide

/-- C8, amended: for every `int64` magnitude `DEBIT` returns `-|m|`, which is
non-positive; for every `int64` magnitude other than the smallest one `CREDIT`
returns `|m|`, which is non-negative. -/
theorem SignedAmount_eq_abs (m : Int) (hm : isInt64 m) :
    (SignedAmount TypeDebit m = (-|m|, none) ∧ (SignedAmount TypeDebit m).1 ≤ 0) ∧
      (m ≠ minInt64 →
        SignedAmount TypeCredit m = (|m|, none) ∧ 0 ≤ (SignedAmount TypeCredit m).1) := by
  have hne : TypeCredit ≠ TypeDebit := fun h => TypeDebit_ne_TypeCredit h.symm
  unfold isInt64 at hm
  constructor
  · by_cases hpos : 0 < m
    · have hw : wrap64 (-m) = -m := wrap64_of_isInt64 _ (by unfold isInt64; omega)
      have ha : |m| = m := abs_of_pos hpos
      simp only [SignedAmount, if_true, gt_iff_lt, hpos, hw, ha]
      exact ⟨trivial, by omega⟩
    · have ha : |m| = -m := abs_of_nonpos (by omega)
      simp only [SignedAmount, if_true, gt_iff_lt, hpos, if_false, ha, neg_neg]
      exact ⟨trivial, by omega⟩
  · intro hmin
    unfold minInt64 at hmin
    by_cases hneg : m < 0
    · have hw : wrap64 (-m) = -m := wrap64_of_isInt64 _ (by unfold isInt64; omega)
      have ha : |m| = -m := abs_of_neg hneg
      simp only [SignedAmount, hne, if_false, if_true, hneg, hw, ha]
      exact ⟨trivial, by omega⟩
    · have ha : |m| = m := abs_of_nonneg (by omega)
      simp only [SignedAmount, hne, if_false, if_true, hneg, ha]
      exact ⟨trivial, by omega⟩

theorem SignedAmount_eq_abs_witness :
    isInt64 (-250) ∧ (-250 : Int) ≠ minInt64 ∧
      (SignedAmount TypeDebit (-250) = (-|(-250 : Int)|, none) ∧
        (SignedAmount TypeDebit (-250)).1 ≤ 0) ∧
      SignedAmount TypeCredit (-250) = (|(-250 : Int)|, none) ∧
      0 ≤ (SignedAmount TypeCredit (-250)).1 :=
  ⟨by decide, by decide, (SignedAmount_eq_abs (-250) (by decide)).1,
    (SignedAmount_eq_abs (-250) (by decide)).2 (by decide)⟩

/-- C9: `SignedAmount` returns an error exactly for the types other than
`"DEBIT"` and `"CREDIT"` (the empty string and lower-case spellings among
them), whatever the magnitude. -/
theorem SignedAmount_error_iff (t : TransactionType) (m : Int) :
    ((SignedAmount t m).2 ≠ none ↔ (t ≠ TypeDebit ∧ t ≠ TypeCredit)) ∧
      (SignedAmount (str "") m).2 ≠ none ∧
      (SignedAmount (str "debit") m).2 ≠ none ∧
      (SignedAmount (str "credit") m).2 ≠ none ∧
      (SignedAmount (str "DEBIT") m).2 = none ∧
      (SignedAmount (str "CREDIT") m).2 = none := by
  refine ⟨SignedAmount_error_iff_unknown t m, (SignedAmount_error_iff_unknown _ m).2 (by decide),
    (SignedAmount_error_iff_unknown _ m).2 (by decide),
    (SignedAmount_error_iff_unknown _ m).2 (by decide), ?_, ?_⟩
  · have := (SignedAmount_error_iff_unknown (str "DEBIT") m).not.2 (by decide)
    simpa using this
  · have := (SignedAmount_error_iff_unknown (str "CREDIT") m).not.2 (by decide)
    simpa using this

/-- C10, as stated, fails: a system transaction of type `REFUND`, on which
`SignedAmount` fails, is counted in `TotalMatched` and compared as if its
signed amount were 0: against a bank amount 0 it is an exact match, against a
bank amount 500 it is a discrepancy of 500 with `SystemAmountMinor` 0. -/
theorem Reconcile_masks_unknown_type_counterexample :
    (SignedAmount (str "REFUND") 700).2 ≠ none ∧
      Reconcile [⟨str "X", 700, str "REFUND", default⟩]
          [⟨str "bank_a", [⟨str "X", 0, default, str "bank_a"⟩]⟩]
        = ⟨2, 1, 0, 0, [], [], [], []⟩ ∧
      Reconcile [⟨str "X", 700, str "REFUND", default⟩]
          [⟨str "bank_a", [⟨str "X", 500, default, str "bank_a"⟩]⟩]
        = ⟨2, 1, 0, 500, [], [], [⟨str "X", 0, 500, 500, str "bank_a"⟩], []⟩ := by
  decide

/-- C10, amended: the failure of the sign convention is stopped before
`Reconcile`, not by it. The type check of `ReadSystemTransactions` accepts
exactly the types on which `SignedAmount` returns no error. `Reconcile`
itself discards that error: a transaction `s` whose type is neither `DEBIT`
nor `CREDIT`, kept for its identifier (the last one with this `TrxID`), whose
identifier has the retained bank row `r`, is counted in `TotalMatched` (every
distinct system identifier found on the bank side is) and is compared with
signed amount 0: a non-zero bank amount gives a discrepancy entry with
`SystemAmountMinor = 0`, a bank amount 0 gives no entry. -/
theorem Reconcile_unknown_type (systemTxns : List SystemTransaction)
    (bankFiles : List BankFile) (s : SystemTransaction) (r : BankStatement)
    (htype : s.Typ ≠ TypeDebit ∧ s.Typ ≠ TypeCredit)
    (hs : lastWithId systemTxns s.TrxID = some s)
    (hr : firstRowWithId (allRows bankFiles) s.TrxID = some r)
    (hr64 : isInt64 r.AmountMinor) :
    (∀ (trxID : GoString) (typ : TransactionType) (m : Int),
        checkRowType trxID typ = none ↔ (SignedAmount typ m).2 = none) ∧
      checkRowType s.TrxID s.Typ ≠ none ∧
      (Reconcile systemTxns bankFiles).TotalMatched =
        ((systemIds systemTxns).dedup.filter (fun k => decide (k ∈ bankIds bankFiles))).length ∧
      s.TrxID ∈ (systemIds systemTxns).dedup.filter (fun k => decide (k ∈ bankIds bankFiles)) ∧
      (r.AmountMinor ≠ 0 →
        (⟨s.TrxID, 0, r.AmountMinor, abs64 (abs64 (wrap64 (0 - r.AmountMinor))), r.BankName⟩ :
          MatchedDiff) ∈ (Reconcile systemTxns bankFiles).MatchedWithDiscrepancies) ∧
      (r.AmountMinor = 0 →
        ∀ d ∈ (Reconcile systemTxns bankFiles).MatchedWithDiscrepancies, d.ID ≠ s.TrxID) := by
  have hgate : ∀ (trxID : GoString) (typ : TransactionType) (m : Int),
      checkRowType trxID typ = none ↔ (SignedAmount typ m).2 = none := by
    intro trxID typ m
    have h9 := SignedAmount_error_iff_unknown typ m
    unfold checkRowType
    by_cases h : typ = TypeDebit ∨ typ = TypeCredit
    · rw [if_pos h]
      have : ¬ (typ ≠ TypeDebit ∧ typ ≠ TypeCredit) := by tauto
      have := h9.not.mpr this
      simp only [ne_eq, not_not] at this
      simp [this]
    · rw [if_neg h]
      have : typ ≠ TypeDebit ∧ typ ≠ TypeCredit := by tauto
      have := h9.mpr this
      simp [this]
  have hsa := SignedAmount_unknown s.Typ s.AmountMinor htype
  have hentry : (s.TrxID, s) ∈ buildSysByID systemTxns :=
    mem_of_mapGet _ _ _ (by rw [buildSysByID_get]; exact hs)
  have hbank : mapGet (indexBanks bankFiles).banked s.TrxID = some r := by
    rw [banked_get]; exact hr
  refine ⟨hgate, ?_, Reconcile_TotalMatched_eq _ _, ?_, ?_, ?_⟩
  · intro h
    have := (hgate s.TrxID s.Typ s.AmountMinor).mp h
    rw [hsa] at this
    cases this
  · rw [List.mem_filter, List.mem_dedup]
    exact ⟨(mem_systemIds_of_last _ _ _ hs).1, by simpa using (mem_bankIds_of_firstRow _ _ _ hr).1⟩
  · intro hne
    rw [mem_MatchedWithDiscrepancies]
    refine ⟨(s.TrxID, s), hentry, ?_⟩
    unfold diffEntry
    simp only [hbank, hsa]
    rw [if_pos (fun h => hne ((diff_zero_sub_eq_zero_iff _ hr64).mp h))]
  · intro hz d hd
    rw [mem_MatchedWithDiscrepancies] at hd
    obtain ⟨e, he, hde⟩ := hd
    intro hid
    have hget := mapGet_of_mem _ (buildSysByID_nodup systemTxns) e he
    unfold diffEntry at hde
    cases hb : mapGet (indexBanks bankFiles).banked e.1 with
    | none => rw [hb] at hde; cases hde
    | some be =>
      rw [hb] at hde
      dsimp only at hde
      split at hde
      · have hdid : d.ID = e.1 := by
          cases hde; rfl
        have he1 : e.1 = s.TrxID := hdid ▸ hid
        rw [he1, buildSysByID_get, hs] at hget
        have he2 : e.2 = s := (Option.some.inj hget).symm
        rw [he1, hbank] at hb
        have hbe : be = r := (Option.some.inj hb).symm
        rename_i hdiff
        rw [he2, hsa, hbe, hz] at hdiff
        exact hdiff (show abs64 (wrap64 ((0 : Int) - 0)) = 0 by decide)
      · cases hde

theorem Reconcile_unknown_type_witness :
    (Reconcile [⟨str "X", 700, str "REFUND", default⟩]
        [⟨str "bank_a", [⟨str "X", 500, default, str "bank_a"⟩]⟩]).TotalMatched = 1 ∧
      (⟨str "X", 0, 500, 500, str "bank_a"⟩ : MatchedDiff) ∈
        (Reconcile [⟨str "X", 700, str "REFUND", default⟩]
          [⟨str "bank_a", [⟨str "X", 500, default, str "bank_a"⟩]⟩]).MatchedWithDiscrepancies :=
  have h := Reconcile_unknown_type [⟨str "X", 700, str "REFUND", default⟩]
    [⟨str "bank_a", [⟨str "X", 500, default, str "bank_a"⟩]⟩]
    ⟨str "X", 700, str "REFUND", default⟩ ⟨str "X", 500, default, str "bank_a"⟩
    (by decide) (by decide) (by decide) (by decide)
  ⟨h.2.2.1, h.2.2.2.2.1 (by decide)⟩

/-- C11: `TotalProcessed` is the length of the system transaction list plus the
sum of the lengths of the rows of all bank files; every row counts, repeated
identifiers included. -/
theorem Reconcile_total_processed (systemTxns : List SystemTransaction)
    (bankFiles : List BankFile) :
    (Reconcile systemTxns bankFiles).TotalProcessed =
        systemTxns.length + (bankFiles.map (fun bf => bf.Rows.length)).sum ∧
      (Reconcile systemTxns bankFiles).TotalProcessed =
        (systemIds systemTxns).length + (bankIds bankFiles).length := by
  refine ⟨Reconcile_TotalProcessed _ _, ?_⟩
  rw [Reconcile_TotalProcessed, ← allRows_length]
  unfold systemIds bankIds
  rw [List.length_map, List.length_map]

/-- C12: on the bank side the first occurrence wins. A discrepancy entry and a
bank-missing entry carry the amount and the bank name of the first row, in
input order, with their identifier; whether the identifier of a kept system
transaction gets a discrepancy entry is decided against the amount of that
first row; and replacing the amount of a row whose identifier occurred in an
earlier row leaves the whole summary unchanged. -/
theorem first_occurrence_wins (systemTxns : List SystemTransaction)
    (bankFiles : List BankFile) :
    (∀ d ∈ (Reconcile systemTxns bankFiles).MatchedWithDiscrepancies,
      ∃ r, firstRowWithId (allRows bankFiles) d.ID = some r ∧
        d.BankAmountMinor = r.AmountMinor ∧ d.BankName = r.BankName) ∧
    (∀ g ∈ (Reconcile systemTxns bankFiles).BankMissingInSystem, ∀ u ∈ g.2,
      ∃ r, firstRowWithId (allRows bankFiles) u.UniqueIdentifier = some r ∧
        u.AmountMinor = r.AmountMinor ∧ u.BankName = r.BankName ∧ g.1 = r.BankName) ∧
    (∀ t r, lastWithId systemTxns t.TrxID = some t →
      firstRowWithId (allRows bankFiles) t.TrxID = some r →
      isInt64 t.AmountMinor → isInt64 r.AmountMinor →
      ((∃ d ∈ (Reconcile systemTxns bankFiles).MatchedWithDiscrepancies, d.ID = t.TrxID) ↔
        (SignedAmount t.Typ t.AmountMinor).1 ≠ r.AmountMinor)) ∧
    (∀ (f1 f2 : List BankFile) (name : GoString) (rows1 rows2 : List BankStatement)
      (r : BankStatement) (a : Int),
      bankFiles = f1 ++ ⟨name, rows1 ++ r :: rows2⟩ :: f2 →
      r.UniqueIdentifier ∈ (allRows f1 ++ rows1).map (fun x => x.UniqueIdentifier) →
      Reconcile systemTxns (f1 ++ ⟨name, rows1 ++ { r with AmountMinor := a } :: rows2⟩ :: f2)
        = Reconcile systemTxns bankFiles) := by
  refine ⟨fun d hd => ?_, fun g hg u hu => ?_, fun t r hs hr ht64 hr64 => ?_, ?_⟩
  · obtain ⟨e, _, hde⟩ := (mem_MatchedWithDiscrepancies _ _ d).mp hd
    obtain ⟨be, hbe, h1, h2⟩ := diffEntry_bank _ e d hde
    rw [banked_get, ← diffEntry_ID _ e d hde] at hbe
    exact ⟨be, hbe, h1, h2⟩
  · obtain ⟨_, heq⟩ := Reconcile_BankMissing_group _ _ g hg
    rw [heq] at hu
    have hu' := (sortSlice_perm _ _).mem_iff.mp hu
    obtain ⟨hbn, e, he, _, rfl⟩ := missingOf_mem _ _ _ u hu'
    have hget := mapGet_of_mem _ (banked_nodup bankFiles) e he
    rw [banked_get] at hget
    exact ⟨e.2, hget, rfl, rfl, hbn.symm⟩
  · have hz := diff_eq_zero_iff _ _ (SignedAmount_isInt64 t.Typ _ ht64) hr64
    constructor
    · rintro ⟨d, hd, hid⟩
      have := ((mem_MWD_kept _ _ t r hs hr d).mp ⟨hd, hid⟩).1
      exact fun h => this (hz.mpr h)
    · intro hne
      have hnz : abs64 (wrap64 ((SignedAmount t.Typ t.AmountMinor).1 - r.AmountMinor)) ≠ 0 :=
        fun h => hne (hz.mp h)
      have := (mem_MWD_kept _ _ t r hs hr _).mpr ⟨hnz, rfl⟩
      exact ⟨_, this.1, this.2⟩
  · intro f1 f2 name rows1 rows2 r a hbanks hlater
    rw [hbanks]
    apply Reconcile_congr_banks
    · exact indexBanks_replace_later f1 f2 name rows1 rows2 r { r with AmountMinor := a }
        hlater rfl rfl
    · rw [allRows_append, allRows_append, allRows_cons, allRows_cons]
      simp

theorem first_occurrence_wins_witness :
    Reconcile [⟨str "X", 100, TypeCredit, default⟩]
        [⟨str "bank_a", [⟨str "X", 90, default, str "bank_a"⟩]⟩,
          ⟨str "bank_b", [⟨str "Y", 5, default, str "bank_b"⟩,
            ⟨str "X", 777, default, str "bank_b"⟩]⟩]
      = Reconcile [⟨str "X", 100, TypeCredit, default⟩]
        [⟨str "bank_a", [⟨str "X", 90, default, str "bank_a"⟩]⟩,
          ⟨str "bank_b", [⟨str "Y", 5, default, str "bank_b"⟩,
            ⟨str "X", 100, default, str "bank_b"⟩]⟩] ∧
    (Reconcile [⟨str "X", 100, TypeCredit, default⟩]
        [⟨str "bank_a", [⟨str "X", 90, default, str "bank_a"⟩]⟩,
          ⟨str "bank_b", [⟨str "Y", 5, default, str "bank_b"⟩,
            ⟨str "X", 100, default, str "bank_b"⟩]⟩]).MatchedWithDiscrepancies
      = [⟨str "X", 100, 90, 10, str "bank_a"⟩] :=
  ⟨(first_occurrence_wins [⟨str "X", 100, TypeCredit, default⟩]
      [⟨str "bank_a", [⟨str "X", 90, default, str "bank_a"⟩]⟩,
        ⟨str "bank_b", [⟨str "Y", 5, default, str "bank_b"⟩,
          ⟨str "X", 100, default, str "bank_b"⟩]⟩]).2.2.2
      [⟨str "bank_a", [⟨str "X", 90, default, str "bank_a"⟩]⟩] [] (str "bank_b")
      [⟨str "Y", 5, default, str "bank_b"⟩] [] ⟨str "X", 100, default, str "bank_b"⟩ 777
      rfl (by decide),
    by decide⟩

/-- C13: `Notes` is empty when the bank identifiers of all rows are pairwise
distinct and holds exactly one string when some identifier occurs in more
than one bank row; a duplicate rejects nothing: every row is counted in
`TotalProcessed` and every bank identifier is a system `TrxID` or an entry
of `BankMissingInSystem`. -/
theorem Notes_one_or_none (systemTxns : List SystemTransaction) (bankFiles : List BankFile) :
    ((bankIds bankFiles).Nodup → (Reconcile systemTxns bankFiles).Notes = []) ∧
      (¬ (bankIds bankFiles).Nodup → (Reconcile systemTxns bankFiles).Notes.length = 1) ∧
      (¬ (bankIds bankFiles).Nodup ↔
        ∃ k, 2 ≤ (occurrenceNames (allRows bankFiles) k).length) ∧
      (Reconcile systemTxns bankFiles).TotalProcessed =
        systemTxns.length + (allRows bankFiles).length ∧
      ∀ k ∈ bankIds bankFiles, k ∈ systemIds systemTxns ∨
        k ∈ ((Reconcile systemTxns bankFiles).BankMissingInSystem.flatMap (fun g => g.2)).map
          (fun u => u.UniqueIdentifier) := by
  refine ⟨fun h => ?_, fun h => ?_, ?_, ?_, fun k hk => ?_⟩
  · rw [Reconcile_Notes, if_pos ((dup_eq_nil_iff bankFiles).mpr h)]
  · rw [Reconcile_Notes, if_neg (fun e => h ((dup_eq_nil_iff bankFiles).mp e))]
    rfl
  · unfold bankIds
    rw [occurrenceNames_length_le_one]
    constructor
    · intro h
      by_contra hc
      exact h (fun k => by
        by_contra hk
        exact hc ⟨k, by omega⟩)
    · rintro ⟨k, hk⟩ h
      have := h k
      omega
  · rw [Reconcile_TotalProcessed, allRows_length]
  · by_cases hs : k ∈ systemIds systemTxns
    · exact Or.inl hs
    · exact Or.inr ((mem_BankMissing_ids _ _ k).mpr ⟨hk, hs⟩)

/-- C14, as stated, fails: the note prints the `BankName` of the rows, not of
the files. Files `A` then `B` whose rows of `X` both carry the name `Z` give
the note `X in banks=[Z]`, which mentions neither `A` nor `B`. -/
theorem duplicate_note_file_names_counterexample :
    str "A" ≠ str "B" ∧
    (Reconcile []
        [⟨str "A", [⟨str "X", 100, default, str "Z"⟩]⟩,
          ⟨str "B", [⟨str "X", 100, default, str "Z"⟩]⟩]).Notes
      = [str "duplicate bank IDs detected: X in banks=[Z]"] := by
  decide

/-- C14, amended: the duplicate note is `noteText` of a list of entries, one for
each identifier that occurs in more than one bank row, in strictly ascending
order of identifier; the names of an entry are the `BankName`s of the rows of
its identifier, none repeated, the name of the first row first. When the rows
of every file carry the file's name and two files with distinct names both
contain `X`, the entry of `X` names both. Files `bank_a` then `bank_b`, both
with a row `X`, give the note `X in banks=[bank_a bank_b]`. -/
theorem duplicate_note_content (systemTxns : List SystemTransaction)
    (bankFiles : List BankFile) :
    (∃ entries : List (GoString × List GoString),
      (Reconcile systemTxns bankFiles).Notes =
        (if entries = [] then [] else [noteText entries]) ∧
      (entries.map (fun e => e.1)).Pairwise (fun a b => strLess a b = true) ∧
      (∀ k, k ∈ entries.map (fun e => e.1) ↔
        2 ≤ (occurrenceNames (allRows bankFiles) k).length) ∧
      (∀ e ∈ entries, e.2.Nodup ∧
        (∀ n, n ∈ e.2 ↔
          ∃ r ∈ allRows bankFiles, r.UniqueIdentifier = e.1 ∧ r.BankName = n) ∧
        e.2.head? = (firstRowWithId (allRows bankFiles) e.1).map (fun r => r.BankName)) ∧
      ((∀ bf ∈ bankFiles, ∀ r ∈ bf.Rows, r.BankName = bf.BankName) →
        ∀ fa ∈ bankFiles, ∀ fb ∈ bankFiles, ∀ X, fa.BankName ≠ fb.BankName →
          X ∈ fa.Rows.map (fun r => r.UniqueIdentifier) →
          X ∈ fb.Rows.map (fun r => r.UniqueIdentifier) →
          ∃ e ∈ entries, e.1 = X ∧ fa.BankName ∈ e.2 ∧ fb.BankName ∈ e.2)) ∧
    (Reconcile []
        [⟨str "bank_a", [⟨str "X", 100, default, str "bank_a"⟩]⟩,
          ⟨str "bank_b", [⟨str "X", 100, default, str "bank_b"⟩]⟩]).Notes
      = [str "duplicate bank IDs detected: X in banks=[bank_a bank_b]"] := by
  refine ⟨⟨duplicateEntries (indexBanks bankFiles).duplicateBankIDs, ?_, ?_, fun k => ?_,
    fun e he => ?_, ?_⟩, by decide⟩
  · rw [Reconcile_Notes, formatDuplicateNotes_eq]
    by_cases h : (indexBanks bankFiles).duplicateBankIDs = []
    · rw [if_pos h, if_pos ((duplicateEntries_eq_nil_iff _).mpr h)]
    · rw [if_neg h, if_neg (fun e => h ((duplicateEntries_eq_nil_iff _).mp e))]
  · rw [duplicateEntries_keys]
    exact sortSlice_strict (fun k : GoString => k) _
      (by rw [List.map_id']; exact dup_nodup bankFiles)
  · rw [duplicateEntries_keys, (sortSlice_perm _ _).mem_iff, mem_dup_keys]
  · obtain ⟨h2, heq⟩ := mem_duplicateEntries bankFiles e he
    refine ⟨?_, fun n => ?_, ?_⟩
    · rw [heq]; exact appendUnique_nodup _ _ List.nodup_nil
    · rw [heq, mem_appendUnique, mem_occurrenceNames]
      simp
    · rw [heq]
      cases hf : firstRowWithId (allRows bankFiles) e.1 with
      | none =>
        have := (occurrenceNames_of_first (allRows bankFiles) e.1).2 hf
        rw [this] at h2
        simp at h2
      | some first =>
        obtain ⟨tl, htl⟩ := (occurrenceNames_of_first (allRows bankFiles) e.1).1 first hf
        rw [htl, appendUnique_head]
        rfl
  · intro hwf fa hfa fb hfb X hne hXa hXb
    obtain ⟨ra, hra, hraX⟩ := List.mem_map.mp hXa
    obtain ⟨rb, hrb, hrbX⟩ := List.mem_map.mp hXb
    have hra' : ra ∈ allRows bankFiles := List.mem_flatMap.mpr ⟨fa, hfa, hra⟩
    have hrb' : rb ∈ allRows bankFiles := List.mem_flatMap.mpr ⟨fb, hfb, hrb⟩
    have hna : fa.BankName ∈ occurrenceNames (allRows bankFiles) X :=
      (mem_occurrenceNames _ _ _).mpr ⟨ra, hra', hraX, hwf fa hfa ra hra⟩
    have hnb : fb.BankName ∈ occurrenceNames (allRows bankFiles) X :=
      (mem_occurrenceNames _ _ _).mpr ⟨rb, hrb', hrbX, hwf fb hfb rb hrb⟩
    have h2 := two_le_length_of_mem _ _ _ hna hnb hne
    have hkey : X ∈ (duplicateEntries (indexBanks bankFiles).duplicateBankIDs).map
        (fun e => e.1) := by
      rw [duplicateEntries_keys, (sortSlice_perm _ _).mem_iff, mem_dup_keys]
      exact h2
    obtain ⟨e, he, heX⟩ := List.mem_map.mp hkey
    obtain ⟨_, heq⟩ := mem_duplicateEntries bankFiles e he
    refine ⟨e, he, heX, ?_, ?_⟩
    · rw [heq, mem_appendUnique, heX]; exact Or.inr hna
    · rw [heq, mem_appendUnique, heX]; exact Or.inr hnb

theorem duplicate_note_content_witness :
    (∀ bf ∈ [(⟨str "bank_a", [⟨str "Y", 5, default, str "bank_a"⟩,
          ⟨str "X", 100, default, str "bank_a"⟩]⟩ : BankFile),
        ⟨str "bank_b", [⟨str "X", 100, default, str "bank_b"⟩]⟩],
      ∀ r ∈ bf.Rows, r.BankName = bf.BankName) ∧
    ∃ entries : List (GoString × List GoString),
      (Reconcile []
        [⟨str "bank_a", [⟨str "Y", 5, default, str "bank_a"⟩,
          ⟨str "X", 100, default, str "bank_a"⟩]⟩,
        ⟨str "bank_b", [⟨str "X", 100, default, str "bank_b"⟩]⟩]).Notes =
        (if entries = [] then [] else [noteText entries]) ∧
      ∃ e ∈ entries, e.1 = str "X" ∧ str "bank_a" ∈ e.2 ∧ str "bank_b" ∈ e.2 :=
  ⟨by decide,
    (duplicate_note_content []
      [⟨str "bank_a", [⟨str "Y", 5, default, str "bank_a"⟩,
        ⟨str "X", 100, default, str "bank_a"⟩]⟩,
      ⟨str "bank_b", [⟨str "X", 100, default, str "bank_b"⟩]⟩]).1.elim
      (fun entries h => ⟨entries, h.1,
        h.2.2.2.2 (by decide)
          ⟨str "bank_a", [⟨str "Y", 5, default, str "bank_a"⟩,
            ⟨str "X", 100, default, str "bank_a"⟩]⟩ (by decide)
          ⟨str "bank_b", [⟨str "X", 100, default, str "bank_b"⟩]⟩ (by decide)
          (str "X") (by decide) (by decide) (by decide)⟩)⟩

/-- C15, as stated, fails in two ways. When two system transactions share a
`TrxID` only the last one is compared: `X` with `CREDIT 100` then `CREDIT 200`
against bank amount 100 has a discrepancy entry although the first
transaction agrees with the bank. When the difference does not fit in
`int64` the entry does not carry its absolute value: `CREDIT 2^63 - 1`
against bank amount `-1` differ by `2^63` and `AbsDiffMinor` is `-2^63`. -/
theorem MatchedWithDiscrepancies_iff_counterexample :
    ((SignedAmount TypeCredit 100).1 = 100 ∧
      (Reconcile [⟨str "X", 100, TypeCredit, default⟩, ⟨str "X", 200, TypeCredit, default⟩]
          [⟨str "bank_a", [⟨str "X", 100, default, str "bank_a"⟩]⟩]).MatchedWithDiscrepancies
        = [⟨str "X", 200, 100, 100, str "bank_a"⟩]) ∧
    (isInt64 maxInt64 ∧ (SignedAmount TypeCredit maxInt64).1 = maxInt64 ∧
      |maxInt64 - (-1)| = 2 ^ 63 ∧
      (Reconcile [⟨str "X", maxInt64, TypeCredit, default⟩]
          [⟨str "bank_a", [⟨str "X", -1, default, str "bank_a"⟩]⟩]).MatchedWithDiscrepancies
        = [⟨str "X", maxInt64, -1, minInt64, str "bank_a"⟩]) := by
  decide

/-- C15, amended: let `t` be the system transaction kept for its `TrxID` (the
last one in input order with that `TrxID`) and `r` the retained bank row of
that identifier, both amounts being `int64`. The identifier appears in
`MatchedWithDiscrepancies` if and only if the signed amount
`t.Type.SignedAmount(t.AmountMinor)` differs from `r.AmountMinor`. An entry
with that identifier carries the signed amount, the retained bank amount and
bank name, and, when the absolute value of their difference is at most
`2^63 - 1`, that absolute value as `AbsDiffMinor`. -/
theorem MatchedWithDiscrepancies_iff (systemTxns : List SystemTransaction)
    (bankFiles : List BankFile) (t : SystemTransaction) (r : BankStatement)
    (hs : lastWithId systemTxns t.TrxID = some t)
    (hr : firstRowWithId (allRows bankFiles) t.TrxID = some r)
    (ht64 : isInt64 t.AmountMinor) (hr64 : isInt64 r.AmountMinor) :
    ((∃ d ∈ (Reconcile systemTxns bankFiles).MatchedWithDiscrepancies, d.ID = t.TrxID) ↔
        (SignedAmount t.Typ t.AmountMinor).1 ≠ r.AmountMinor) ∧
      ∀ d ∈ (Reconcile systemTxns bankFiles).MatchedWithDiscrepancies, d.ID = t.TrxID →
        d.SystemAmountMinor = (SignedAmount t.Typ t.AmountMinor).1 ∧
        d.BankAmountMinor = r.AmountMinor ∧ d.BankName = r.BankName ∧
        (|(SignedAmount t.Typ t.AmountMinor).1 - r.AmountMinor| ≤ maxInt64 →
          d.AbsDiffMinor = |(SignedAmount t.Typ t.AmountMinor).1 - r.AmountMinor|) := by
  have hz := diff_eq_zero_iff _ _ (SignedAmount_isInt64 t.Typ _ ht64) hr64
  constructor
  · constructor
    · rintro ⟨d, hd, hid⟩
      have := ((mem_MWD_kept _ _ t r hs hr d).mp ⟨hd, hid⟩).1
      exact fun h => this (hz.mpr h)
    · intro hne
      have hnz : abs64 (wrap64 ((SignedAmount t.Typ t.AmountMinor).1 - r.AmountMinor)) ≠ 0 :=
        fun h => hne (hz.mp h)
      have := (mem_MWD_kept _ _ t r hs hr _).mpr ⟨hnz, rfl⟩
      exact ⟨_, this.1, this.2⟩
  · intro d hd hid
    have hdeq := ((mem_MWD_kept _ _ t r hs hr d).mp ⟨hd, hid⟩).2
    subst hdeq
    exact ⟨rfl, rfl, rfl, fun h => diff_eq_abs _ _ h⟩

theorem MatchedWithDiscrepancies_iff_witness :
    (∃ d ∈ (Reconcile
        [⟨str "S3", 50000, TypeDebit, default⟩, ⟨str "SAME-1", 10000, TypeCredit, default⟩,
          ⟨str "SAME-2", 25000, TypeDebit, default⟩]
        [⟨str "bank_a", [⟨str "S3", -49500, default, str "bank_a"⟩,
          ⟨str "SAME-1", 10000, default, str "bank_a"⟩,
          ⟨str "SAME-2", -25000, default, str "bank_a"⟩]⟩]).MatchedWithDiscrepancies,
        d.ID = str "S3") ∧
      (Reconcile
        [⟨str "S3", 50000, TypeDebit, default⟩, ⟨str "SAME-1", 10000, TypeCredit, default⟩,
          ⟨str "SAME-2", 25000, TypeDebit, default⟩]
        [⟨str "bank_a", [⟨str "S3", -49500, default, str "bank_a"⟩,
          ⟨str "SAME-1", 10000, default, str "bank_a"⟩,
          ⟨str "SAME-2", -25000, default, str "bank_a"⟩]⟩]).MatchedWithDiscrepancies
        = [⟨str "S3", -50000, -49500, 500, str "bank_a"⟩] :=
  ⟨(MatchedWithDiscrepancies_iff
      [⟨str "S3", 50000, TypeDebit, default⟩, ⟨str "SAME-1", 10000, TypeCredit, default⟩,
        ⟨str "SAME-2", 25000, TypeDebit, default⟩]
      [⟨str "bank_a", [⟨str "S3", -49500, default, str "bank_a"⟩,
        ⟨str "SAME-1", 10000, default, str "bank_a"⟩,
        ⟨str "SAME-2", -25000, default, str "bank_a"⟩]⟩]
      ⟨str "S3", 50000, TypeDebit, default⟩ ⟨str "S3", -49500, default, str "bank_a"⟩
      (by decide) (by decide) (by decide) (by decide)).1.mpr (by decide),
    by decide⟩

/-- C16, as stated, fails: with discrepancies `2^63 - 1` and `1` the entries sum
to `2^63` and `TotalAmountDiscrepancy` is `-2^63`. -/
theorem TotalAmountDiscrepancy_sum_counterexample :
    ((Reconcile [⟨str "A", maxInt64, TypeCredit, default⟩, ⟨str "B", 1, TypeCredit, default⟩]
        [⟨str "bank_a", [⟨str "A", 0, default, str "bank_a"⟩,
          ⟨str "B", 0, default, str "bank_a"⟩]⟩]).MatchedWithDiscrepancies.map
        (fun d => d.AbsDiffMinor)).sum = 2 ^ 63 ∧
      (Reconcile [⟨str "A", maxInt64, TypeCredit, default⟩, ⟨str "B", 1, TypeCredit, default⟩]
        [⟨str "bank_a", [⟨str "A", 0, default, str "bank_a"⟩,
          ⟨str "B", 0, default, str "bank_a"⟩]⟩]).TotalAmountDiscrepancy = -2 ^ 63 := by
  decide

/-- C16, amended: `TotalAmountDiscrepancy` is the sum of `AbsDiffMinor` over all
entries of `MatchedWithDiscrepancies` taken in `int64`, that is reduced by
wrap-around; it is that sum itself whenever the sum is an `int64`, and 0 when
the list is empty. -/
theorem TotalAmountDiscrepancy_wrapped_sum (systemTxns : List SystemTransaction)
    (bankFiles : List BankFile) :
    (Reconcile systemTxns bankFiles).TotalAmountDiscrepancy =
        wrap64 (((Reconcile systemTxns bankFiles).MatchedWithDiscrepancies.map
          (fun d => d.AbsDiffMinor)).sum) ∧
      (isInt64 (((Reconcile systemTxns bankFiles).MatchedWithDiscrepancies.map
          (fun d => d.AbsDiffMinor)).sum) →
        (Reconcile systemTxns bankFiles).TotalAmountDiscrepancy =
          ((Reconcile systemTxns bankFiles).MatchedWithDiscrepancies.map
            (fun d => d.AbsDiffMinor)).sum) ∧
      ((Reconcile systemTxns bankFiles).MatchedWithDiscrepancies = [] →
        (Reconcile systemTxns bankFiles).TotalAmountDiscrepancy = 0) := by
  have h := Reconcile_TotalAmountDiscrepancy systemTxns bankFiles
  refine ⟨h, fun h64 => ?_, fun hnil => ?_⟩
  · rw [h, wrap64_of_isInt64 _ h64]
  · rw [h, hnil]; rfl

theorem TotalAmountDiscrepancy_wrapped_sum_witness :
    (Reconcile [⟨str "S3", 50000, TypeDebit, default⟩, ⟨str "S5", 700, TypeCredit, default⟩]
        [⟨str "bank_a", [⟨str "S3", -49500, default, str "bank_a"⟩,
          ⟨str "S5", 650, default, str "bank_a"⟩]⟩]).TotalAmountDiscrepancy =
      ((Reconcile [⟨str "S3", 50000, TypeDebit, default⟩, ⟨str "S5", 700, TypeCredit, default⟩]
        [⟨str "bank_a", [⟨str "S3", -49500, default, str "bank_a"⟩,
          ⟨str "S5", 650, default, str "bank_a"⟩]⟩]).MatchedWithDiscrepancies.map
        (fun d => d.AbsDiffMinor)).sum ∧
    (Reconcile [⟨str "S3", 50000, TypeDebit, default⟩, ⟨str "S5", 700, TypeCredit, default⟩]
        [⟨str "bank_a", [⟨str "S3", -49500, default, str "bank_a"⟩,
          ⟨str "S5", 650, default, str "bank_a"⟩]⟩]).TotalAmountDiscrepancy = 550 :=
  ⟨(TotalAmountDiscrepancy_wrapped_sum
      [⟨str "S3", 50000, TypeDebit, default⟩, ⟨str "S5", 700, TypeCredit, default⟩]
      [⟨str "bank_a", [⟨str "S3", -49500, default, str "bank_a"⟩,
        ⟨str "S5", 650, default, str "bank_a"⟩]⟩]).2.1 (by decide),
    by decide⟩

/-- C17: `SystemMissingInBank` is strictly ascending by `TrxID`,
`MatchedWithDiscrepancies` strictly ascending by `ID`, and every list of
`BankMissingInSystem` strictly ascending by `UniqueIdentifier`, in the
bytewise lexicographic order of strings; so no identifier is repeated within
a list. -/
theorem Reconcile_lists_strictly_ascending (systemTxns : List SystemTransaction)
    (bankFiles : List BankFile) :
    (Reconcile systemTxns bankFiles).SystemMissingInBank.Pairwise
        (fun a b => strLess a.TrxID b.TrxID = true) ∧
      (Reconcile systemTxns bankFiles).MatchedWithDiscrepancies.Pairwise
        (fun a b => strLess a.ID b.ID = true) ∧
      (∀ g ∈ (Reconcile systemTxns bankFiles).BankMissingInSystem,
        g.2.Pairwise (fun a b => strLess a.UniqueIdentifier b.UniqueIdentifier = true)) ∧
      ((Reconcile systemTxns bankFiles).SystemMissingInBank.map (fun u => u.TrxID)).Nodup ∧
      ((Reconcile systemTxns bankFiles).MatchedWithDiscrepancies.map (fun d => d.ID)).Nodup ∧
      (∀ g ∈ (Reconcile systemTxns bankFiles).BankMissingInSystem,
        (g.2.map (fun u => u.UniqueIdentifier)).Nodup) := by
  have h1 : ((((buildSysByID systemTxns).filter
        (fun e => (mapGet (indexBanks bankFiles).banked e.1).isNone)).map
      (fun e => (⟨e.1, e.2.AmountMinor, e.2.Typ⟩ : UnmatchedSystem))).map
        (fun u => u.TrxID)).Nodup := by
    rw [sysMissing_ids]
    exact (buildSysByID_nodup systemTxns).filter _
  have h2 : (((buildSysByID systemTxns).filterMap
      (diffEntry (indexBanks bankFiles).banked)).map (fun d => d.ID)).Nodup :=
    (filterMap_diffEntry_ids _ _).nodup (buildSysByID_nodup systemTxns)
  have h3 : ∀ g ∈ (Reconcile systemTxns bankFiles).BankMissingInSystem,
      g.2 = sortSlice (fun u => u.UniqueIdentifier)
        (missingOf (buildSysByID systemTxns) (indexBanks bankFiles).banked g.1) :=
    fun g hg => (Reconcile_BankMissing_group _ _ g hg).2
  have h4 : ∀ bn, ((missingOf (buildSysByID systemTxns) (indexBanks bankFiles).banked bn).map
      (fun u => u.UniqueIdentifier)).Nodup :=
    fun bn => missingOf_ids_nodup _ _ (banked_nodup bankFiles) bn
  refine ⟨?_, ?_, fun g hg => ?_, ?_, ?_, fun g hg => ?_⟩
  · rw [Reconcile_SystemMissingInBank]
    exact sortSlice_strict _ _ h1
  · rw [Reconcile_MatchedWithDiscrepancies]
    exact sortSlice_strict _ _ h2
  · rw [h3 g hg]
    exact sortSlice_strict _ _ (h4 g.1)
  · rw [Reconcile_SystemMissingInBank, ((sortSlice_perm _ _).map _).nodup_iff]
    exact h1
  · rw [Reconcile_MatchedWithDiscrepancies, ((sortSlice_perm _ _).map _).nodup_iff]
    exact h2
  · rw [h3 g hg, ((sortSlice_perm _ _).map _).nodup_iff]
    exact h4 g.1

/-- C18: when the system `TrxID`s are pairwise distinct and the bank
identifiers are pairwise distinct over all files, permuting the system
transactions, the bank files and the rows inside each file gives an equal
summary: the same counts, total discrepancy, three lists (each list of the
grouping map under its key) and notes. -/
theorem Reconcile_order_independent (systemTxns systemTxns' : List SystemTransaction)
    (bankFiles bankFiles' : List BankFile)
    (hs : (systemIds systemTxns).Nodup) (hb : (bankIds bankFiles).Nodup)
    (hps : systemTxns'.Perm systemTxns) (hpb : BanksPermuted bankFiles bankFiles') :
    SummaryEq (Reconcile systemTxns' bankFiles') (Reconcile systemTxns bankFiles) :=
  Reconcile_perm_invariant _ _ _ _ hs hb hps (allRows_perm_of_permuted _ _ hpb)

theorem Reconcile_order_independent_witness :
    SummaryEq
      (Reconcile [⟨str "S2", 700, TypeDebit, default⟩, ⟨str "S1", 500, TypeCredit, default⟩]
        [⟨str "bank_b", [⟨str "ONLY-B", -1, default, str "bank_b"⟩]⟩,
          ⟨str "bank_a", [⟨str "S2", -650, default, str "bank_a"⟩,
            ⟨str "ONLY-A", 9, default, str "bank_a"⟩]⟩])
      (Reconcile [⟨str "S1", 500, TypeCredit, default⟩, ⟨str "S2", 700, TypeDebit, default⟩]
        [⟨str "bank_a", [⟨str "ONLY-A", 9, default, str "bank_a"⟩,
            ⟨str "S2", -650, default, str "bank_a"⟩]⟩,
          ⟨str "bank_b", [⟨str "ONLY-B", -1, default, str "bank_b"⟩]⟩]) :=
  Reconcile_order_independent
    [⟨str "S1", 500, TypeCredit, default⟩, ⟨str "S2", 700, TypeDebit, default⟩]
    [⟨str "S2", 700, TypeDebit, default⟩, ⟨str "S1", 500, TypeCredit, default⟩]
    [⟨str "bank_a", [⟨str "ONLY-A", 9, default, str "bank_a"⟩,
        ⟨str "S2", -650, default, str "bank_a"⟩]⟩,
      ⟨str "bank_b", [⟨str "ONLY-B", -1, default, str "bank_b"⟩]⟩]
    [⟨str "bank_b", [⟨str "ONLY-B", -1, default, str "bank_b"⟩]⟩,
      ⟨str "bank_a", [⟨str "S2", -650, default, str "bank_a"⟩,
        ⟨str "ONLY-A", 9, default, str "bank_a"⟩]⟩]
    (by decide) (by decide) (List.Perm.swap _ _ _)
    ⟨[⟨str "bank_a", [⟨str "S2", -650, default, str "bank_a"⟩,
          ⟨str "ONLY-A", 9, default, str "bank_a"⟩]⟩,
        ⟨str "bank_b", [⟨str "ONLY-B", -1, default, str "bank_b"⟩]⟩],
      List.Forall₂.cons ⟨rfl, List.Perm.swap _ _ _⟩
        (List.Forall₂.cons ⟨rfl, List.Perm.refl _⟩ List.Forall₂.nil),
      List.Perm.swap _ _ _⟩

/-- C19: `SystemMissingInBank` holds one entry for each distinct system `TrxID`
that is the identifier of no bank row, and no other entry; each entry carries
the `AmountMinor`, as stored and not signed, and the `Type` of the transaction
kept for the identifier. -/
theorem SystemMissingInBank_exact (systemTxns : List SystemTransaction)
    (bankFiles : List BankFile) :
    ((Reconcile systemTxns bankFiles).SystemMissingInBank.map (fun u => u.TrxID)).Nodup ∧
      (∀ k, k ∈ (Reconcile systemTxns bankFiles).SystemMissingInBank.map (fun u => u.TrxID) ↔
        (k ∈ systemIds systemTxns ∧ k ∉ bankIds bankFiles)) ∧
      ∀ u ∈ (Reconcile systemTxns bankFiles).SystemMissingInBank,
        ∃ t ∈ systemTxns, lastWithId systemTxns u.TrxID = some t ∧
          u.AmountMinor = t.AmountMinor ∧ u.Typ = t.Typ := by
  rw [Reconcile_SystemMissingInBank]
  have hp := sortSlice_perm (fun u : UnmatchedSystem => u.TrxID)
    (((buildSysByID systemTxns).filter
        (fun e => (mapGet (indexBanks bankFiles).banked e.1).isNone)).map
      (fun e => (⟨e.1, e.2.AmountMinor, e.2.Typ⟩ : UnmatchedSystem)))
  have hids := sysMissing_ids (indexBanks bankFiles).banked (buildSysByID systemTxns)
  refine ⟨?_, fun k => ?_, fun u hu => ?_⟩
  · rw [(hp.map _).nodup_iff, hids]
    exact (buildSysByID_nodup systemTxns).filter _
  · rw [(hp.map _).mem_iff, hids, List.mem_filter, mem_buildSysByID_keys, mapGet_isNone_iff,
      mem_banked_keys]
  · have hu' := hp.mem_iff.mp hu
    obtain ⟨e, he, rfl⟩ := List.mem_map.mp hu'
    have he' := (List.mem_filter.mp he).1
    have hget := mapGet_of_mem _ (buildSysByID_nodup systemTxns) e he'
    rw [buildSysByID_get] at hget
    exact ⟨e.2, (mem_systemIds_of_last _ _ _ hget).2.2, hget, rfl, rfl⟩

/-- C20: the entries of `BankMissingInSystem` over all groups are the distinct
bank identifiers that are no system `TrxID`, each once; an entry stands under
the key that is the `BankName` of the retained (first) row of its identifier
and carries that row's `AmountMinor` and `BankName`; no group is empty. For
system `SAME-1` against `bank_a` rows `SAME-1: 10000`, `ONLY-A: 12345` the map
is `bank_a ↦ [ONLY-A 12345]`. -/
theorem BankMissingInSystem_exact (systemTxns : List SystemTransaction)
    (bankFiles : List BankFile) :
    (mapKeys (Reconcile systemTxns bankFiles).BankMissingInSystem).Nodup ∧
      (((Reconcile systemTxns bankFiles).BankMissingInSystem.flatMap (fun g => g.2)).map
        (fun u => u.UniqueIdentifier)).Nodup ∧
      (∀ k, k ∈ ((Reconcile systemTxns bankFiles).BankMissingInSystem.flatMap
            (fun g => g.2)).map (fun u => u.UniqueIdentifier) ↔
          (k ∈ bankIds bankFiles ∧ k ∉ systemIds systemTxns)) ∧
      (∀ g ∈ (Reconcile systemTxns bankFiles).BankMissingInSystem,
        g.2 ≠ [] ∧ ∀ u ∈ g.2, u.BankName = g.1 ∧
          ∃ r, firstRowWithId (allRows bankFiles) u.UniqueIdentifier = some r ∧
            r.BankName = g.1 ∧ u.AmountMinor = r.AmountMinor) ∧
      (Reconcile [⟨str "SAME-1", 10000, TypeCredit, default⟩]
          [⟨str "bank_a", [⟨str "SAME-1", 10000, default, str "bank_a"⟩,
            ⟨str "ONLY-A", 12345, default, str "bank_a"⟩]⟩]).BankMissingInSystem
        = [(str "bank_a", [⟨str "ONLY-A", 12345, str "bank_a"⟩])] := by
  have hflat := Reconcile_BankMissing_flatten systemTxns bankFiles
  have hids : (((indexBanks bankFiles).banked.filter
        (fun e => (mapGet (buildSysByID systemTxns) e.1).isNone)).map
      (fun e => (⟨e.1, e.2.AmountMinor, e.2.BankName⟩ : UnmatchedBank))).map
        (fun u => u.UniqueIdentifier) =
      (mapKeys (indexBanks bankFiles).banked).filter
        (fun k => (mapGet (buildSysByID systemTxns) k).isNone) := by
    unfold mapKeys
    rw [List.map_map, List.filter_map]
    rfl
  refine ⟨Reconcile_BankMissing_nodup _ _, ?_, fun k => ?_, fun g hg => ?_, by decide⟩
  · rw [(hflat.map _).nodup_iff, hids]
    exact (banked_nodup bankFiles).filter _
  · rw [(hflat.map _).mem_iff, hids, List.mem_filter, mem_banked_keys, mapGet_isNone_iff,
      mem_buildSysByID_keys]
  · obtain ⟨hne, heq⟩ := Reconcile_BankMissing_group _ _ g hg
    constructor
    · rw [heq]
      intro h
      have := (sortSlice_perm (fun u : UnmatchedBank => u.UniqueIdentifier)
        (missingOf (buildSysByID systemTxns) (indexBanks bankFiles).banked g.1)).length_eq
      rw [h] at this
      exact hne (List.length_eq_zero.mp this.symm)
    · intro u hu
      rw [heq] at hu
      have hu' := (sortSlice_perm _ _).mem_iff.mp hu
      obtain ⟨hbn, e, he, _, rfl⟩ := missingOf_mem _ _ _ u hu'
      have hget := mapGet_of_mem _ (banked_nodup bankFiles) e he
      rw [banked_get] at hget
      exact ⟨hbn, e.2, hget, hbn, rfl⟩

/-- C21, as stated, fails. System `X` with `DEBIT 1` is signed `-1`; against the
bank amount `2^63 - 1` the difference is `-2^63`, which `abs64` leaves
unchanged, so the entry has `AbsDiffMinor = -2^63` and
`TotalAmountDiscrepancy` is `-2^63`. And two entries with the positive
`AbsDiffMinor` `2^62` add up to `TotalAmountDiscrepancy = -2^63`. -/
theorem AbsDiffMinor_positive_counterexample :
    (isInt64 1 ∧ isInt64 maxInt64 ∧ (SignedAmount TypeDebit 1).1 = -1 ∧
      (Reconcile [⟨str "X", 1, TypeDebit, default⟩]
          [⟨str "bank_a", [⟨str "X", maxInt64, default, str "bank_a"⟩]⟩]).MatchedWithDiscrepancies
        = [⟨str "X", -1, maxInt64, minInt64, str "bank_a"⟩] ∧
      (Reconcile [⟨str "X", 1, TypeDebit, default⟩]
          [⟨str "bank_a", [⟨str "X", maxInt64, default, str "bank_a"⟩]⟩]).TotalAmountDiscrepancy
        = minInt64 ∧ minInt64 < 0) ∧
    (isInt64 (2 ^ 62) ∧
      (Reconcile [⟨str "A", 2 ^ 62, TypeCredit, default⟩, ⟨str "B", 2 ^ 62, TypeCredit, default⟩]
          [⟨str "bank_a", [⟨str "A", 0, default, str "bank_a"⟩,
            ⟨str "B", 0, default, str "bank_a"⟩]⟩]).MatchedWithDiscrepancies.map
          (fun d => d.AbsDiffMinor) = [2 ^ 62, 2 ^ 62] ∧
      (Reconcile [⟨str "A", 2 ^ 62, TypeCredit, default⟩, ⟨str "B", 2 ^ 62, TypeCredit, default⟩]
          [⟨str "bank_a", [⟨str "A", 0, default, str "bank_a"⟩,
            ⟨str "B", 0, default, str "bank_a"⟩]⟩]).TotalAmountDiscrepancy = -2 ^ 63) := by
  decide

/-- C21, amended: for amounts in the signed 64-bit range, every entry of
`MatchedWithDiscrepancies` has `AbsDiffMinor ≠ 0`; `AbsDiffMinor` is `-2^63`
when `SystemAmountMinor` and `BankAmountMinor` differ by exactly `2^63`, and
otherwise it is positive (and at most `2^63 - 1`). When no entry differs by
`2^63` and the `AbsDiffMinor` of the entries sum to at most `2^63 - 1`,
`TotalAmountDiscrepancy >= 0`. -/
theorem AbsDiffMinor_sign (systemTxns : List SystemTransaction) (bankFiles : List BankFile)
    (hsys : ∀ t ∈ systemTxns, isInt64 t.AmountMinor)
    (hbank : ∀ r ∈ allRows bankFiles, isInt64 r.AmountMinor) :
    (∀ d ∈ (Reconcile systemTxns bankFiles).MatchedWithDiscrepancies,
      d.AbsDiffMinor ≠ 0 ∧
      (|d.SystemAmountMinor - d.BankAmountMinor| = 2 ^ 63 → d.AbsDiffMinor = minInt64) ∧
      (|d.SystemAmountMinor - d.BankAmountMinor| ≠ 2 ^ 63 →
        0 < d.AbsDiffMinor ∧ d.AbsDiffMinor ≤ maxInt64)) ∧
    ((∀ d ∈ (Reconcile systemTxns bankFiles).MatchedWithDiscrepancies,
        |d.SystemAmountMinor - d.BankAmountMinor| ≠ 2 ^ 63) →
      ((Reconcile systemTxns bankFiles).MatchedWithDiscrepancies.map
        (fun d => d.AbsDiffMinor)).sum ≤ maxInt64 →
      0 ≤ (Reconcile systemTxns bankFiles).TotalAmountDiscrepancy) := by
  have hentry : ∀ d ∈ (Reconcile systemTxns bankFiles).MatchedWithDiscrepancies,
      d.AbsDiffMinor ≠ 0 ∧
      (|d.SystemAmountMinor - d.BankAmountMinor| = 2 ^ 63 → d.AbsDiffMinor = minInt64) ∧
      (|d.SystemAmountMinor - d.BankAmountMinor| ≠ 2 ^ 63 →
        0 < d.AbsDiffMinor ∧ d.AbsDiffMinor ≤ maxInt64) := by
    intro d hd
    obtain ⟨hS, hB, hnz, habs⟩ := MWD_entry systemTxns bankFiles hsys hbank d hd
    have h := abs64_abs64_sign _ (isInt64_wrap64 (d.SystemAmountMinor - d.BankAmountMinor)) hnz
    have hmin := wrap64_sub_eq_min_iff _ _ hS hB
    rw [← habs] at h
    exact ⟨h.1, fun heq => h.2.1 (hmin.mpr heq), fun hne => h.2.2 (fun hw => hne (hmin.mp hw))⟩
  refine ⟨hentry, fun hne hsum => ?_⟩
  have hnonneg : 0 ≤ ((Reconcile systemTxns bankFiles).MatchedWithDiscrepancies.map
      (fun d => d.AbsDiffMinor)).sum := by
    apply List.sum_nonneg
    intro x hx
    obtain ⟨d, hd, rfl⟩ := List.mem_map.mp hx
    exact le_of_lt ((hentry d hd).2.2 (hne d hd)).1
  rw [Reconcile_TotalAmountDiscrepancy, wrap64_of_isInt64]
  · exact hnonneg
  · unfold maxInt64 at hsum
    unfold isInt64
    omega

theorem AbsDiffMinor_sign_witness :
    (∀ t ∈ [(⟨str "S3", 50000, TypeDebit, default⟩ : SystemTransaction),
        ⟨str "S6", 1200, TypeCredit, default⟩], isInt64 t.AmountMinor) ∧
    (∀ r ∈ allRows [⟨str "bank_a", [⟨str "S3", -49500, default, str "bank_a"⟩,
        ⟨str "S6", 1250, default, str "bank_a"⟩]⟩], isInt64 r.AmountMinor) ∧
    (∀ d ∈ (Reconcile [⟨str "S3", 50000, TypeDebit, default⟩,
          ⟨str "S6", 1200, TypeCredit, default⟩]
        [⟨str "bank_a", [⟨str "S3", -49500, default, str "bank_a"⟩,
          ⟨str "S6", 1250, default, str "bank_a"⟩]⟩]).MatchedWithDiscrepancies,
      d.AbsDiffMinor ≠ 0) ∧
    0 ≤ (Reconcile [⟨str "S3", 50000, TypeDebit, default⟩,
          ⟨str "S6", 1200, TypeCredit, default⟩]
        [⟨str "bank_a", [⟨str "S3", -49500, default, str "bank_a"⟩,
          ⟨str "S6", 1250, default, str "bank_a"⟩]⟩]).TotalAmountDiscrepancy :=
  ⟨by decide, by decide,
    fun d hd => ((AbsDiffMinor_sign
      [⟨str "S3", 50000, TypeDebit, default⟩, ⟨str "S6", 1200, TypeCredit, default⟩]
      [⟨str "bank_a", [⟨str "S3", -49500, default, str "bank_a"⟩,
        ⟨str "S6", 1250, default, str "bank_a"⟩]⟩] (by decide) (by decide)).1 d hd).1,
    (AbsDiffMinor_sign
      [⟨str "S3", 50000, TypeDebit, default⟩, ⟨str "S6", 1200, TypeCredit, default⟩]
      [⟨str "bank_a", [⟨str "S3", -49500, default, str "bank_a"⟩,
        ⟨str "S6", 1250, default, str "bank_a"⟩]⟩] (by decide) (by decide)).2
      (by decide) (by decide)⟩

/-- C22: let `t` be the last system transaction with `TrxID` `k`, however many
transactions share that identifier. Compared with the input without the
transactions of `k`, `TotalProcessed` grows by the number of transactions of
`k`, while `TotalMatched` grows by 1 if `k` is a bank identifier and by 0 if
not. `SystemMissingInBank` has no entry of `k` if `k` is a bank identifier and
otherwise the one entry with `AmountMinor` and `Type` of `t`;
`MatchedWithDiscrepancies` has at most one entry of `k`, and it carries the
signed amount of `t`. -/
theorem shared_TrxID_classified_once (systemTxns : List SystemTransaction)
    (bankFiles : List BankFile) (k : GoString) (t : SystemTransaction)
    (hs : lastWithId systemTxns k = some t) :
    (Reconcile systemTxns bankFiles).TotalProcessed =
        (Reconcile (withoutId systemTxns k) bankFiles).TotalProcessed +
          (withId systemTxns k).length ∧
      (Reconcile systemTxns bankFiles).TotalMatched =
        (Reconcile (withoutId systemTxns k) bankFiles).TotalMatched +
          (if k ∈ bankIds bankFiles then 1 else 0) ∧
      (Reconcile systemTxns bankFiles).SystemMissingInBank.filter (fun u => u.TrxID == k) =
        (if k ∈ bankIds bankFiles then [] else [⟨k, t.AmountMinor, t.Typ⟩]) ∧
      ((Reconcile systemTxns bankFiles).MatchedWithDiscrepancies.filter
        (fun d => d.ID == k)).length ≤ 1 ∧
      ∀ d ∈ (Reconcile systemTxns bankFiles).MatchedWithDiscrepancies, d.ID = k →
        d.SystemAmountMinor = (SignedAmount t.Typ t.AmountMinor).1 := by
  have hk := (mem_systemIds_of_last systemTxns k t hs).1
  refine ⟨?_, ?_, ?_, ?_, ?_⟩
  · rw [Reconcile_TotalProcessed, Reconcile_TotalProcessed]
    have := length_filter_split systemTxns (fun x => x.TrxID == k)
    unfold withoutId withId
    have he : (fun x : SystemTransaction => x.TrxID != k) = (fun x => !(x.TrxID == k)) := rfl
    rw [he]
    omega
  · rw [Reconcile_TotalMatched_eq, Reconcile_TotalMatched_eq, systemIds_withoutId]
    exact dedup_filter_length_without _ _ k hk
  · by_cases hb : k ∈ bankIds bankFiles
    · rw [if_pos hb]
      apply filter_key_eq_nil (fun u : UnmatchedSystem => u.TrxID)
      rw [SMB_id_mem_iff]
      exact fun h => h.2 hb
    · rw [if_neg hb]
      exact filter_key_eq_singleton (fun u : UnmatchedSystem => u.TrxID) _
        (SMB_ids_nodup systemTxns bankFiles) ⟨k, t.AmountMinor, t.Typ⟩
        (SMB_entry_of_last systemTxns bankFiles k t hs hb)
  · exact filter_key_length_le_one (fun d : MatchedDiff => d.ID) _
      (MWD_ids_nodup systemTxns bankFiles) k
  · intro d hd hid
    exact MWD_entry_of_last systemTxns bankFiles k t hs d hd hid

theorem shared_TrxID_classified_once_witness :
    lastWithId [⟨str "X", 100, TypeCredit, default⟩, ⟨str "Y", 5, TypeDebit, default⟩,
        ⟨str "X", 200, TypeCredit, default⟩, ⟨str "Z", 7, TypeCredit, default⟩,
        ⟨str "Z", 8, TypeDebit, default⟩] (str "X") =
      some ⟨str "X", 200, TypeCredit, default⟩ ∧
    (Reconcile [⟨str "X", 100, TypeCredit, default⟩, ⟨str "Y", 5, TypeDebit, default⟩,
        ⟨str "X", 200, TypeCredit, default⟩, ⟨str "Z", 7, TypeCredit, default⟩,
        ⟨str "Z", 8, TypeDebit, default⟩]
      [⟨str "bank_a", [⟨str "X", 100, default, str "bank_a"⟩]⟩]).TotalProcessed =
      (Reconcile [⟨str "Y", 5, TypeDebit, default⟩, ⟨str "Z", 7, TypeCredit, default⟩,
        ⟨str "Z", 8, TypeDebit, default⟩]
      [⟨str "bank_a", [⟨str "X", 100, default, str "bank_a"⟩]⟩]).TotalProcessed + 2 ∧
    (Reconcile [⟨str "X", 100, TypeCredit, default⟩, ⟨str "Y", 5, TypeDebit, default⟩,
        ⟨str "X", 200, TypeCredit, default⟩, ⟨str "Z", 7, TypeCredit, default⟩,
        ⟨str "Z", 8, TypeDebit, default⟩]
      [⟨str "bank_a", [⟨str "X", 100, default, str "bank_a"⟩]⟩]).TotalMatched = 1 ∧
    (Reconcile [⟨str "X", 100, TypeCredit, default⟩, ⟨str "Y", 5, TypeDebit, default⟩,
        ⟨str "X", 200, TypeCredit, default⟩, ⟨str "Z", 7, TypeCredit, default⟩,
        ⟨str "Z", 8, TypeDebit, default⟩]
      [⟨str "bank_a", [⟨str "X", 100, default, str "bank_a"⟩]⟩]).SystemMissingInBank =
      [⟨str "Y", 5, str "DEBIT"⟩, ⟨str "Z", 8, str "DEBIT"⟩] ∧
    (Reconcile [⟨str "X", 100, TypeCredit, default⟩, ⟨str "Y", 5, TypeDebit, default⟩,
        ⟨str "X", 200, TypeCredit, default⟩, ⟨str "Z", 7, TypeCredit, default⟩,
        ⟨str "Z", 8, TypeDebit, default⟩]
      [⟨str "bank_a", [⟨str "X", 100, default, str "bank_a"⟩]⟩]).MatchedWithDiscrepancies =
      [⟨str "X", 200, 100, 100, str "bank_a"⟩] :=
  ⟨by decide,
    (shared_TrxID_classified_once
      [⟨str "X", 100, TypeCredit, default⟩, ⟨str "Y", 5, TypeDebit, default⟩,
        ⟨str "X", 200, TypeCredit, default⟩, ⟨str "Z", 7, TypeCredit, default⟩,
        ⟨str "Z", 8, TypeDebit, default⟩]
      [⟨str "bank_a", [⟨str "X", 100, default, str "bank_a"⟩]⟩] (str "X")
      ⟨str "X", 200, TypeCredit, default⟩ (by decide)).1.trans (by decide),
    by decide, by decide, by decide⟩

/-- C23, as stated, fails for a far year: the seconds of a `time.Time` are an
`int64`, and midnight of 1 January 292277024628 is `2^63 + 2190592` seconds
after 0001-01-01T00:00:00Z, held as a negative number. With `start`
2024-02-01 and that day as `end`, the day 2024-02-10 is on or after the start
day and on or before the end day, yet `betweenDays` is false:
`FilterSystemByDate` drops the transaction and `FilterBanksByDate` the row. -/
theorem date_filtering_far_year_counterexample :
    (validDate ⟨2024, 2, 10, 0, 0, 0, 0, 0⟩ ∧ validDate ⟨2024, 2, 1, 0, 0, 0, 0, 0⟩ ∧
      validDate ⟨292277024628, 1, 1, 0, 0, 0, 0, 0⟩) ∧
    (⟨292277024628, 1, 1, 0, 0, 0, 0, 0⟩ : Time).absDays * 86400 = 2 ^ 63 + 2190592 ∧
    (dateOnly ⟨292277024628, 1, 1, 0, 0, 0, 0, 0⟩).sec = -2 ^ 63 + 2190592 ∧
    inDayRange ⟨2024, 2, 10, 0, 0, 0, 0, 0⟩ ⟨2024, 2, 1, 0, 0, 0, 0, 0⟩
      ⟨292277024628, 1, 1, 0, 0, 0, 0, 0⟩ = true ∧
    betweenDays ⟨2024, 2, 10, 0, 0, 0, 0, 0⟩ ⟨2024, 2, 1, 0, 0, 0, 0, 0⟩
      ⟨292277024628, 1, 1, 0, 0, 0, 0, 0⟩ = false ∧
    FilterSystemByDate [⟨str "S1", 100, TypeCredit, ⟨2024, 2, 10, 0, 0, 0, 0, 0⟩⟩]
      ⟨2024, 2, 1, 0, 0, 0, 0, 0⟩ ⟨292277024628, 1, 1, 0, 0, 0, 0, 0⟩ = [] ∧
    FilterBanksByDate
      [⟨str "bank_a", [⟨str "S1", 100, ⟨2024, 2, 10, 0, 0, 0, 0, 0⟩, str "bank_a"⟩]⟩]
      ⟨2024, 2, 1, 0, 0, 0, 0, 0⟩ ⟨292277024628, 1, 1, 0, 0, 0, 0, 0⟩ =
        [⟨str "bank_a", []⟩] := by
  decide

/-- C23, amended: when `start`, `end`, the transaction times and the row dates
are calendar dates of the years -292277022399 to 292277024626,
`FilterSystemByDate` returns, in their original order, exactly the
transactions whose calendar day (year, month, day as the time shows them) is
on or after the day of `start` and on or before the day of `end`.
`FilterBanksByDate` returns one file for each input file, in the same order
and with the same `BankName`, whose `Rows` are exactly the rows of that file
with a day in that range, in their original order; a file all of whose rows
are filtered out is returned with no rows. For any times at all,
`FilterBanksByDate` returns as many files as it is given, with the same
`BankName`s in the same order. -/
theorem date_filtering_inclusive (txns : List SystemTransaction) (files : List BankFile)
    (start endTime : Time) (hs : dateInRange start) (he : dateInRange endTime)
    (htx : ∀ x ∈ txns, dateInRange x.TransactionTime)
    (hrows : ∀ bf ∈ files, ∀ r ∈ bf.Rows, dateInRange r.Date) :
    FilterSystemByDate txns start endTime =
        txns.filter (fun x => inDayRange x.TransactionTime start endTime) ∧
      FilterBanksByDate files start endTime =
        files.map (fun bf => (⟨bf.BankName,
          bf.Rows.filter (fun r => inDayRange r.Date start endTime)⟩ : BankFile)) ∧
      (∀ (fs : List BankFile) (s e : Time),
        (FilterBanksByDate fs s e).length = fs.length ∧
        (FilterBanksByDate fs s e).map (fun bf => bf.BankName) =
          fs.map (fun bf => bf.BankName)) := by
  refine ⟨?_, ?_, fun fs s e => ⟨?_, ?_⟩⟩
  · rw [FilterSystemByDate_eq_filter]
    apply List.filter_congr
    intro x hx
    exact betweenDays_eq_inDayRange _ _ _ (htx x hx) hs he
  · rw [FilterBanksByDate_eq_map]
    apply List.map_congr_left
    intro bf hbf
    congr 1
    apply List.filter_congr
    intro r hr
    exact betweenDays_eq_inDayRange _ _ _ (hrows bf hbf r hr) hs he
  · rw [FilterBanksByDate_eq_map, List.length_map]
  · rw [FilterBanksByDate_eq_map, List.map_map]
    rfl

theorem date_filtering_inclusive_witness :
    (dateInRange ⟨2024, 2, 1, 0, 0, 0, 0, 0⟩ ∧ dateInRange ⟨2024, 2, 29, 0, 0, 0, 0, 0⟩) ∧
    FilterSystemByDate
        [⟨str "S0", 100, TypeCredit, ⟨2024, 1, 31, 23, 59, 59, 0, 0⟩⟩,
        ⟨str "S1", 100, TypeCredit, ⟨2024, 2, 1, 0, 0, 0, 0, 25200⟩⟩,
        ⟨str "S2", 100, TypeDebit, ⟨2024, 2, 15, 12, 0, 0, 0, 0⟩⟩,
        ⟨str "S3", 100, TypeDebit, ⟨2024, 2, 29, 23, 59, 59, 0, -18000⟩⟩,
        ⟨str "S4", 100, TypeDebit, ⟨2024, 3, 1, 0, 0, 0, 0, 0⟩⟩]
        ⟨2024, 2, 1, 0, 0, 0, 0, 0⟩ ⟨2024, 2, 29, 0, 0, 0, 0, 0⟩ =
      [⟨str "S1", 100, TypeCredit, ⟨2024, 2, 1, 0, 0, 0, 0, 25200⟩⟩,
        ⟨str "S2", 100, TypeDebit, ⟨2024, 2, 15, 12, 0, 0, 0, 0⟩⟩,
        ⟨str "S3", 100, TypeDebit, ⟨2024, 2, 29, 23, 59, 59, 0, -18000⟩⟩] ∧
    FilterBanksByDate
        [⟨str "bank_a", [⟨str "S1", 100, ⟨2024, 2, 1, 0, 0, 0, 0, 0⟩, str "bank_a"⟩,
        ⟨str "S4", -100, ⟨2024, 3, 1, 0, 0, 0, 0, 0⟩, str "bank_a"⟩,
        ⟨str "S3", -100, ⟨2024, 2, 29, 0, 0, 0, 0, 0⟩, str "bank_a"⟩]⟩,
        ⟨str "bank_b", [⟨str "S0", 100, ⟨2024, 1, 31, 0, 0, 0, 0, 0⟩, str "bank_b"⟩]⟩]
        ⟨2024, 2, 1, 0, 0, 0, 0, 0⟩ ⟨2024, 2, 29, 0, 0, 0, 0, 0⟩ =
      [⟨str "bank_a", [⟨str "S1", 100, ⟨2024, 2, 1, 0, 0, 0, 0, 0⟩, str "bank_a"⟩,
          ⟨str "S3", -100, ⟨2024, 2, 29, 0, 0, 0, 0, 0⟩, str "bank_a"⟩]⟩,
        ⟨str "bank_b", []⟩] :=
  ⟨by decide,
    (date_filtering_inclusive
      [⟨str "S0", 100, TypeCredit, ⟨2024, 1, 31, 23, 59, 59, 0, 0⟩⟩,
        ⟨str "S1", 100, TypeCredit, ⟨2024, 2, 1, 0, 0, 0, 0, 25200⟩⟩,
        ⟨str "S2", 100, TypeDebit, ⟨2024, 2, 15, 12, 0, 0, 0, 0⟩⟩,
        ⟨str "S3", 100, TypeDebit, ⟨2024, 2, 29, 23, 59, 59, 0, -18000⟩⟩,
        ⟨str "S4", 100, TypeDebit, ⟨2024, 3, 1, 0, 0, 0, 0, 0⟩⟩]
      [⟨str "bank_a", [⟨str "S1", 100, ⟨2024, 2, 1, 0, 0, 0, 0, 0⟩, str "bank_a"⟩,
        ⟨str "S4", -100, ⟨2024, 3, 1, 0, 0, 0, 0, 0⟩, str "bank_a"⟩,
        ⟨str "S3", -100, ⟨2024, 2, 29, 0, 0, 0, 0, 0⟩, str "bank_a"⟩]⟩,
        ⟨str "bank_b", [⟨str "S0", 100, ⟨2024, 1, 31, 0, 0, 0, 0, 0⟩, str "bank_b"⟩]⟩]
      ⟨2024, 2, 1, 0, 0, 0, 0, 0⟩ ⟨2024, 2, 29, 0, 0, 0, 0, 0⟩
      (by decide) (by decide) (by decide) (by decide)).1.trans (by decide),
    (date_filtering_inclusive
      [⟨str "S0", 100, TypeCredit, ⟨2024, 1, 31, 23, 59, 59, 0, 0⟩⟩,
        ⟨str "S1", 100, TypeCredit, ⟨2024, 2, 1, 0, 0, 0, 0, 25200⟩⟩,
        ⟨str "S2", 100, TypeDebit, ⟨2024, 2, 15, 12, 0, 0, 0, 0⟩⟩,
        ⟨str "S3", 100, TypeDebit, ⟨2024, 2, 29, 23, 59, 59, 0, -18000⟩⟩,
        ⟨str "S4", 100, TypeDebit, ⟨2024, 3, 1, 0, 0, 0, 0, 0⟩⟩]
      [⟨str "bank_a", [⟨str "S1", 100, ⟨2024, 2, 1, 0, 0, 0, 0, 0⟩, str "bank_a"⟩,
        ⟨str "S4", -100, ⟨2024, 3, 1, 0, 0, 0, 0, 0⟩, str "bank_a"⟩,
        ⟨str "S3", -100, ⟨2024, 2, 29, 0, 0, 0, 0, 0⟩, str "bank_a"⟩]⟩,
        ⟨str "bank_b", [⟨str "S0", 100, ⟨2024, 1, 31, 0, 0, 0, 0, 0⟩, str "bank_b"⟩]⟩]
      ⟨2024, 2, 1, 0, 0, 0, 0, 0⟩ ⟨2024, 2, 29, 0, 0, 0, 0, 0⟩
      (by decide) (by decide) (by decide) (by decide)).2.1.trans (by decide)⟩

end Recon
